import Mathlib

/-! TreeDS: binary nodes, pre-order policy and the `any_matcher` engine.

A shallow embedding of the parts of the repository that the specification
talks about, followed by theorems about what that code does.

Data model:

* A `binary_node<T>*` is a `BTree`: `nil` is the null pointer, `node l v r`
  is a node that owns its `left` and `right` children
  (`include/TreeDS/node/binary_node.hpp`).
* A pointer to a node *inside* a tree is a `NodePtr`: the list of child slots
  met while following `parent` links from the node up to the root, so the
  parent of `s :: p` is `p` and the root is `[]`.  Two pointers are the same
  C++ pointer exactly when the lists are equal.
-/

namespace TreeDS

/-! ## Binary nodes -/

/-- The two owning links of a `binary_node`. -/
inductive Slot where
  | left : Slot
  | right : Slot
deriving DecidableEq

/-- Owning pointer to a `binary_node<T>`; `nil` is `nullptr`. -/
inductive BTree (α : Type) where
  | nil : BTree α
  | node (left : BTree α) (value : α) (right : BTree α) : BTree α
deriving DecidableEq

/-- Non-owning pointer to a node of a tree, as the chain of slots up to the root. -/
abbrev NodePtr := List Slot

namespace BTree

variable {α : Type}

/-- Null test of a node pointer (`ptr == nullptr`). -/
def isNil : BTree α → Bool
  | nil => true
  | node _ _ _ => false

/-- The member `left` or `right` of a node; following a link of `nullptr` gives `nullptr`. -/
def child : BTree α → Slot → BTree α
  | nil, _ => nil
  | node l _ _, Slot.left => l
  | node _ _ r, Slot.right => r

/-- The node a pointer designates (with everything it owns); `nil` when no such node exists. -/
def subtree (t : BTree α) : NodePtr → BTree α
  | [] => t
  | s :: p => (subtree t p).child s

/-- Number of nodes owned through a pointer. -/
def count : BTree α → Nat
  | nil => 0
  | node l _ r => count l + 1 + count r

/-- Pre-order listing of the nodes of a tree: a node, then the nodes below its
left child, then the nodes below its right child. -/
def preorder : BTree α → List NodePtr
  | nil => []
  | node l _ r =>
    [] :: ((preorder l).map (fun q => q ++ [Slot.left]) ++ (preorder r).map (fun q => q ++ [Slot.right]))

end BTree

section accessors

variable {α : Type}

/-- Accessor `node::get_value`, `none` on a pointer that designates no node. -/
def get_value (t : BTree α) (n : NodePtr) : Option α :=
  match t.subtree n with
  | BTree.nil => none
  | BTree.node _ v _ => some v

/-- Accessor `node::get_parent`: the `parent` back-reference, `none` for the root. -/
def get_parent (n : NodePtr) : Option NodePtr :=
  match n with
  | [] => none
  | _ :: p => some p

/-- Modelled from the spec: accessor `is_root` of the node abstraction (the base class
`node` is not among the sources): the node has no parent. -/
def is_root (n : NodePtr) : Bool :=
  match n with
  | [] => true
  | _ :: _ => false

/-- Accessor `binary_node::get_left`. -/
def get_left (t : BTree α) (n : NodePtr) : Option NodePtr :=
  if (t.subtree (Slot.left :: n)).isNil then none else some (Slot.left :: n)

/-- Accessor `binary_node::get_right`. -/
def get_right (t : BTree α) (n : NodePtr) : Option NodePtr :=
  if (t.subtree (Slot.right :: n)).isNil then none else some (Slot.right :: n)

/-- Accessor `binary_node::first_child` (called `get_first_child` by the policies):
`left ? left : right`. -/
def get_first_child (t : BTree α) (n : NodePtr) : Option NodePtr :=
  match get_left t n with
  | some l => some l
  | none => get_right t n

/-- Accessor `binary_node::last_child` (called `get_last_child` by the policies):
`right ? right : left`. -/
def get_last_child (t : BTree α) (n : NodePtr) : Option NodePtr :=
  match get_right t n with
  | some r => some r
  | none => get_left t n

/-- Accessor `binary_node::get_next_sibling`: the parent's `right` when this node is
the parent's `left`, `nullptr` otherwise. -/
def get_next_sibling (t : BTree α) (n : NodePtr) : Option NodePtr :=
  match n with
  | [] => none
  | Slot.left :: p => get_right t p
  | Slot.right :: _ => none

end accessors

/-! ## Pre-order policy (`include/TreeDS/policy/pre_order.hpp`) -/

/-- Four-argument `keep_calling(from, call, test, result)` of `utility.hpp` with
`call = get_parent`: climb from `from`; at the first step `prev → next` where
`test prev next` holds return `result prev next`; when `call` returns `nullptr`
return the node reached. -/
def keep_calling (test : NodePtr → NodePtr → Bool) (result : NodePtr → NodePtr → Option NodePtr) :
    NodePtr → Option NodePtr
  | [] => some []
  | s :: next =>
    if test (s :: next) next then result (s :: next) next
    else keep_calling test result next

namespace pre_order_impl

variable {α : Type}

/-- Method `pre_order_impl::go_first`: the root itself. -/
def go_first (root : NodePtr) : Option NodePtr := some root

/-- Method `pre_order_impl::increment`. -/
def increment (t : BTree α) (from_ : NodePtr) : Option NodePtr :=
  match get_first_child t from_ with
  | some result => some result
  | none =>
    -- cross to another branch (on the right)
    match keep_calling
        (fun child _ => (get_next_sibling t child).isSome)
        (fun child _ => get_next_sibling t child)
        from_ with
    | none => none
    | some result => if is_root result then none else some result

/-- The sequence `start, increment start, increment (increment start), ...`
cut at the first `nullptr`, at most `fuel` elements long. -/
def walk (t : BTree α) : Nat → Option NodePtr → List NodePtr
  | 0, _ => []
  | _ + 1, none => []
  | fuel + 1, some n => n :: walk t fuel (increment t n)

end pre_order_impl


/-! ## Matchers (`include/TreeDS/matcher/node/any_matcher.hpp`)

The base class `matcher`, the value matchers, `one_matcher`, the capture
nodes, the navigators and the navigated traversal cursor are not among the
sources; what the engine needs of them is modelled from the specification
and marked as such. -/

/-- Enumeration `quantifier`. -/
inductive quantifier where
  | DEFAULT : quantifier
  | RELUCTANT : quantifier
  | GREEDY : quantifier
  | POSSESSIVE : quantifier
deriving DecidableEq

/-- Modelled from the spec: the always-true wildcard value matcher (`true_matcher`,
whose header is not among the sources). -/
def true_matcher {α : Type} : α → Bool := fun _ => true

/-- A node of the pattern tree together with its per-attempt state `target_node`
(the concrete node currently associated with the matcher, or absent).  A value
matcher is represented by its predicate on values. -/
inductive Matcher (α : Type) where
  /-- Class `any_matcher<Quantifier, ValueMatcher, Children...>`. -/
  | any_matcher (Quantifier : quantifier) (value : α → Bool) (target_node : Option NodePtr)
      (children : List (Matcher α)) : Matcher α
  /-- Modelled from the spec: the childless EXACT-ONE matcher `one(v)`, whose class
  `one_matcher` is not among the sources; it matches precisely one node whose value
  its value matcher accepts, never matches null, and clones just the value. -/
  | one_matcher (value : α → Bool) (target_node : Option NodePtr) : Matcher α

/-- Factory `star<Quantifier>(value_matcher)`: a childless `any_matcher`. -/
def star {α : Type} (Quantifier : quantifier) (value_matcher : α → Bool) : Matcher α :=
  Matcher.any_matcher Quantifier value_matcher none []

/-- What can go wrong while a result is materialised. -/
inductive Fault where
  | out_of_fuel : Fault
  | null_dereference : Fault
deriving DecidableEq

namespace Matcher

variable {α : Type}

/-- Modelled from the spec: `matcher::get_node`, the concrete node currently
associated with this matcher, or absent. -/
def get_node : Matcher α → Option NodePtr
  | any_matcher _ _ target_node _ => target_node
  | one_matcher _ target_node => target_node

/-- The ordered child matchers. -/
def children : Matcher α → List (Matcher α)
  | any_matcher _ _ _ cs => cs
  | one_matcher _ _ => []

/-- The stored value matcher, `matcher::match_value`. -/
def match_value : Matcher α → α → Bool
  | any_matcher _ value _ _ => value
  | one_matcher value _ => value

/-- Assignment `this->target_node = node`. -/
def set_target (node : Option NodePtr) : Matcher α → Matcher α
  | any_matcher q value _ cs => any_matcher q value node cs
  | one_matcher value _ => one_matcher value node

mutual
/-- Constant `any_matcher::info.matches_null`: `(... && Children::info.matches_null)`;
a leaf EXACT-ONE matcher never matches null. -/
def matches_null : Matcher α → Bool
  | any_matcher _ _ _ cs => all_match_null cs
  | one_matcher _ _ => false
/-- The fold `(... && Children::info.matches_null)`. -/
def all_match_null : List (Matcher α) → Bool
  | [] => true
  | c :: cs => matches_null c && all_match_null cs
end

/-- Number of children that require a node in order to match (the size of the tuple
built in `CHILDREN_MAY_STEAL_TARGET`). -/
def count_requiring_node : List (Matcher α) → Nat
  | [] => 0
  | c :: cs => (if matches_null c then 0 else 1) + count_requiring_node cs

/-- Constant `any_matcher::CHILDREN_MAY_STEAL_TARGET` of a matcher with the given
children: no more than one child requires a node in order to match. -/
def CHILDREN_MAY_STEAL_TARGET (children : List (Matcher α)) : Bool :=
  decide (count_requiring_node children ≤ 1)

mutual
/-- Modelled from the spec: `matcher::reset`, clearing all per-attempt target state
recursively. -/
def reset : Matcher α → Matcher α
  | any_matcher q value _ cs => any_matcher q value none (reset_all cs)
  | one_matcher value _ => one_matcher value none
/-- Modelled from the spec: `reset` of every child. -/
def reset_all : List (Matcher α) → List (Matcher α)
  | [] => []
  | c :: cs => reset c :: reset_all cs
end

end Matcher

section engine

variable {α : Type}

/-- Application of a value matcher to `node.get_value()`. -/
def accepts (value : α → Bool) (t : BTree α) (n : NodePtr) : Bool :=
  match get_value t n with
  | some v => value v
  | none => false

/-- The lambda `predicate` of `match_node_impl`: stop when finding a non-matching node. -/
def predicate (t : BTree α) (value : α → Bool) (subtree_cut : Option NodePtr) (n : NodePtr) : Bool :=
  match get_parent n with
  | none => accepts value t n
  | some parent => (some parent != subtree_cut) && accepts value t parent

/-- Modelled from the spec: `node_pred_navigator::get_first_child`, the first child
among those the predicate lets through. -/
def nav_get_first_child (t : BTree α) (value : α → Bool) (subtree_cut : Option NodePtr)
    (n : NodePtr) : Option NodePtr :=
  (get_first_child t n).filter (predicate t value subtree_cut)

/-- Modelled from the spec: `node_pred_navigator::get_next_sibling`, the next sibling
among those the predicate lets through. -/
def nav_get_next_sibling (t : BTree α) (value : α → Bool) (subtree_cut : Option NodePtr)
    (n : NodePtr) : Option NodePtr :=
  (get_next_sibling t n).filter (predicate t value subtree_cut)

/-- Modelled from the spec: the climb of the navigated pre-order cursor, which is
`keep_calling` with `call` the navigator's `get_parent` (`nullptr` at the
navigator's root), `test` "has a next sibling" and `result` that sibling. -/
def nav_keep_calling (t : BTree α) (value : α → Bool) (root : NodePtr)
    (subtree_cut : Option NodePtr) : NodePtr → Option NodePtr
  | [] => some []
  | s :: next =>
    if (s :: next) == root then some (s :: next)
    else if (nav_get_next_sibling t value subtree_cut (s :: next)).isSome then
      nav_get_next_sibling t value subtree_cut (s :: next)
    else nav_keep_calling t value root subtree_cut next

/-- Modelled from the spec: `increment` of the pre-order cursor bound to the scoped
navigator: first visitable child if present, else climb ancestors until one has a
visitable next sibling; exhausted when the climb reaches the navigator's root. -/
def nav_increment (t : BTree α) (value : α → Bool) (root : NodePtr)
    (subtree_cut : Option NodePtr) (current : NodePtr) : Option NodePtr :=
  match nav_get_first_child t value subtree_cut current with
  | some result => some result
  | none =>
    match nav_keep_calling t value root subtree_cut current with
    | none => none
    | some result => if result == root then none else some result

/-- Modelled from the spec: `go_depth_first_ramification` of a cursor placed on a
node, which advances past that node using the scoped navigator. -/
def go_depth_first_ramification (t : BTree α) (value : α → Bool) (root : NodePtr)
    (subtree_cut : Option NodePtr) (current : NodePtr) : Option NodePtr :=
  nav_increment t value root subtree_cut current

/-- The variables that the lambdas `do_match` and `do_rematch` capture by reference. -/
structure MatchState (α : Type) where
  /-- The child matchers, `this->children`. -/
  children : List (Matcher α)
  /-- Local `subtree_cut`. -/
  subtree_cut : Option NodePtr
  /-- Local `match_attempt_begin`. -/
  match_attempt_begin : List (Option NodePtr)
  /-- Current node of the cursor `target_it`. -/
  target_it : Option NodePtr

/-- The type of `child.match_node(current, allocator)`: the boolean and the child
afterwards, `none` when the fuel ran out. -/
abbrev ChildMatch (α : Type) := Matcher α → NodePtr → Option (Bool × Matcher α)

/-- The loop `while (current)` of the lambda `do_match`. -/
def do_match_loop (child_match : ChildMatch α) (t : BTree α) (value : α → Bool) (root : NodePtr)
    (index : Nat) : Nat → MatchState α → Option (Bool × MatchState α)
  | fuel, st =>
    match st.target_it with
    | none => some (false, st)
    | some current =>
      match fuel with
      | 0 => none
      | fuel + 1 =>
        match st.children.get? index with
        | none => none
        | some child =>
          match child_match child current with
          | none => none
          | some (true, child') =>
            some (true,
              { st with
                children := st.children.set index child'
                subtree_cut := some current
                target_it := nav_increment t value root (some current) current })
          | some (false, child') =>
            do_match_loop child_match t value root index fuel
              { st with
                children := st.children.set index child'
                target_it := nav_increment t value root st.subtree_cut current }

/-- The lambda `do_match` of `match_node_impl`. -/
def do_match (child_match : ChildMatch α) (t : BTree α) (value : α → Bool) (root : NodePtr)
    (fuel : Nat) (index : Nat) (st : MatchState α) : Option (Bool × MatchState α) :=
  match st.children.get? index with
  | none => none
  | some child =>
    match st.target_it with
    | none => some (child.matches_null, st)
    | some current =>
      let st1 : MatchState α :=
        if (st.match_attempt_begin.getD index none).isNone then
          { st with match_attempt_begin := st.match_attempt_begin.set index (some current) }
        else st
      do_match_loop child_match t value root index fuel st1

/-- The lambda `do_rematch` of `match_node_impl`. -/
def do_rematch (child_match : ChildMatch α) (t : BTree α) (value : α → Bool) (root : NodePtr)
    (fuel : Nat) (index : Nat) (st : MatchState α) : Option (Bool × MatchState α) :=
  match st.children.get? index with
  | none => none
  | some child =>
    let st1 : MatchState α := { st with subtree_cut := none }
    match child.get_node with
    | none => some (false, st1)
    | some node =>
      let st2 : MatchState α :=
        { st1 with target_it := go_depth_first_ramification t value root st1.subtree_cut node }
      match st2.target_it with
      | none =>
        -- If child can renounce to its match
        if child.matches_null && child.get_node.isSome then
          some (true, { st2 with target_it := st2.match_attempt_begin.getD index none })
        else some (false, st2)
      | some current =>
        do_match child_match t value root fuel index { st2 with subtree_cut := some current }

/-- Modelled from the spec: the backward part of `matcher::match_children`, calling
`do_rematch` on the previous child, then on the one before it, until one succeeds;
returns the index of the child that could rematch, if any. -/
def backtrack (rematch : Nat → MatchState α → Option (Bool × MatchState α)) :
    Nat → MatchState α → Option (Option Nat × MatchState α)
  | 0, st => some (none, st)
  | current_child + 1, st =>
    match rematch current_child st with
    | none => none
    | some (true, st') => some (some current_child, st')
    | some (false, st') => backtrack rematch current_child st'

/-- Modelled from the spec: `matcher::match_children(do_match, do_rematch)`, whose
source is not available: forward progress calls `do_match` on the next child; any
failure calls `do_rematch` on the previous child and retries forward; matching
succeeds when every child has been matched. -/
def match_children (do_match_ : Nat → MatchState α → Option (Bool × MatchState α))
    (do_rematch_ : Nat → MatchState α → Option (Bool × MatchState α)) (children_count : Nat) :
    Nat → Nat → MatchState α → Option (Bool × MatchState α)
  | fuel, current_child, st =>
    if children_count ≤ current_child then some (true, st)
    else
      match fuel with
      | 0 => none
      | fuel + 1 =>
        match do_match_ current_child st with
        | none => none
        | some (true, st') =>
          match_children do_match_ do_rematch_ children_count fuel (current_child + 1) st'
        | some (false, st') =>
          match backtrack do_rematch_ current_child st' with
          | none => none
          | some (none, st'') => some (false, st'')
          | some (some previous, st'') =>
            match_children do_match_ do_rematch_ children_count fuel (previous + 1) st''

/-- Method `any_matcher::match_node_impl` (and, for `one_matcher`, the test of the
node's value modelled from the spec). -/
def match_node_impl (child_match : ChildMatch α) (t : BTree α) (fuel : Nat)
    (m : Matcher α) (node : NodePtr) : Option (Bool × Matcher α) :=
  match m with
  | Matcher.one_matcher value _ => some (accepts value t node, m)
  | Matcher.any_matcher q value target_node children =>
    if !accepts value t node then some (false, m)
    else
      let st : MatchState α :=
        { children := children
          subtree_cut := none
          match_attempt_begin := List.replicate (children.length + 1) none
          target_it := some node }
      match match_children (do_match child_match t value node fuel)
          (do_rematch child_match t value node fuel) children.length fuel 0 st with
      | none => none
      | some (matched, st') => some (matched, Matcher.any_matcher q value target_node st'.children)

/-- Modelled from the spec: `matcher::match_node`.  An absent node is matched
exactly when the matcher matches null; otherwise `match_node_impl` decides and, on
success, the node becomes the target.  `none` when the fuel ran out. -/
def match_node (t : BTree α) : Nat → Matcher α → Option NodePtr → Option (Bool × Matcher α)
  | 0, _, _ => none
  | _ + 1, m, none => some (m.matches_null, m)
  | fuel + 1, m, some node =>
    match match_node_impl (fun child current => match_node t fuel child (some current)) t fuel m node with
    | none => none
    | some (true, m') => some (true, m'.set_target (some node))
    | some (false, m') => some (false, m')

/-- Member `tree.root` of a tree: the pointer to its root node, `nullptr` for the empty tree. -/
def root_of (t : BTree α) : Option NodePtr :=
  if t.isNil then none else some []

end engine


/-! ## Materialising results (`any_matcher::result_impl`) -/

namespace BTree

variable {α : Type}

/-- Assignment to the member `left` or `right` of a node. -/
def set_child : BTree α → Slot → BTree α → BTree α
  | nil, _, _ => nil
  | node _ v r, Slot.left, c => node c v r
  | node l v _, Slot.right, c => node l v c

/-- The tree after the owning link that `n` stands for has been pointed at `s`. -/
def replace (t : BTree α) : NodePtr → BTree α → BTree α
  | [], s => s
  | d :: p, s => replace t p ((t.subtree p).set_child d s)

end BTree

section results

variable {α : Type}

/-- The slot a node occupies under its parent (`right` for a node that is not a left child). -/
def slot_of (reference : NodePtr) : Slot :=
  match reference with
  | Slot.left :: _ => Slot.left
  | _ => Slot.right

/-- Modelled from the spec: `allocate(allocator, value)`, a fresh childless node. -/
def allocate (v : α) : BTree α := BTree.node BTree.nil v BTree.nil

/-- Modelled from the spec: `target.assign_child_like(child, reference)`, which gives
the node `target` of the tree under construction the child `child` in the slot that
`reference` occupies under its own parent, and returns the pointer to that child. -/
def assign_child_like (res : BTree α) (target : NodePtr) (child : BTree α) (reference : NodePtr) :
    BTree α × NodePtr :=
  (res.replace (slot_of reference :: target) child, slot_of reference :: target)

/-- Modelled from the spec: `matcher::clone_node`, a fresh node holding the value of
the target; dereferences the target. -/
def clone_node (t : BTree α) (target_node : Option NodePtr) : Except Fault (BTree α) :=
  match target_node with
  | none => Except.error Fault.null_dereference
  | some n =>
    match get_value t n with
    | none => Except.error Fault.null_dereference
    | some v => Except.ok (allocate v)

mutual
/-- Static method `any_matcher::keep_assigning_children(target, reference, allocator,
check_function)`; `res` is the tree under construction that contains `target`. -/
def keep_assigning_children (t : BTree α) (check_function : α → Bool) :
    Nat → BTree α → NodePtr → NodePtr → Except Fault (BTree α)
  | 0, _, _, _ => Except.error Fault.out_of_fuel
  | fuel + 1, res, target, reference =>
    keep_assigning_children_loop t check_function fuel res target (get_first_child t reference)
/-- The loop `while (child != nullptr)` of `keep_assigning_children`. -/
def keep_assigning_children_loop (t : BTree α) (check_function : α → Bool) :
    Nat → BTree α → NodePtr → Option NodePtr → Except Fault (BTree α)
  | _, res, _, none => Except.ok res
  | 0, _, _, some _ => Except.error Fault.out_of_fuel
  | fuel + 1, res, target, some child =>
    if !accepts check_function t child then
      -- `continue;`
      keep_assigning_children_loop t check_function fuel res target (some child)
    else
      match get_value t child with
      | none => Except.error Fault.null_dereference
      | some v =>
        match assign_child_like res target (allocate v) child with
        | (res1, new_target) =>
          match keep_assigning_children t check_function fuel res1 new_target child with
          | Except.error e => Except.error e
          | Except.ok res2 =>
            keep_assigning_children_loop t check_function fuel res2 target (get_next_sibling t child)
end

/-- The map `cloned_nodes` of `result_impl`: concrete node ↦ its clone. -/
abbrev ClonedNodes := List (NodePtr × NodePtr)

/-- Lookup `cloned_nodes.find(key)`; the null pointer is never a key. -/
def ClonedNodes.find (m : ClonedNodes) (key : Option NodePtr) : Option NodePtr :=
  match key with
  | none => none
  | some k => m.lookup k

/-- Modelled from the spec: `node->allocate_assign_parent(allocator, reference)`, which
allocates a clone of the parent of `reference` and hands `node` to it in the slot that
`reference` occupies; dereferences the parent of `reference`. -/
def allocate_assign_parent (t : BTree α) (node : BTree α) (reference : NodePtr) :
    Except Fault (BTree α) :=
  match get_parent reference with
  | none => Except.error Fault.null_dereference
  | some parent =>
    match get_value t parent with
    | none => Except.error Fault.null_dereference
    | some v => Except.ok ((allocate v).set_child (slot_of reference) node)

/-- The loop `while (it == cloned_nodes.end())` of the lambda `attach_child`, followed
by the final `assign_child_like`.  The argument of the recursion and `second` are the
two components of `child_head`; `chain` lists the entries inserted for the nodes of
the still detached `second`, as pointers relative to its root. -/
def attach_child_loop (t : BTree α) (result : BTree α) (cloned_nodes : ClonedNodes)
    (second : BTree α) (chain : ClonedNodes) : NodePtr → Except Fault (BTree α × ClonedNodes)
  | [] =>
    -- the parent is `nullptr`, which is no key of the map: the loop is entered and the
    -- parent is dereferenced
    match allocate_assign_parent t second [] with
    | Except.error e => Except.error e
    | Except.ok _ => Except.error Fault.null_dereference
  | s :: parent =>
    match ClonedNodes.find cloned_nodes (get_parent (s :: parent)) with
    | some it_second =>
      Except.ok
        ((assign_child_like result it_second second (s :: parent)).1,
          cloned_nodes ++ chain.map (fun e => (e.1, e.2 ++ slot_of (s :: parent) :: it_second)))
    | none =>
      match allocate_assign_parent t second (s :: parent) with
      | Except.error e => Except.error e
      | Except.ok second' =>
        attach_child_loop t result cloned_nodes second'
          (((s :: parent, []) :: chain).map (fun e => (e.1, e.2 ++ [slot_of (s :: parent)])))
          parent

/-- The lambda `attach_child` of `result_impl` (RELUCTANT, with children). -/
def attach_child (t : BTree α) (acc : BTree α × ClonedNodes) (child : Matcher α) :
    Except Fault (BTree α × ClonedNodes) :=
  match child.get_node with
  | none => Except.error Fault.null_dereference
  | some first =>
    match clone_node t child.get_node with
    | Except.error e => Except.error e
    | Except.ok second => attach_child_loop t acc.1 acc.2 second [] first

/-- The fold `(..., attach_child(child))` over the children. -/
def attach_children (t : BTree α) :
    BTree α × ClonedNodes → List (Matcher α) → Except Fault (BTree α × ClonedNodes)
  | acc, [] => Except.ok acc
  | acc, child :: rest =>
    match attach_child t acc child with
    | Except.error e => Except.error e
    | Except.ok acc' => attach_children t acc' rest

/-- The breadth-first reconstruction that ends `result_impl` for a DEFAULT matcher with
children (the lines from `auto search_start` on): its machinery (`generative_navigator`,
`breadth_first`, `multiple_node_pointer`) is not among the sources, so it is a
parameter.  It receives the concrete tree, the matcher's target, its value matcher
and, for every child, its target and its materialised result. -/
abbrev Reconstruction (α : Type) :=
  BTree α → NodePtr → (α → Bool) → List (Option NodePtr × Except Fault (BTree α)) →
    Except Fault (BTree α)

mutual
/-- Modelled from the spec: `matcher::result`, an empty tree if the matcher has no
target, else `result_impl`; the body of the `any_matcher` case is the method
`any_matcher::result_impl`. -/
def Matcher.result (gen : Reconstruction α) (t : BTree α) (fuel : Nat) :
    Matcher α → Except Fault (BTree α)
  | Matcher.one_matcher _ target_node =>
    match target_node with
    | none => Except.ok BTree.nil
    | some node => clone_node t (some node)
  | Matcher.any_matcher q value target_node children =>
    match target_node with
    | none => Except.ok BTree.nil
    | some node =>
      if children.isEmpty then
        -- Doesn't have children
        match q with
        | quantifier.RELUCTANT => Except.ok BTree.nil
        | quantifier.GREEDY =>
          match clone_node t (some node) with
          | Except.error e => Except.error e
          | Except.ok result => keep_assigning_children t value fuel result [] node
        | quantifier.POSSESSIVE => Except.ok BTree.nil
        | quantifier.DEFAULT => clone_node t (some node)
      else
        -- Has children
        match q with
        | quantifier.RELUCTANT =>
          if children.length == 1 && (children.head?.bind Matcher.get_node) == some node then
            clone_node t (children.head?.bind Matcher.get_node)
          else
            match clone_node t (some node) with
            | Except.error e => Except.error e
            | Except.ok result =>
              match attach_children t (result, [(node, [])]) children with
              | Except.error e => Except.error e
              | Except.ok acc => Except.ok acc.1
        | quantifier.DEFAULT =>
          match steal_target gen t fuel (Matcher.CHILDREN_MAY_STEAL_TARGET children) node
              children with
          | some stolen => stolen
          | none => gen t node value (results_of gen t fuel children)
        | _ => Except.ok BTree.nil
/-- The loop `for (node_t* target : {children.get_node(allocator)...})` of `result_impl`
(DEFAULT, with children): the result of the first child whose target is the matcher's
own target, when `CHILDREN_MAY_STEAL_TARGET`. -/
def steal_target (gen : Reconstruction α) (t : BTree α) (fuel : Nat) (may_steal : Bool)
    (this_node : NodePtr) : List (Matcher α) → Option (Except Fault (BTree α))
  | [] => none
  | child :: rest =>
    match child.get_node with
    | some target =>
      if may_steal && target == this_node then some (Matcher.result gen t fuel child)
      else steal_target gen t fuel may_steal this_node rest
    | none => steal_target gen t fuel may_steal this_node rest
/-- Target and materialised result of every child. -/
def results_of (gen : Reconstruction α) (t : BTree α) (fuel : Nat) :
    List (Matcher α) → List (Option NodePtr × Except Fault (BTree α))
  | [] => []
  | child :: rest => (child.get_node, Matcher.result gen t fuel child) :: results_of gen t fuel rest
end

end results

/-! ## Patterns (`include/TreeDS/matcher/pattern.hpp`) -/

/-- Modelled from the spec: one entry of the capture registry, the capture's name
(if it has one) and its owner, given as the child indices that lead from the root
matcher to it.  The index of a capture is its position in the registry, counted
from 1. -/
structure capture where
  /-- The capture's name, if any. -/
  name : Option String
  /-- Child indices from the root matcher to the owner. -/
  owner : List Nat

/-- Class `pattern`: the pattern tree, with the capture registry that the spec places
beside it. -/
structure pattern (α : Type) where
  /-- Member `pattern_tree`. -/
  pattern_tree : Matcher α
  /-- Modelled from the spec: the capture registry. -/
  captures : List capture

section pattern_ops

variable {α : Type}

/-- The matcher reached from `m` through the given child indices. -/
def Matcher.descend : Matcher α → List Nat → Option (Matcher α)
  | m, [] => some m
  | m, i :: rest =>
    match m.children.get? i with
    | none => none
    | some c => Matcher.descend c rest

/-- Method `pattern::match(tree)`: reset, then match the root matcher against the
tree's root; returns the boolean and the pattern afterwards, `none` when the fuel ran
out. -/
def pattern.match_tree (fuel : Nat) (p : pattern α) (tree : BTree α) : Option (Bool × pattern α) :=
  match match_node tree fuel p.pattern_tree.reset (root_of tree) with
  | none => none
  | some (matched, m) => some (matched, { p with pattern_tree := m })

/-- Method `pattern::assign_result(tree)`, through the `get_matched_node` of the
pattern tree (modelled from the spec: the result of the root matcher). -/
def pattern.assign_result (gen : Reconstruction α) (fuel : Nat) (p : pattern α) (tree : BTree α) :
    Except Fault (BTree α) :=
  p.pattern_tree.result gen tree fuel

/-- Modelled from the spec: `get_captured_node`, which looks the capture up in the
registry; if no match occurred (the root matcher holds no target) the resolution
yields an empty tree, else it materialises the owner's current target the same way as
a result; `none` for a capture that was never registered. -/
def get_captured_node (gen : Reconstruction α) (fuel : Nat) (p : pattern α) (tree : BTree α)
    (entry : Option capture) : Option (Except Fault (BTree α)) :=
  match entry with
  | none => none
  | some c =>
    match p.pattern_tree.descend c.owner with
    | none => none
    | some m =>
      match p.pattern_tree.get_node with
      | none => some (Except.ok BTree.nil)
      | some _ => some (m.result gen tree fuel)

/-- Method `pattern::assign_capture(capture_index<Index>, tree)`. -/
def pattern.assign_capture_index (gen : Reconstruction α) (fuel : Nat) (p : pattern α)
    (tree : BTree α) (index : Nat) : Option (Except Fault (BTree α)) :=
  get_captured_node gen fuel p tree (if index = 0 then none else p.captures.get? (index - 1))

/-- Method `pattern::assign_capture(capture_name<Name...>, tree)`. -/
def pattern.assign_capture_name (gen : Reconstruction α) (fuel : Nat) (p : pattern α)
    (tree : BTree α) (name : String) : Option (Except Fault (BTree α)) :=
  get_captured_node gen fuel p tree (p.captures.find? (fun c => c.name == some name))

end pattern_ops

/-! ## Auxiliary definitions for the proofs -/

section proof_definitions

variable {α : Type}

/-- The part of `pre_order_impl::increment` that crosses to another branch. -/
def cross (t : BTree α) (n : NodePtr) : Option NodePtr :=
  match keep_calling
      (fun child _ => (get_next_sibling t child).isSome)
      (fun child _ => get_next_sibling t child) n with
  | none => none
  | some result => if is_root result then none else some result

/-- Every element of `l` is followed by its `increment`, and the last one by `e`. -/
def Chained (t : BTree α) (l : List NodePtr) (e : Option NodePtr) : Prop :=
  l.map (pre_order_impl.increment t) = l.tail.map some ++ [e]

/-- A child match keeps the static structure of the child. -/
def KeepsStructure (child_match : ChildMatch α) : Prop :=
  ∀ c n b c', child_match c n = some (b, c') → c'.reset = c.reset

/-- The node that owns the link `p` exists, so the link can be assigned. -/
def Hosted (t : BTree α) (p : NodePtr) : Prop :=
  match p with
  | [] => True
  | _ :: q => t.subtree q ≠ BTree.nil

/-- Every node of the subtree below `reference` is accepted by the value matcher. -/
def AllAccepted (t : BTree α) (value : α → Bool) (reference : NodePtr) : Prop :=
  ∀ n : NodePtr, t.subtree (n ++ reference) ≠ BTree.nil → accepts value t (n ++ reference) = true

end proof_definitions

/-! ## Concrete trees and patterns -/

/-- The tree `1(2, 3)` of `PatternTest::simpleMatch`. -/
def tree1 : BTree Nat :=
  BTree.node (BTree.node BTree.nil 2 BTree.nil) 1 (BTree.node BTree.nil 3 BTree.nil)

/-- The tree `1(2(2), 3)`. -/
def tree_nested : BTree Nat :=
  BTree.node (BTree.node (BTree.node BTree.nil 2 BTree.nil) 2 BTree.nil) 1
    (BTree.node BTree.nil 3 BTree.nil)

/-- A tree with the single node `1`. -/
def single : BTree Nat := BTree.node BTree.nil 1 BTree.nil

/-- Modelled from the spec: the value matcher that accepts exactly the stored value. -/
def equal_to (v : Nat) : Nat → Bool := fun x => x == v

/-- A stand-in for the breadth-first reconstruction that generates nothing. -/
def no_reconstruction : Reconstruction Nat := fun _ _ _ _ => Except.ok BTree.nil

/-- The pattern `star()(cpt(star(2)), star(5))`, whose first child is a capture named `b`. -/
def star_two_five : pattern Nat :=
  { pattern_tree := Matcher.any_matcher quantifier.DEFAULT true_matcher none
      [star quantifier.DEFAULT (equal_to 2), star quantifier.DEFAULT (equal_to 5)]
    captures := [{ name := some "b", owner := [0] }] }

/-- The state of `star_two_five` after it failed to match `tree1`: the first child
still holds the node it had claimed. -/
def star_two_five_failed : pattern Nat :=
  { pattern_tree := Matcher.any_matcher quantifier.DEFAULT true_matcher none
      [Matcher.any_matcher quantifier.DEFAULT (equal_to 2) (some [Slot.left]) [],
        star quantifier.DEFAULT (equal_to 5)]
    captures := [{ name := some "b", owner := [0] }] }

/-- The pattern `star()(cpt(star(2)))`, whose child is a capture named `b`. -/
def star_two : pattern Nat :=
  { pattern_tree := Matcher.any_matcher quantifier.DEFAULT true_matcher none
      [star quantifier.DEFAULT (equal_to 2)]
    captures := [{ name := some "b", owner := [0] }] }

/-- The state of `star_two` after it matched `tree1`. -/
def star_two_matched : pattern Nat :=
  { pattern_tree := Matcher.any_matcher quantifier.DEFAULT true_matcher (some [])
      [Matcher.any_matcher quantifier.DEFAULT (equal_to 2) (some [Slot.left]) []]
    captures := [{ name := some "b", owner := [0] }] }

/-- The pattern `star<RELUCTANT>()(star<GREEDY>(2))`. -/
def reluctant_over_greedy : pattern Nat :=
  { pattern_tree := Matcher.any_matcher quantifier.RELUCTANT true_matcher none
      [star quantifier.GREEDY (equal_to 2)]
    captures := [] }

/-- The tree `1(2(4, 5), 3)`. -/
def tree_siblings : BTree Nat :=
  BTree.node
    (BTree.node (BTree.node BTree.nil 4 BTree.nil) 2 (BTree.node BTree.nil 5 BTree.nil)) 1
    (BTree.node BTree.nil 3 BTree.nil)

/-- The pattern `star<RELUCTANT>()(one(4), one(5))`. -/
def reluctant_over_ones : pattern Nat :=
  { pattern_tree := Matcher.any_matcher quantifier.RELUCTANT true_matcher none
      [Matcher.one_matcher (equal_to 4) none, Matcher.one_matcher (equal_to 5) none]
    captures := [] }

/-- The pattern `star()(star(), one(5))`. -/
def star_star_one : pattern Nat :=
  { pattern_tree := Matcher.any_matcher quantifier.DEFAULT true_matcher none
      [star quantifier.DEFAULT true_matcher, Matcher.one_matcher (equal_to 5) none]
    captures := [] }

/-- The state in which the backtracking of `star_star_one` on `single` cycles. -/
def cycle_state (begin_one : Option NodePtr) : MatchState Nat :=
  { children := [Matcher.any_matcher quantifier.DEFAULT true_matcher (some []) [],
      Matcher.one_matcher (equal_to 5) none]
    subtree_cut := none
    match_attempt_begin := [some [], begin_one, none]
    target_it := some [] }

/-! ## Equality and construction of binary nodes (`include/TreeDS/node/binary_node.hpp`)

The literal shapes `n(v)(...)` that nodes are built from and compared with
(`struct_node`, in the older header `temp_node`) are not among the sources. -/

mutual
/-- Modelled from the spec: a literal shape `n(v)(children...)`, a value with the
shapes declared as its children (`struct_node<T, Nodes...>`; the older header calls
it `temp_node`). -/
inductive struct_node (α : Type) where
  | mk (value : α) (children : struct_children α) : struct_node α
/-- Modelled from the spec: the declared children `Nodes...` of a literal shape, each
one either a literal shape or the empty placeholder `n()` (whose value has type
`std::nullptr_t`). -/
inductive struct_children (α : Type) where
  | nil : struct_children α
  | placeholder (rest : struct_children α) : struct_children α
  | child (node : struct_node α) (rest : struct_children α) : struct_children α
end

namespace struct_children

variable {α : Type}

/-- The number of declared children, `sizeof...(Nodes)`. -/
def count : struct_children α → Nat
  | nil => 0
  | placeholder rest => count rest + 1
  | child _ rest => count rest + 1

/-- Modelled from the spec: `get_child<Index>`, the declared child at an index:
`none` when fewer children are declared, `some none` for the empty placeholder. -/
def get_child : struct_children α → Nat → Option (Option (struct_node α))
  | nil, _ => none
  | placeholder _, 0 => some none
  | placeholder rest, index + 1 => get_child rest index
  | child node _, 0 => some (some node)
  | child _ rest, index + 1 => get_child rest index

end struct_children

namespace struct_node

variable {α : Type}

/-- Modelled from the spec: accessor `struct_node::get_value`. -/
def get_value : struct_node α → α
  | mk value _ => value

/-- The declared children of a literal shape. -/
def children : struct_node α → struct_children α
  | mk _ children => children

/-- Modelled from the spec: `struct_node::children_count()` (`children_number()` of
`temp_node`), the number of declared children. -/
def children_count (s : struct_node α) : Nat := s.children.count

end struct_node

namespace binary_node

variable {α : Type} [BEq α]

/-- Method `binary_node::operator==(const binary_node&)`.  The operator is called on
nodes; the last case (a null pointer on either side) is never reached from a call. -/
def operator_eq : BTree α → BTree α → Bool
  | BTree.node l v r, BTree.node l' v' r' =>
    -- Trivial case exclusion.
    if (l.isNil != l'.isNil) || (r.isNil != r'.isNil) then false
    -- Test value for inequality.
    else if !(v == v') then false
    -- Deep comparison (at this point both are either null or something).
    else if !l.isNil && !(operator_eq l l') then false
    -- Deep comparison (at this point both are either null or something).
    else if !r.isNil && !(operator_eq r r') then false
    -- All the possible false cases were tested, then it's true.
    else true
  | _, _ => false

/-- Free function `operator!=(const binary_node&, const binary_node&)`. -/
def operator_ne (lhs rhs : BTree α) : Bool := !operator_eq lhs rhs

/-- Method `binary_node::operator==(const struct_node&)`.  The operator is called on a
node; the case of the null pointer is never reached from a call. -/
def operator_eq_struct_node : BTree α → struct_node α → Bool
  | BTree.node l v r, other =>
    -- Too large tree
    if other.children_count > 2 then false
    -- Test value for inequality.
    else if !(v == other.get_value) then false
    else if
      (match other.children.get_child 0 with
        | some (some left) => l.isNil || !(operator_eq_struct_node l left)
        | some none => !l.isNil
        | none => !l.isNil) then false
    else if
      (match other.children.get_child 1 with
        | some (some right) => r.isNil || !(operator_eq_struct_node r right)
        | some none => !r.isNil
        | none => !r.isNil) then false
    -- All the possible false cases were tested, then it's true.
    else true
  | BTree.nil, _ => false

/-- Free function `operator==(const struct_node&, const binary_node&)`. -/
def struct_node_eq (lhs : struct_node α) (rhs : BTree α) : Bool :=
  operator_eq_struct_node rhs lhs

/-- Free function `operator!=(const binary_node&, const struct_node&)`. -/
def operator_ne_struct_node (lhs : BTree α) (rhs : struct_node α) : Bool :=
  !operator_eq_struct_node lhs rhs

/-- Free function `operator!=(const struct_node&, const binary_node&)`. -/
def struct_node_ne (lhs : struct_node α) (rhs : BTree α) : Bool :=
  !operator_eq_struct_node rhs lhs

/-- Method `binary_node::operator==(const temp_node&)` of the older header
`include/TreeDS/binary_node.hpp`. -/
def operator_eq_temp_node (_this : BTree α) (other : struct_node α) : Bool :=
  -- Too large tree
  if other.children_count > 2 then false
  -- All the possible false cases were tested, then it's true.
  else true

end binary_node

namespace binary_node

variable {α β : Type}

/-- Method `binary_node::operator==(const struct_node<ConvertibleT, Nodes...>&)` for a
literal whose values have a type `ConvertibleT` of their own: the test
`this->value == other.get_value()` compares a `T` with a `ConvertibleT`, which is
`equals`. -/
def operator_eq_convertible (equals : α → β → Bool) : BTree α → struct_node β → Bool
  | BTree.node l v r, other =>
    -- Too large tree
    if other.children_count > 2 then false
    -- Test value for inequality.
    else if !(equals v other.get_value) then false
    else if
      (match other.children.get_child 0 with
        | some (some left) => l.isNil || !(operator_eq_convertible equals l left)
        | some none => !l.isNil
        | none => !l.isNil) then false
    else if
      (match other.children.get_child 1 with
        | some (some right) => r.isNil || !(operator_eq_convertible equals r right)
        | some none => !r.isNil
        | none => !r.isNil) then false
    -- All the possible false cases were tested, then it's true.
    else true
  | BTree.nil, _ => false

/-- Free function `operator==(const struct_node&, const binary_node&)` for a literal
whose values have a type of their own. -/
def struct_node_eq_convertible (equals : α → β → Bool) (lhs : struct_node β) (rhs : BTree α) :
    Bool :=
  operator_eq_convertible equals rhs lhs

mutual
/-- Constructor `binary_node(const struct_node<ConvertibleT, Nodes...>&, Allocator&&)`:
the base is initialised with `other.get_value()`, which converts the value of the
literal to `T` (`convert`); declared child 0 becomes `left` and declared child 1
`right`, each constructed the same way, an empty placeholder leaving its slot null;
`none` when the `static_assert` on the number of children rejects the literal. -/
def from_struct_node (convert : β → α) : struct_node β → Option (BTree α)
  | struct_node.mk value children =>
    if children.count > 2 then none
    else
      match from_declared_child convert children 0, from_declared_child convert children 1 with
      | some left, some right => some (BTree.node left (convert value) right)
      | _, _ => none
/-- The node allocated for the declared child at an index (`nullptr` when the child is
an empty placeholder or is not declared). -/
def from_declared_child (convert : β → α) : struct_children β → Nat → Option (BTree α)
  | struct_children.nil, _ => some BTree.nil
  | struct_children.placeholder _, 0 => some BTree.nil
  | struct_children.placeholder rest, index + 1 => from_declared_child convert rest index
  | struct_children.child node _, 0 => from_struct_node convert node
  | struct_children.child _ rest, index + 1 => from_declared_child convert rest index
end

end binary_node

mutual
/-- Every node of a literal shape declares at most two children. -/
def struct_node.at_most_binary {α : Type} : struct_node α → Prop
  | struct_node.mk _ children => children.count ≤ 2 ∧ struct_children.at_most_binary children
/-- Every literal shape among the declared children is at most binary. -/
def struct_children.at_most_binary {α : Type} : struct_children α → Prop
  | struct_children.nil => True
  | struct_children.placeholder rest => struct_children.at_most_binary rest
  | struct_children.child node rest =>
    struct_node.at_most_binary node ∧ struct_children.at_most_binary rest
end

mutual
/-- Every value of a literal shape, converted to the value type of the node, compares
equal to the value it was converted from. -/
def struct_node.values_kept {α β : Type} (convert : β → α) (equals : α → β → Bool) :
    struct_node β → Prop
  | struct_node.mk value children =>
    equals (convert value) value = true ∧ struct_children.values_kept convert equals children
/-- Every value among the declared children is kept by the conversion. -/
def struct_children.values_kept {α β : Type} (convert : β → α) (equals : α → β → Bool) :
    struct_children β → Prop
  | struct_children.nil => True
  | struct_children.placeholder rest => struct_children.values_kept convert equals rest
  | struct_children.child node rest =>
    struct_node.values_kept convert equals node ∧ struct_children.values_kept convert equals rest
end

/-! ## Nodes in memory

The parent link of a node is a pointer of its own, so the operations that assign it
are stated over a memory of node objects. -/

/-- The members of a `binary_node<T>` object: `value` and the pointers `parent`,
`left` and `right` (an address, or `none` for `nullptr`). -/
structure node_object (α : Type) where
  /-- Member `value`. -/
  value : α
  /-- Member `parent`. -/
  parent : Option Nat
  /-- Member `left`. -/
  left : Option Nat
  /-- Member `right`. -/
  right : Option Nat

/-- The objects in memory, by address. -/
abbrev Memory (α : Type) := List (node_object α)

section memory

variable {α : Type}

/-- An assignment to members of the object at an address. -/
def Memory.write (m : Memory α) (a : Nat) (f : node_object α → node_object α) : Memory α :=
  match m[a]? with
  | some o => m.set a (f o)
  | none => m

/-- The pointer `p` leads to a well-formed tree in memory that is `t` node for node
(same values, same slots): its root has the parent pointer `parent`, the parent
pointer of every child is the address of the node that holds it, and every node lies
at an address not below `lo`. -/
def Represents (m : Memory α) (lo : Nat) : Option Nat → Option Nat → BTree α → Prop
  | p, _, BTree.nil => p = none
  | p, parent, BTree.node l v r =>
    ∃ a o, p = some a ∧ lo ≤ a ∧ m[a]? = some o ∧ o.value = v ∧ o.parent = parent ∧
      Represents m lo o.left (some a) l ∧ Represents m lo o.right (some a) r

/-- Method `binary_node::attach(node)`: `assert(node != nullptr)`, then
`node->parent = this` and the node is returned; `none` when the assertion fails. -/
def binary_node.attach (m : Memory α) (this : Nat) (node : Option Nat) : Option (Memory α × Nat) :=
  match node with
  | none => none
  | some n => some (m.write n (fun o => { o with parent := some this }), n)

/-- One member initialiser of the copy constructor,
`other.left ? attach(allocate(allocator, *other.left, allocator).release()) : nullptr`,
where `copy` allocates a node and copy-constructs it from the given one. -/
def binary_node.copy_member (copy : Memory α → Nat → Option (Memory α × Nat)) (m : Memory α)
    (this : Nat) (other_member : Option Nat) : Option (Memory α × Option Nat) :=
  match other_member with
  | none => some (m, none)
  | some c =>
    match copy m c with
    | none => none
    | some (m1, node) =>
      match binary_node.attach m1 this (some node) with
      | none => none
      | some (m2, attached) => some (m2, some attached)

/-- Allocation of a node followed by the copy constructor
`binary_node(const binary_node<ConvertibleT>& other, Allocator&& allocator)` in it:
the base class is initialised with the value of `other` and no parent, then `left`
and `right` are initialised in this order.  Returns the memory afterwards and the
address of the new node; `none` on a dangling pointer or when the fuel runs out. -/
def binary_node.copy_construct : Nat → Memory α → Nat → Option (Memory α × Nat)
  | 0, _, _ => none
  | fuel + 1, m, other =>
    match m[other]? with
    | none => none
    | some o =>
      match binary_node.copy_member (fun m' c => binary_node.copy_construct fuel m' c)
          (m ++ [{ value := o.value, parent := none, left := none, right := none }])
          m.length o.left with
      | none => none
      | some (m1, left) =>
        match binary_node.copy_member (fun m' c => binary_node.copy_construct fuel m' c)
            (m1.write m.length (fun this => { this with left := left }))
            m.length o.right with
        | none => none
        | some (m2, right) =>
          some (m2.write m.length (fun this => { this with right := right }), m.length)

/-- The tree `t` occupies exactly the addresses from `lo` up to `hi`, in pre-order,
with the parent pointers as in `Represents`. -/
def Laid (m : Memory α) : Nat → Nat → Option Nat → Option Nat → BTree α → Prop
  | lo, hi, p, _, BTree.nil => p = none ∧ hi = lo
  | lo, hi, p, parent, BTree.node l v r =>
    ∃ o mid, p = some lo ∧ m[lo]? = some o ∧ o.value = v ∧ o.parent = parent ∧
      Laid m (lo + 1) mid o.left (some lo) l ∧ Laid m mid hi o.right (some lo) r

end memory

/-! ## Further auxiliary definitions and concrete values -/

/-- What `operator==(const struct_node&)` demands of one slot, given what the literal
declares there: a declared literal needs a child that compares equal to it, the empty
placeholder and an undeclared child need the slot to be null. -/
def SlotAgrees {α : Type} [BEq α] (child : BTree α) (declared : Option (Option (struct_node α))) :
    Prop :=
  match declared with
  | some (some literal) =>
    child.isNil = false ∧ binary_node.operator_eq_struct_node child literal = true
  | some none => child.isNil = true
  | none => child.isNil = true

/-- What `operator==(const struct_node<ConvertibleT, Nodes...>&)` demands of one slot
for a literal whose values have a type of their own. -/
def SlotAgreesWith {α β : Type} (equals : α → β → Bool) (child : BTree α)
    (declared : Option (Option (struct_node β))) : Prop :=
  match declared with
  | some (some literal) =>
    child.isNil = false ∧ binary_node.operator_eq_convertible equals child literal = true
  | some none => child.isNil = true
  | none => child.isNil = true

/-- The conversion of an `int` to an `unsigned char`: the value modulo `2^8`. -/
def to_unsigned_char (value : Nat) : Nat := value % 2 ^ 8

/-- The comparison `unsigned char == int` of the language: both sides are compared as
integers. -/
def unsigned_char_eq_int (lhs rhs : Nat) : Bool := lhs == rhs

/-- What the copy of one member achieves: the copies of the nodes of `s` are laid out
after the nodes that existed before, which are left as they were. -/
def MemberCopied {α : Type} (m : Memory α) (this : Nat) (s : BTree α)
    (result : Option (Memory α × Option Nat)) : Prop :=
  ∃ m' p, result = some (m', p) ∧ m'.length = m.length + s.count ∧
    (∀ a, a < m.length → m'[a]? = m[a]?) ∧ Laid m' m.length m'.length p (some this) s

/-- The literal `n(v)` without declared children. -/
def literal_leaf (v : Nat) : struct_node Nat := struct_node.mk v struct_children.nil

/-- The literal `n(1)(n(2), n(3))`. -/
def literal_1_2_3 : struct_node Nat :=
  struct_node.mk 1
    (struct_children.child (literal_leaf 2) (struct_children.child (literal_leaf 3)
      struct_children.nil))

/-- The literal `n(9)(n(2), n(3))`. -/
def literal_9_2_3 : struct_node Nat :=
  struct_node.mk 9
    (struct_children.child (literal_leaf 2) (struct_children.child (literal_leaf 3)
      struct_children.nil))

/-- The literal `n(1)(n(2), n(9))`. -/
def literal_1_2_9 : struct_node Nat :=
  struct_node.mk 1
    (struct_children.child (literal_leaf 2) (struct_children.child (literal_leaf 9)
      struct_children.nil))

/-- The literal `n(1)(n(2), n(3), n(4))`. -/
def literal_1_2_3_4 : struct_node Nat :=
  struct_node.mk 1
    (struct_children.child (literal_leaf 2) (struct_children.child (literal_leaf 3)
      (struct_children.child (literal_leaf 4) struct_children.nil)))

/-- The literal `n(1)(n(), n(3))`. -/
def literal_1_none_3 : struct_node Nat :=
  struct_node.mk 1
    (struct_children.placeholder (struct_children.child (literal_leaf 3) struct_children.nil))

/-- A memory that holds the node `1(2, _)`: its root at address 0, the left child at
address 1. -/
def memory_1_2 : Memory Nat :=
  [{ value := 1, parent := none, left := some 1, right := none },
    { value := 2, parent := some 0, left := none, right := none }]

/-- The pattern `star<GREEDY>(1)`. -/
def greedy_one : pattern Nat :=
  { pattern_tree := star quantifier.GREEDY (equal_to 1), captures := [] }

/-- The state of `greedy_one` after it matched `tree1`. -/
def greedy_one_matched : pattern Nat :=
  { pattern_tree := Matcher.any_matcher quantifier.GREEDY (equal_to 1) (some []) []
    captures := [] }

/-! ## Moving and replacing nodes in memory -/

section memory_moves
variable {α : Type}

/-- First statement of `binary_node::move_resources_to(node)`:
`if (this->parent) { if (this->parent->left == this) this->parent->left = &node;
if (this->parent->right == this) this->parent->right = &node; }`. -/
def binary_node.move_parent_links (m : Memory α) (this node : Nat) : Memory α :=
  match (m[this]?).bind (fun o => o.parent) with
  | none => m
  | some parent =>
    let m1 :=
      if (m[parent]?).bind (fun o => o.left) = some this then
        m.write parent (fun o => { o with left := some node })
      else m
    if (m1[parent]?).bind (fun o => o.right) = some this then
      m1.write parent (fun o => { o with right := some node })
    else m1

/-- Second and third statement of `binary_node::move_resources_to(node)`, for
`member` one of `left` and `right`:
`if (this->member) { this->member->parent = &node; }`. -/
def binary_node.move_child_link (member : node_object α → Option Nat) (m : Memory α)
    (this node : Nat) : Memory α :=
  match (m[this]?).bind member with
  | none => m
  | some c => m.write c (fun o => { o with parent := some node })

/-- Method `binary_node::move_resources_to(node)` (the same in both headers): the
slots of the parent that hold `this` are pointed to `node`, the parent pointers of the
children are pointed to `node`, then `parent`, `left` and `right` of `this` are set
to `nullptr`. -/
def binary_node.move_resources_to (m : Memory α) (this node : Nat) : Memory α :=
  let m1 := binary_node.move_parent_links m this node
  let m2 := binary_node.move_child_link (fun o => o.left) m1 this node
  let m3 := binary_node.move_child_link (fun o => o.right) m2 this node
  m3.write this (fun o => { o with parent := none, left := none, right := none })

/-- Move constructor `binary_node(binary_node&& other)` in a newly allocated object:
the base class is initialised with the value of `other` and no parent, `left` and
`right` with the pointers of `other`, then `other.move_resources_to(*this)` runs.
Returns the memory afterwards and the address of the new node; `none` on a dangling
pointer. -/
def binary_node.move_construct (m : Memory α) (other : Nat) : Option (Memory α × Nat) :=
  match m[other]? with
  | none => none
  | some o =>
    some (binary_node.move_resources_to
      (m ++ [{ value := o.value, parent := none, left := o.left, right := o.right }])
      other m.length, m.length)

/-- Method `binary_node::replace_with(node)` of the older header
`include/TreeDS/binary_node.hpp`: inside `if (this->_parent)`, the statements
`node._parent = this->_parent`, the two tests of the slots of the parent with their
assignments, and `this->_parent = nullptr`.  None of the statements before the last
changes `this->_parent`, which `parent` stands for. -/
def binary_node.replace_with (m : Memory α) (this node : Nat) : Memory α :=
  match (m[this]?).bind (fun o => o.parent) with
  | none => m
  | some parent =>
    let m1 := m.write node (fun o => { o with parent := some parent })
    let m2 :=
      if (m1[parent]?).bind (fun o => o.left) = some this then
        m1.write parent (fun o => { o with left := some node })
      else m1
    let m3 :=
      if (m2[parent]?).bind (fun o => o.right) = some this then
        m2.write parent (fun o => { o with right := some node })
      else m2
    m3.write this (fun o => { o with parent := none })

/-- The object at `s` exists and holds the value `v`. -/
def HoldsValue (m : Memory α) (s : Nat) (v : α) : Prop :=
  ∃ o, m[s]? = some o ∧ o.value = v

/-- What `move_resources_to` and `replace_with` do to an object that holds `this` in
a slot: the slot is pointed to `node`. -/
def node_object.repoint (this node : Nat) (o : node_object α) : node_object α :=
  { o with
    left := if o.left = some this then some node else o.left
    right := if o.right = some this then some node else o.right }

end memory_moves

/-- A memory that holds the node `1(2(4, _), 3)`: the root at address 0, its children
at the addresses 1 and 2, the left child of the node at address 1 at address 3. -/
def memory_parent_source : Memory Nat :=
  [{ value := 1, parent := none, left := some 1, right := some 2 },
    { value := 2, parent := some 0, left := some 3, right := none },
    { value := 3, parent := some 0, left := none, right := none },
    { value := 4, parent := some 1, left := none, right := none }]

/-- A memory that holds the node `1(2, 3)`, the root at address 0 and its children at
the addresses 1 and 2, and at address 3 a node `9` without parent and children. -/
def memory_with_spare : Memory Nat :=
  [{ value := 1, parent := none, left := some 1, right := some 2 },
    { value := 2, parent := some 0, left := none, right := none },
    { value := 3, parent := some 0, left := none, right := none },
    { value := 9, parent := none, left := none, right := none }]

/-! ## N-ary nodes in memory (`include/TreeDS/node/node.tpp`) -/

/-- The members of an n-ary `node<T>` object: `_value` and the pointers `_parent`,
`_prev_sibling`, `_next_sibling`, `_first_child` and `_last_child` (an address, or
`none` for `nullptr`). -/
structure nary_object (α : Type) where
  /-- Member `_value`. -/
  value : α
  /-- Member `_parent`. -/
  parent : Option Nat
  /-- Member `_prev_sibling`. -/
  prev_sibling : Option Nat
  /-- Member `_next_sibling`. -/
  next_sibling : Option Nat
  /-- Member `_first_child`. -/
  first_child : Option Nat
  /-- Member `_last_child`. -/
  last_child : Option Nat
deriving DecidableEq

/-- The n-ary node objects in memory, by address. -/
abbrev NaryMemory (α : Type) := List (nary_object α)

section nary
variable {α : Type}

/-- An assignment to members of the n-ary node object at an address. -/
def NaryMemory.write (m : NaryMemory α) (a : Nat) (f : nary_object α → nary_object α) :
    NaryMemory α :=
  match m[a]? with
  | some o => m.set a (f o)
  | none => m

/-- Method `node::unlink`.  The source assigns `_parent->first_child`, the name of the
accessor, where the member is `_first_child`, and ends a `void` function with
`return {this};`: the assignment is read as one to the member and the `return` is left
out.  A null `_parent` that is dereferenced is a fault. -/
def node.unlink (m : NaryMemory α) (this : Nat) : Except Fault (NaryMemory α) :=
  match m[this]? with
  | none => Except.error Fault.null_dereference
  | some o =>
    -- Unlink tree => node
    let linked_before : Except Fault (NaryMemory α) :=
      match o.prev_sibling with
      | some prev => Except.ok (m.write prev (fun s => { s with next_sibling := o.next_sibling }))
      | none =>
        match o.parent with
        | some parent =>
          Except.ok (m.write parent (fun p => { p with first_child := o.next_sibling }))
        | none => Except.error Fault.null_dereference
    match linked_before with
    | Except.error e => Except.error e
    | Except.ok m1 =>
      let linked_after : Except Fault (NaryMemory α) :=
        match o.next_sibling with
        | some next => Except.ok (m1.write next (fun s => { s with prev_sibling := o.prev_sibling }))
        | none =>
          match o.parent with
          | some parent =>
            Except.ok (m1.write parent (fun p => { p with last_child := o.next_sibling }))
          | none => Except.error Fault.null_dereference
      match linked_after with
      | Except.error e => Except.error e
      | Except.ok m2 =>
        -- Unlink node => tree
        Except.ok (m2.write this (fun s =>
          { s with parent := none, prev_sibling := none, next_sibling := none }))

/-- Destructor `node::~node` as run by `delete` on the node at `this`:
`if (_next_sibling) delete _next_sibling; if (_first_child) delete _first_child;`.
Returns the addresses of the objects destroyed, in the order in which their
destructors complete. -/
def node.destructor : Nat → NaryMemory α → Nat → Except Fault (List Nat)
  | 0, _, _ => Except.error Fault.out_of_fuel
  | fuel + 1, m, this =>
    match m[this]? with
    | none => Except.error Fault.null_dereference
    | some o =>
      match (match o.next_sibling with
        | none => Except.ok []
        | some next => node.destructor fuel m next) with
      | Except.error e => Except.error e
      | Except.ok siblings =>
        match (match o.first_child with
          | none => Except.ok []
          | some child => node.destructor fuel m child) with
        | Except.error e => Except.error e
        | Except.ok children => Except.ok (siblings ++ children ++ [this])

/-- The child list of a node walked from its `_first_child` along `_next_sibling`. -/
def children_forward (m : NaryMemory α) : Nat → Option Nat → List Nat
  | 0, _ => []
  | _ + 1, none => []
  | fuel + 1, some c => c :: children_forward m fuel ((m[c]?).bind (fun o => o.next_sibling))

/-- The child list of a node walked from its `_last_child` along `_prev_sibling`. -/
def children_backward (m : NaryMemory α) : Nat → Option Nat → List Nat
  | 0, _ => []
  | _ + 1, none => []
  | fuel + 1, some c => c :: children_backward m fuel ((m[c]?).bind (fun o => o.prev_sibling))

end nary

/-- A chain of siblings in memory with what each of them owns: the address of the
first one, its children, and the siblings that follow it. -/
inductive Siblings where
  | nil : Siblings
  | cons (address : Nat) (children : Siblings) (following : Siblings) : Siblings

/-- Number of nodes of a chain of siblings, descendants included. -/
def Siblings.size : Siblings → Nat
  | Siblings.nil => 0
  | Siblings.cons _ children following => following.size + children.size + 1

/-- The addresses of a chain of siblings and of their descendants: for each node the
siblings that follow it with their descendants, then its descendants, then the node. -/
def Siblings.addresses : Siblings → List Nat
  | Siblings.nil => []
  | Siblings.cons address children following =>
    following.addresses ++ children.addresses ++ [address]

/-- The pointer `p` leads to the chain of siblings `s` in memory: `_first_child` of
each node leads to its children and `_next_sibling` to the siblings that follow. -/
def Linked {α : Type} (m : NaryMemory α) : Option Nat → Siblings → Prop
  | p, Siblings.nil => p = none
  | p, Siblings.cons address children following =>
    p = some address ∧ ∃ o, m[address]? = some o ∧
      Linked m o.first_child children ∧ Linked m o.next_sibling following

/-- The part of a chain of siblings that starts at the node `x`: `x` with its
children and the siblings that follow it. -/
def Siblings.from_node (x : Nat) : Siblings → Siblings
  | Siblings.nil => Siblings.nil
  | Siblings.cons address children following =>
    if address = x then Siblings.cons address children following
    else if x ∈ children.addresses then Siblings.from_node x children
    else Siblings.from_node x following

/-- The nodes met on the way to `x`: its ancestors, its preceding siblings and the
preceding siblings of its ancestors. -/
def Siblings.before_node (x : Nat) : Siblings → List Nat
  | Siblings.nil => []
  | Siblings.cons address children following =>
    if address = x then []
    else if x ∈ children.addresses then address :: Siblings.before_node x children
    else address :: Siblings.before_node x following

/-- A parent at address 0 with the children at addresses 1 and 2, in this order. -/
def nary_1_2_3 : NaryMemory Nat :=
  [{ value := 1, parent := none, prev_sibling := none, next_sibling := none,
     first_child := some 1, last_child := some 2 },
   { value := 2, parent := some 0, prev_sibling := none, next_sibling := some 2,
     first_child := none, last_child := none },
   { value := 3, parent := some 0, prev_sibling := some 1, next_sibling := none,
     first_child := none, last_child := none }]

/-- The chain of the root of `nary_1_2_3`. -/
def siblings_1_2_3 : Siblings :=
  Siblings.cons 0 (Siblings.cons 1 Siblings.nil (Siblings.cons 2 Siblings.nil Siblings.nil))
    Siblings.nil

/-! ## Backward pre-order and the post-order policy
(`include/TreeDS/policy/pre_order.hpp`, `include/TreeDS/iterator/post_order.hpp`) -/

section traversal

variable {α : Type}

/-- Modelled from the spec: accessor `get_prev_sibling` of the binary node, which
`pre_order_impl::decrement` calls and `binary_node.hpp` does not declare.  It mirrors
`get_next_sibling`: the parent's `left` when this node is the parent's `right`,
`nullptr` otherwise. -/
def get_prev_sibling (t : BTree α) (n : NodePtr) : Option NodePtr :=
  match n with
  | [] => none
  | Slot.right :: p => get_left t p
  | Slot.left :: _ => none

/-- Two-argument `keep_calling(from, call)` of `utility.hpp` with
`call = get_last_child`: from `from`, whose node with all it owns is the first
argument, go to the last child while there is one and return the last node reached. -/
def keep_calling_get_last_child : BTree α → NodePtr → NodePtr
  | BTree.nil, from_ => from_
  | BTree.node l _ r, from_ =>
    if r.isNil = false then keep_calling_get_last_child r (Slot.right :: from_)
    else if l.isNil = false then keep_calling_get_last_child l (Slot.left :: from_)
    else from_

/-- Method `pre_order_impl::decrement`. -/
def pre_order_impl.decrement (t : BTree α) (from_ : NodePtr) : Option NodePtr :=
  match get_parent from_ with
  | none => none
  | some next =>
    if get_first_child t next = some from_ then some next
    else
      match get_prev_sibling t from_ with
      | some prev_sibling =>
        some (keep_calling_get_last_child (t.subtree prev_sibling) prev_sibling)
      | none => none

/-- Method `pre_order_impl::go_last`. -/
def pre_order_impl.go_last (t : BTree α) (root : NodePtr) : Option NodePtr :=
  some (keep_calling_get_last_child (t.subtree root) root)

/-- The sequence `start, step start, step (step start), ...` of a policy method
`step`, cut at the first `nullptr`, at most `fuel` elements long. -/
def policy_walk (step : NodePtr → Option NodePtr) : Nat → Option NodePtr → List NodePtr
  | 0, _ => []
  | _ + 1, none => []
  | fuel + 1, some n => n :: policy_walk step fuel (step n)

/-- Post-order listing of the nodes of a tree: the nodes below the left child, then
the nodes below the right child, then the node. -/
def BTree.postorder : BTree α → List NodePtr
  | BTree.nil => []
  | BTree.node l _ r =>
    (BTree.postorder l).map (fun q => q ++ [Slot.left])
      ++ (BTree.postorder r).map (fun q => q ++ [Slot.right]) ++ [[]]

/-- Modelled from the spec: helper `descent(from, call)` of `helper.hpp`, which is not
among the sources, with `call = first_child`: from `from`, whose node with all it owns
is the first argument, go to the first child while there is one; the node reached is
"the deepest-first leaf". -/
def descent_first_child : BTree α → NodePtr → NodePtr
  | BTree.nil, from_ => from_
  | BTree.node l _ r, from_ =>
    if l.isNil = false then descent_first_child l (Slot.left :: from_)
    else if r.isNil = false then descent_first_child r (Slot.right :: from_)
    else from_

/-- Method `post_order::increment`. -/
def post_order.increment (t : BTree α) (n : NodePtr) : Option NodePtr :=
  match get_parent n with
  | none => none
  | some next =>
    if get_last_child t next = some n then some next
    else
      match get_right t next with
      | none => none
      | some right => some (descent_first_child (t.subtree right) right)

/-- Method `post_order::go_first`. -/
def post_order.go_first (t : BTree α) (root : NodePtr) : Option NodePtr :=
  some (descent_first_child (t.subtree root) root)

/-- Method `post_order::go_last`: the root itself. -/
def post_order.go_last (root : NodePtr) : Option NodePtr := some root

/-- Every element of `l` is followed by its `step`, and the last one by `e`. -/
def FollowedBy (step : NodePtr → Option NodePtr) (l : List NodePtr) (e : Option NodePtr) :
    Prop :=
  l.map step = l.tail.map some ++ [e]

/-- The `step` of every element of `l` is the element before it, and that of the
first one is `e`. -/
def PrecededBy (step : NodePtr → Option NodePtr) (l : List NodePtr) (e : Option NodePtr) :
    Prop :=
  l.map step = e :: l.dropLast.map some

end traversal

/-! ## The first-match scan of `do_match` -/

section scan_definitions

variable {α : Type}

/-- Position of a node in the pre-order listing of the tree. -/
def preorder_index (t : BTree α) : NodePtr → Nat
  | [] => 0
  | Slot.left :: p => preorder_index t p + 1
  | Slot.right :: p => preorder_index t p + 1 + (t.subtree (Slot.left :: p)).count

/-- The first-match scan as the specification words it: the child is tried on the
nodes of a sequence in their order; the scan returns the first node the child
matches, or no node when it matches none of them, together with the child
afterwards.  `none` when a match attempt runs out of fuel. -/
def first_match_scan (child_match : ChildMatch α) :
    Matcher α → List NodePtr → Option (Option NodePtr × Matcher α)
  | child, [] => some (none, child)
  | child, n :: rest =>
    match child_match child n with
    | none => none
    | some (true, child') => some (some n, child')
    | some (false, child') => first_match_scan child_match child' rest

end scan_definitions

/-- The pattern `star()(star(), one(1), star())`. -/
def star_star_one_star : pattern Nat :=
  { pattern_tree := Matcher.any_matcher quantifier.DEFAULT true_matcher none
      [star quantifier.DEFAULT true_matcher, Matcher.one_matcher (equal_to 1) none,
        star quantifier.DEFAULT true_matcher]
    captures := [] }

/-- The pattern `star<RELUCTANT>()(star(), star())`. -/
def reluctant_over_stars : pattern Nat :=
  { pattern_tree := Matcher.any_matcher quantifier.RELUCTANT true_matcher none
      [star quantifier.DEFAULT true_matcher, star quantifier.DEFAULT true_matcher]
    captures := [] }

/-- The pattern `star<RELUCTANT>()(one(2), star())`. -/
def reluctant_over_one_star : pattern Nat :=
  { pattern_tree := Matcher.any_matcher quantifier.RELUCTANT true_matcher none
      [Matcher.one_matcher (equal_to 2) none, star quantifier.DEFAULT true_matcher]
    captures := [] }

/-- The tree `1(2, _)`. -/
def tree_left : BTree Nat := BTree.node (BTree.node BTree.nil 2 BTree.nil) 1 BTree.nil

/-- A state of the lambdas of `match_node_impl` on `tree1`: one child `star(3)`, the
cursor on the root. -/
def scan_state : MatchState Nat :=
  { children := [star quantifier.DEFAULT (equal_to 3)]
    subtree_cut := none
    match_attempt_begin := [none, none]
    target_it := some [] }

/-- A state of the lambdas of `match_node_impl` on `single`: the child `star()` holds
the root and began there, the cursor is exhausted. -/
def renounce_state : MatchState Nat :=
  { children := [Matcher.any_matcher quantifier.DEFAULT true_matcher (some []) [],
      Matcher.one_matcher (equal_to 5) none]
    subtree_cut := some []
    match_attempt_begin := [some [], none, none]
    target_it := none }

/-! ## `node::insert`, `is_unique_child`, `calculate_size` and `calculate_arity` -/

section nary_insert

variable {α : Type}

/-- The pointer member `member` of the n-ary node object at address `a`, as the code
reads it at one point of its run. -/
def NaryMemory.read (m : NaryMemory α) (a : Nat) (member : nary_object α → Option Nat) :
    Option Nat :=
  (m[a]?).bind member

/-- Method `node::insert(n)` of `node/node.tpp`, statement by statement; every member
is read from the memory as it is when the statement runs. -/
def node.insert (m : NaryMemory α) (this n : Nat) : NaryMemory α :=
  -- Vertical link
  let m1 := m.write n (fun o => { o with parent := m.read this (fun x => x.parent) })
  let m2 := m1.write n (fun o => { o with first_child := some this })
  let m3 := m2.write n (fun o => { o with last_child := some this })
  let m4 := m3.write this (fun o => { o with parent := some n })
  -- Horizontal link
  let m5 :=
    match m4.read this (fun x => x.prev_sibling) with
    | some prev_sibling =>
      let a := m4.write n (fun o => { o with prev_sibling := some prev_sibling })
      let b :=
        match a.read n (fun x => x.prev_sibling) with
        | some p => a.write p (fun o => { o with next_sibling := some n })
        | none => a
      b.write this (fun o => { o with prev_sibling := none })
    | none =>
      match m4.read this (fun x => x.parent) with
      | some parent => m4.write parent (fun o => { o with first_child := some n })
      | none => m4
  match m5.read this (fun x => x.next_sibling) with
  | some next_sibling =>
    let a := m5.write n (fun o => { o with next_sibling := some next_sibling })
    let b :=
      match a.read n (fun x => x.next_sibling) with
      | some p => a.write p (fun o => { o with prev_sibling := some n })
      | none => a
    b.write this (fun o => { o with next_sibling := none })
  | none =>
    match m5.read this (fun x => x.parent) with
    | some parent => m5.write parent (fun o => { o with last_child := some n })
    | none => m5

end nary_insert

/-- The memory `nary_1_2_3` with one more node at address 3, which has no links. -/
def nary_with_fresh : NaryMemory Nat :=
  nary_1_2_3 ++
    [{ value := 9, parent := none, prev_sibling := none, next_sibling := none,
       first_child := none, last_child := none }]

section unique_child

variable {α : Type}

/-- Method `binary_node::is_unique_child` of the older header
`include/TreeDS/binary_node.hpp`: `this == first_child() && this == last_child()`,
where `first_child()` and `last_child()` are those of the node itself. -/
def is_unique_child (t : BTree α) (n : NodePtr) : Bool :=
  decide (some n = get_first_child t n) && decide (some n = get_last_child t n)

/-- Function `calculate_size(const binary_node<T>& node)` of `utility.hpp`; the
argument is a reference, so no call passes `nil`. -/
def binary_node.calculate_size : BTree α → Nat
  | BTree.nil => 0
  | BTree.node l _ r =>
    1 + (if l.isNil = false then binary_node.calculate_size l else 0)
      + (if r.isNil = false then binary_node.calculate_size r else 0)

end unique_child

/-- Modelled from the spec: an n-ary node with what it owns, its value and its ordered
child list (the class `nary_node` is only declared in `utility.hpp`).
`get_first_child` is the head of the list of a node, `get_next_sibling` of a child
the child after it. -/
inductive nary_node (α : Type) where
  | mk (value : α) (children : List (nary_node α)) : nary_node α

namespace nary_node

variable {α : Type}

mutual
/-- Function `calculate_size(const nary_node<T>& node)` of `utility.hpp`. -/
def calculate_size : nary_node α → Nat
  | mk _ children => calculate_size_loop 1 children
/-- The loop `while (child != nullptr)` of `calculate_size`, from the child that heads
the list on. -/
def calculate_size_loop : Nat → List (nary_node α) → Nat
  | size, [] => size
  | size, child :: following => calculate_size_loop (size + calculate_size child) following
end

mutual
/-- Function `calculate_arity(node, max_expected_arity)` of `utility.hpp`
(`get_following_siblings` of a child is the number of children after it). -/
def calculate_arity (max_expected_arity : Nat) : nary_node α → Nat
  | mk _ children =>
    calculate_arity_loop max_expected_arity
      (match children with
        | [] => 0
        | _ :: following => following.length + 1)
      children
/-- The loop `while (child)` of `calculate_arity`, from the child that heads the list
on. -/
def calculate_arity_loop (max_expected_arity : Nat) : Nat → List (nary_node α) → Nat
  | arity, [] => arity
  | arity, child :: following =>
    if arity = max_expected_arity then arity
    else
      calculate_arity_loop max_expected_arity
        (max arity (calculate_arity max_expected_arity child)) following
end

mutual
/-- Number of nodes of the subtree rooted at a node. -/
def count : nary_node α → Nat
  | mk _ children => 1 + count_all children
/-- Number of nodes of the subtrees rooted at the nodes of a list. -/
def count_all : List (nary_node α) → Nat
  | [] => 0
  | child :: following => count child + count_all following
end

mutual
/-- Pre-order sequence of the subtree rooted at a node: the node, then the sequences
of its children in order.  A node is given by the child indices met on the way up to
the root of the subtree. -/
def preorder : nary_node α → List (List Nat)
  | mk _ children => [] :: preorder_from 0 children
/-- Pre-order sequences of the children from index `i` on. -/
def preorder_from : Nat → List (nary_node α) → List (List Nat)
  | _, [] => []
  | i, child :: following =>
    (preorder child).map (fun q => q ++ [i]) ++ preorder_from (i + 1) following
end

mutual
/-- Largest number of children of any node in the subtree rooted at a node. -/
def largest_arity : nary_node α → Nat
  | mk _ children => max children.length (largest_arity_all children)
/-- Largest number of children of any node in the subtrees rooted at the nodes of a
list. -/
def largest_arity_all : List (nary_node α) → Nat
  | [] => 0
  | child :: following => max (largest_arity child) (largest_arity_all following)
end

end nary_node

/-- The n-ary tree `1(2(4, 5, 6), 3)`. -/
def nary_tree_six : nary_node Nat :=
  nary_node.mk 1
    [nary_node.mk 2 [nary_node.mk 4 [], nary_node.mk 5 [], nary_node.mk 6 []],
      nary_node.mk 3 []]

/-! ## Matching over nodes in memory

`pattern::match`, `matcher::match_node` and `any_matcher::match_node_impl` receive the
concrete tree and its nodes by pointer or by reference to non-const.  Here the
matching runs on the memory of node objects, the nodes being addresses, and every
function that receives a node that way returns the memory as it is afterwards. -/

namespace in_memory

/-- The matcher classes `any_matcher` and `one_matcher` (see `TreeDS.Matcher`), the
member `target_node` being an address. -/
inductive Matcher (α : Type) where
  /-- Class `any_matcher<Quantifier, ValueMatcher, Children...>`. -/
  | any_matcher (Quantifier : quantifier) (value_matcher : α → Bool)
      (target_node : Option Nat) (children : List (Matcher α)) : Matcher α
  /-- Class `one_matcher<ValueMatcher>`. -/
  | one_matcher (value_matcher : α → Bool) (target_node : Option Nat) : Matcher α

namespace Matcher

variable {α : Type}

/-- Accessor `matcher::get_node`: the current target. -/
def get_node : Matcher α → Option Nat
  | any_matcher _ _ target_node _ => target_node
  | one_matcher _ target_node => target_node

/-- Assignment `this->target_node = node`. -/
def set_target (node : Option Nat) : Matcher α → Matcher α
  | any_matcher q value _ cs => any_matcher q value node cs
  | one_matcher value _ => one_matcher value node

mutual
/-- Constant `any_matcher::info.matches_null`: `(... && Children::info.matches_null)`;
a leaf EXACT-ONE matcher never matches null. -/
def matches_null : Matcher α → Bool
  | any_matcher _ _ _ cs => all_match_null cs
  | one_matcher _ _ => false
/-- The fold `(... && Children::info.matches_null)`. -/
def all_match_null : List (Matcher α) → Bool
  | [] => true
  | c :: cs => matches_null c && all_match_null cs
end

mutual
/-- Modelled from the spec: `matcher::reset`, clearing all per-attempt target state
recursively. -/
def reset : Matcher α → Matcher α
  | any_matcher q value _ cs => any_matcher q value none (reset_all cs)
  | one_matcher value _ => one_matcher value none
/-- Modelled from the spec: `reset` of every child. -/
def reset_all : List (Matcher α) → List (Matcher α)
  | [] => []
  | c :: cs => reset c :: reset_all cs
end

end Matcher

section engine

variable {α : Type}

/-- Accessor `node::get_value`, `none` on an address that holds no node. -/
def get_value (memory : Memory α) (n : Nat) : Option α :=
  (memory[n]?).map (fun o => o.value)

/-- Accessor `node::get_parent`: the member `parent`. -/
def get_parent (memory : Memory α) (n : Nat) : Option Nat :=
  (memory[n]?).bind (fun o => o.parent)

/-- Accessor `binary_node::get_left`: the member `left`. -/
def get_left (memory : Memory α) (n : Nat) : Option Nat :=
  (memory[n]?).bind (fun o => o.left)

/-- Accessor `binary_node::get_right`: the member `right`. -/
def get_right (memory : Memory α) (n : Nat) : Option Nat :=
  (memory[n]?).bind (fun o => o.right)

/-- Accessor `binary_node::first_child` (called `get_first_child` by the policies):
`left ? left : right`. -/
def get_first_child (memory : Memory α) (n : Nat) : Option Nat :=
  match get_left memory n with
  | some l => some l
  | none => get_right memory n

/-- Accessor `binary_node::get_next_sibling`: the parent's `right` when this node is
the parent's `left`, `nullptr` otherwise. -/
def get_next_sibling (memory : Memory α) (n : Nat) : Option Nat :=
  match get_parent memory n with
  | some parent => if get_left memory parent == some n then get_right memory parent else none
  | none => none

/-- Application of a value matcher to `node.get_value()`. -/
def accepts (value : α → Bool) (memory : Memory α) (n : Nat) : Bool :=
  match get_value memory n with
  | some v => value v
  | none => false

/-- The lambda `predicate` of `match_node_impl`: stop when finding a non-matching node. -/
def predicate (memory : Memory α) (value : α → Bool) (subtree_cut : Option Nat) (n : Nat) : Bool :=
  match get_parent memory n with
  | none => accepts value memory n
  | some parent => (some parent != subtree_cut) && accepts value memory parent

/-- Modelled from the spec: `node_pred_navigator::get_first_child`, the first child
among those the predicate lets through. -/
def nav_get_first_child (memory : Memory α) (value : α → Bool) (subtree_cut : Option Nat)
    (n : Nat) : Option Nat :=
  (get_first_child memory n).filter (predicate memory value subtree_cut)

/-- Modelled from the spec: `node_pred_navigator::get_next_sibling`, the next sibling
among those the predicate lets through. -/
def nav_get_next_sibling (memory : Memory α) (value : α → Bool) (subtree_cut : Option Nat)
    (n : Nat) : Option Nat :=
  (get_next_sibling memory n).filter (predicate memory value subtree_cut)

/-- Modelled from the spec: the climb of the navigated pre-order cursor, which is
`keep_calling` with `call` the navigator's `get_parent` (`nullptr` at the
navigator's root), `test` "has a next sibling" and `result` that sibling; `none`
when the fuel ran out (the parent pointers of a memory may form a cycle). -/
def nav_keep_calling (memory : Memory α) (value : α → Bool) (root : Nat)
    (subtree_cut : Option Nat) : Nat → Nat → Option Nat
  | 0, _ => none
  | fuel + 1, n =>
    match get_parent memory n with
    | none => some n
    | some next =>
      if n == root then some n
      else if (nav_get_next_sibling memory value subtree_cut n).isSome then
        nav_get_next_sibling memory value subtree_cut n
      else nav_keep_calling memory value root subtree_cut fuel next

/-- Modelled from the spec: `increment` of the pre-order cursor bound to the scoped
navigator: first visitable child if present, else climb ancestors until one has a
visitable next sibling; exhausted when the climb reaches the navigator's root.  The
outer `none` is the fuel that ran out. -/
def nav_increment (memory : Memory α) (value : α → Bool) (root : Nat)
    (subtree_cut : Option Nat) (fuel : Nat) (current : Nat) : Option (Option Nat) :=
  match nav_get_first_child memory value subtree_cut current with
  | some result => some (some result)
  | none =>
    match nav_keep_calling memory value root subtree_cut fuel current with
    | none => none
    | some result => if result == root then some none else some (some result)

/-- Modelled from the spec: `go_depth_first_ramification` of a cursor placed on a
node, which advances past that node using the scoped navigator. -/
def go_depth_first_ramification (memory : Memory α) (value : α → Bool) (root : Nat)
    (subtree_cut : Option Nat) (fuel : Nat) (current : Nat) : Option (Option Nat) :=
  nav_increment memory value root subtree_cut fuel current

/-- The variables that the lambdas `do_match` and `do_rematch` capture by reference,
with the memory that holds the node `node` of `match_node_impl`. -/
structure MatchState (α : Type) where
  /-- The child matchers, `this->children`. -/
  children : List (Matcher α)
  /-- Local `subtree_cut`. -/
  subtree_cut : Option Nat
  /-- Local `match_attempt_begin`. -/
  match_attempt_begin : List (Option Nat)
  /-- Current node of the cursor `target_it`. -/
  target_it : Option Nat
  /-- The memory of node objects. -/
  memory : Memory α

/-- The type of `child.match_node(current, allocator)`: the boolean, the child and the
memory afterwards, `none` when the fuel ran out. -/
abbrev ChildMatch (α : Type) := Matcher α → Memory α → Nat → Option (Bool × Matcher α × Memory α)

/-- The loop `while (current)` of the lambda `do_match`. -/
def do_match_loop (child_match : ChildMatch α) (value : α → Bool) (root : Nat) (index : Nat) :
    Nat → MatchState α → Option (Bool × MatchState α)
  | fuel, st =>
    match st.target_it with
    | none => some (false, st)
    | some current =>
      match fuel with
      | 0 => none
      | fuel + 1 =>
        match st.children.get? index with
        | none => none
        | some child =>
          match child_match child st.memory current with
          | none => none
          | some (true, child', memory') =>
            match nav_increment memory' value root (some current) fuel current with
            | none => none
            | some next =>
              some (true,
                { st with
                  children := st.children.set index child'
                  subtree_cut := some current
                  target_it := next
                  memory := memory' })
          | some (false, child', memory') =>
            match nav_increment memory' value root st.subtree_cut fuel current with
            | none => none
            | some next =>
              do_match_loop child_match value root index fuel
                { st with
                  children := st.children.set index child'
                  target_it := next
                  memory := memory' }

/-- The lambda `do_match` of `match_node_impl`. -/
def do_match (child_match : ChildMatch α) (value : α → Bool) (root : Nat)
    (fuel : Nat) (index : Nat) (st : MatchState α) : Option (Bool × MatchState α) :=
  match st.children.get? index with
  | none => none
  | some child =>
    match st.target_it with
    | none => some (child.matches_null, st)
    | some current =>
      let st1 : MatchState α :=
        if (st.match_attempt_begin.getD index none).isNone then
          { st with match_attempt_begin := st.match_attempt_begin.set index (some current) }
        else st
      do_match_loop child_match value root index fuel st1

/-- The lambda `do_rematch` of `match_node_impl`. -/
def do_rematch (child_match : ChildMatch α) (value : α → Bool) (root : Nat)
    (fuel : Nat) (index : Nat) (st : MatchState α) : Option (Bool × MatchState α) :=
  match st.children.get? index with
  | none => none
  | some child =>
    let st1 : MatchState α := { st with subtree_cut := none }
    match child.get_node with
    | none => some (false, st1)
    | some node =>
      match go_depth_first_ramification st1.memory value root st1.subtree_cut fuel node with
      | none => none
      | some next =>
        let st2 : MatchState α := { st1 with target_it := next }
        match st2.target_it with
        | none =>
          -- If child can renounce to its match
          if child.matches_null && child.get_node.isSome then
            some (true, { st2 with target_it := st2.match_attempt_begin.getD index none })
          else some (false, st2)
        | some current =>
          do_match child_match value root fuel index { st2 with subtree_cut := some current }

/-- Modelled from the spec: the backward part of `matcher::match_children`, calling
`do_rematch` on the previous child, then on the one before it, until one succeeds;
returns the index of the child that could rematch, if any. -/
def backtrack (rematch : Nat → MatchState α → Option (Bool × MatchState α)) :
    Nat → MatchState α → Option (Option Nat × MatchState α)
  | 0, st => some (none, st)
  | current_child + 1, st =>
    match rematch current_child st with
    | none => none
    | some (true, st') => some (some current_child, st')
    | some (false, st') => backtrack rematch current_child st'

/-- Modelled from the spec: `matcher::match_children(do_match, do_rematch)`, whose
source is not available: forward progress calls `do_match` on the next child; any
failure calls `do_rematch` on the previous child and retries forward; matching
succeeds when every child has been matched. -/
def match_children (do_match_ : Nat → MatchState α → Option (Bool × MatchState α))
    (do_rematch_ : Nat → MatchState α → Option (Bool × MatchState α)) (children_count : Nat) :
    Nat → Nat → MatchState α → Option (Bool × MatchState α)
  | fuel, current_child, st =>
    if children_count ≤ current_child then some (true, st)
    else
      match fuel with
      | 0 => none
      | fuel + 1 =>
        match do_match_ current_child st with
        | none => none
        | some (true, st') =>
          match_children do_match_ do_rematch_ children_count fuel (current_child + 1) st'
        | some (false, st') =>
          match backtrack do_rematch_ current_child st' with
          | none => none
          | some (none, st'') => some (false, st'')
          | some (some previous, st'') =>
            match_children do_match_ do_rematch_ children_count fuel (previous + 1) st''

/-- Method `any_matcher::match_node_impl(node, allocator)` (and, for `one_matcher`, the
test of the node's value modelled from the spec), with the memory afterwards. -/
def match_node_impl (child_match : ChildMatch α) (fuel : Nat) (m : Matcher α)
    (memory : Memory α) (node : Nat) : Option (Bool × Matcher α × Memory α) :=
  match m with
  | Matcher.one_matcher value _ => some (accepts value memory node, m, memory)
  | Matcher.any_matcher q value target_node children =>
    if !accepts value memory node then some (false, m, memory)
    else
      let st : MatchState α :=
        { children := children
          subtree_cut := none
          match_attempt_begin := List.replicate (children.length + 1) none
          target_it := some node
          memory := memory }
      match match_children (do_match child_match value node fuel)
          (do_rematch child_match value node fuel) children.length fuel 0 st with
      | none => none
      | some (matched, st') =>
        some (matched, Matcher.any_matcher q value target_node st'.children, st'.memory)

/-- Modelled from the spec: `matcher::match_node(node, allocator)`.  An absent node is
matched exactly when the matcher matches null; otherwise `match_node_impl` decides
and, on success, the node becomes the target.  `none` when the fuel ran out. -/
def match_node : Nat → Matcher α → Memory α → Option Nat → Option (Bool × Matcher α × Memory α)
  | 0, _, _, _ => none
  | _ + 1, m, memory, none => some (m.matches_null, m, memory)
  | fuel + 1, m, memory, some node =>
    match match_node_impl (fun child memory' current => match_node fuel child memory' (some current))
        fuel m memory node with
    | none => none
    | some (true, m', memory') => some (true, m'.set_target (some node), memory')
    | some (false, m', memory') => some (false, m', memory')

/-- Method `pattern::match(tree)`, the tree being its member `root` and the memory
that holds its nodes: reset, then match the root matcher against the tree's root;
returns the boolean, the pattern tree and the memory afterwards, `none` when the fuel
ran out. -/
def match_tree (fuel : Nat) (pattern_tree : Matcher α) (memory : Memory α) (root : Option Nat) :
    Option (Bool × Matcher α × Memory α) :=
  match_node fuel pattern_tree.reset memory root

/-- A child match leaves the memory as it was. -/
def KeepsMemory (child_match : ChildMatch α) : Prop :=
  ∀ c memory n b c' memory', child_match c memory n = some (b, c', memory') → memory' = memory

end engine

/-- The pattern tree `star()(star(2), star(5))`. -/
def star_two_five : Matcher Nat :=
  Matcher.any_matcher quantifier.DEFAULT true_matcher none
    [Matcher.any_matcher quantifier.DEFAULT (equal_to 2) none [],
      Matcher.any_matcher quantifier.DEFAULT (equal_to 5) none []]

/-- The pattern tree `star()(star(2))`. -/
def star_two : Matcher Nat :=
  Matcher.any_matcher quantifier.DEFAULT true_matcher none
    [Matcher.any_matcher quantifier.DEFAULT (equal_to 2) none []]

/-- The state of `star_two_five` after it failed to match the node `1(2, 3)` at address
0: the first child still holds the node it had claimed. -/
def star_two_five_failed : Matcher Nat :=
  Matcher.any_matcher quantifier.DEFAULT true_matcher none
    [Matcher.any_matcher quantifier.DEFAULT (equal_to 2) (some 1) [],
      Matcher.any_matcher quantifier.DEFAULT (equal_to 5) none []]

/-- The state of `star_two` after it matched the node `1(2, 3)` at address 0. -/
def star_two_matched : Matcher Nat :=
  Matcher.any_matcher quantifier.DEFAULT true_matcher (some 0)
    [Matcher.any_matcher quantifier.DEFAULT (equal_to 2) (some 1) []]

end in_memory

/-! ## Lemmas -/

open BTree pre_order_impl

section preorder_lemmas
variable {α : Type}

theorem subtree_append (t : BTree α) (q p : NodePtr) :
    t.subtree (q ++ p) = (t.subtree p).subtree q := by
  induction q with
  | nil => rfl
  | cons s q ih => simp [BTree.subtree, ih]

theorem subtree_nil (q : NodePtr) : (BTree.nil : BTree α).subtree q = BTree.nil := by
  induction q with
  | nil => rfl
  | cons s q ih => simp [BTree.subtree, ih, BTree.child]

theorem isNil_iff (t : BTree α) : t.isNil = true ↔ t = BTree.nil := by
  cases t <;> simp [BTree.isNil]

theorem cross_root (t : BTree α) : cross t [] = none := by
  simp [cross, keep_calling, is_root]

theorem cross_right (t : BTree α) (p : NodePtr) : cross t (Slot.right :: p) = cross t p := by
  simp [cross, keep_calling, get_next_sibling]

theorem cross_left_some (t : BTree α) (p : NodePtr)
    (h : (t.subtree (Slot.right :: p)).isNil = false) :
    cross t (Slot.left :: p) = some (Slot.right :: p) := by
  simp [cross, keep_calling, get_next_sibling, get_right, h, is_root]

theorem cross_left_none (t : BTree α) (p : NodePtr)
    (h : (t.subtree (Slot.right :: p)).isNil = true) :
    cross t (Slot.left :: p) = cross t p := by
  simp [cross, keep_calling, get_next_sibling, get_right, h]

theorem increment_eq (t : BTree α) (n : NodePtr) :
    increment t n = match get_first_child t n with
      | some c => some c
      | none => cross t n := by
  unfold increment cross
  rfl

theorem chained_single (t : BTree α) (a : NodePtr) (e : Option NodePtr)
    (h : increment t a = e) : Chained t [a] e := by
  simp [Chained, h]

theorem chained_cons (t : BTree α) (a b : NodePtr) (l : List NodePtr) (e : Option NodePtr)
    (h : increment t a = some b) (hl : Chained t (b :: l) e) : Chained t (a :: b :: l) e := by
  simp only [Chained, List.map_cons, List.tail_cons] at hl ⊢
  rw [h, hl]
  simp

theorem chained_append (t : BTree α) (l₁ : List NodePtr) (b : NodePtr) (l₂ : List NodePtr)
    (e : Option NodePtr) (h₁ : Chained t l₁ (some b)) (h₂ : Chained t (b :: l₂) e) :
    Chained t (l₁ ++ b :: l₂) e := by
  cases l₁ with
  | nil => simp [Chained] at h₁
  | cons a l₁ =>
    simp only [Chained, List.map_cons, List.tail_cons] at h₁ h₂
    have h := congrArg₂ (fun x y => x ++ y) h₁ h₂
    simpa [Chained] using h

theorem chained_last (t : BTree α) (l : List NodePtr) (e : Option NodePtr)
    (h : Chained t l e) : ∀ n : NodePtr, n ∈ l.getLast? → increment t n = e := by
  intro n hn
  have h' := congrArg List.getLast? h
  rw [List.getLast?_map, List.getLast?_concat] at h'
  rw [Option.mem_def] at hn
  rw [hn] at h'
  simpa using h'

theorem preorder_node_ne (l r : BTree α) (v : α) (p : NodePtr) :
    ∃ rest, ((BTree.node l v r).preorder.map (fun q => q ++ p)) = p :: rest := by
  simp [BTree.preorder]

theorem chained_preorder (t : BTree α) :
    ∀ (s : BTree α) (p : NodePtr), t.subtree p = s → s ≠ BTree.nil →
      Chained t (s.preorder.map (fun q => q ++ p)) (cross t p) := by
  intro s
  induction s with
  | nil => intro p _ h; exact absurd rfl h
  | node l v r ihl ihr =>
    intro p hp _
    have hl : t.subtree (Slot.left :: p) = l := by simp [BTree.subtree, hp, BTree.child]
    have hr : t.subtree (Slot.right :: p) = r := by simp [BTree.subtree, hp, BTree.child]
    have hmapl : (l.preorder.map (fun q => q ++ [Slot.left])).map (fun q => q ++ p)
        = l.preorder.map (fun q => q ++ Slot.left :: p) := by
      simp [List.map_map, Function.comp_def]
    have hmapr : (r.preorder.map (fun q => q ++ [Slot.right])).map (fun q => q ++ p)
        = r.preorder.map (fun q => q ++ Slot.right :: p) := by
      simp [List.map_map, Function.comp_def]
    simp only [BTree.preorder, List.map_cons, List.map_append, List.nil_append, hmapl, hmapr]
    cases l with
    | nil =>
      cases r with
      | nil =>
        simp only [BTree.preorder, List.map_nil, List.append_nil]
        apply chained_single
        rw [increment_eq]
        simp [get_first_child, get_left, get_right, hl, hr, BTree.isNil]
      | node rl rv rr =>
        have h := ihr (Slot.right :: p) hr (by simp)
        rw [cross_right] at h
        obtain ⟨rest, hrest⟩ := preorder_node_ne rl rr rv (Slot.right :: p)
        simp only [BTree.preorder, List.map_nil, List.nil_append] at hrest h ⊢
        rw [hrest] at h ⊢
        apply chained_cons _ _ _ _ _ _ h
        rw [increment_eq]
        simp [get_first_child, get_left, get_right, hl, hr, BTree.isNil]
    | node ll lv lr =>
      have h := ihl (Slot.left :: p) hl (by simp)
      obtain ⟨rest, hrest⟩ := preorder_node_ne ll lr lv (Slot.left :: p)
      have hinc : increment t p = some (Slot.left :: p) := by
        rw [increment_eq]
        simp [get_first_child, get_left, hl, BTree.isNil]
      cases r with
      | nil =>
        rw [cross_left_none t p (by simp [hr, BTree.isNil])] at h
        simp only [BTree.preorder, List.map_nil, List.append_nil] at hrest h ⊢
        rw [hrest] at h ⊢
        exact chained_cons _ _ _ _ _ hinc h
      | node rl rv rr =>
        rw [cross_left_some t p (by simp [hr, BTree.isNil])] at h
        have h' := ihr (Slot.right :: p) hr (by simp)
        rw [cross_right] at h'
        obtain ⟨rest', hrest'⟩ := preorder_node_ne rl rr rv (Slot.right :: p)
        rw [hrest'] at h' ⊢
        have := chained_append t _ _ _ _ h h'
        rw [hrest] at this ⊢
        exact chained_cons _ _ _ _ _ hinc this

theorem walk_of_chained (t : BTree α) :
    ∀ (l : List NodePtr) (a : NodePtr) (fuel : Nat), Chained t (a :: l) none →
      l.length + 1 < fuel → walk t fuel (some a) = a :: l := by
  intro l
  induction l with
  | nil =>
    intro a fuel h hf
    obtain ⟨k, rfl⟩ : ∃ k, fuel = k + 2 := ⟨fuel - 2, by simp at hf; omega⟩
    simp [Chained] at h
    simp [walk, h]
  | cons b l ih =>
    intro a fuel h hf
    obtain ⟨k, rfl⟩ : ∃ k, fuel = k + 1 := ⟨fuel - 1, by simp at hf; omega⟩
    simp only [Chained, List.map_cons, List.tail_cons, List.cons_append, List.cons.injEq] at h
    have hb : Chained t (b :: l) none := by
      simp only [Chained, List.map_cons, List.tail_cons]
      exact h.2
    simp only [walk, h.1]
    rw [ih b k hb (by simpa using hf)]

theorem mem_preorder (t : BTree α) : ∀ p : NodePtr, p ∈ t.preorder ↔ t.subtree p ≠ BTree.nil := by
  induction t with
  | nil => intro p; simp [BTree.preorder, subtree_nil]
  | node l v r ihl ihr =>
    intro p
    rcases List.eq_nil_or_concat p with rfl | ⟨q, s, rfl⟩
    · simp [BTree.preorder, BTree.subtree]
    · have hs : (BTree.node l v r).subtree (q ++ [s]) = ((BTree.node l v r).child s).subtree q := by
        rw [subtree_append]; rfl
      rw [List.concat_eq_append, hs]
      cases s with
      | left =>
        have hx : ∀ x : NodePtr, x ++ [Slot.right] ≠ q ++ [Slot.left] := by
          intro x hx
          have := List.append_inj' hx rfl
          simp at this
        simp [BTree.preorder, BTree.child, ← ihl, hx]
      | right =>
        have hx : ∀ x : NodePtr, x ++ [Slot.left] ≠ q ++ [Slot.right] := by
          intro x hx
          have := List.append_inj' hx rfl
          simp at this
        simp [BTree.preorder, BTree.child, ← ihr, hx]

theorem nodup_preorder (t : BTree α) : t.preorder.Nodup := by
  induction t with
  | nil => simp [BTree.preorder]
  | node l v r ihl ihr =>
    simp only [BTree.preorder, List.nodup_cons, List.mem_append, List.mem_map]
    refine ⟨?_, ?_⟩
    · rintro (⟨q, _, hq⟩ | ⟨q, _, hq⟩) <;> simp at hq
    · rw [List.nodup_append]
      refine ⟨?_, ?_, ?_⟩
      · exact ihl.map (fun a b h => by simpa using h)
      · exact ihr.map (fun a b h => by simpa using h)
      · intro a ha hb
        simp only [List.mem_map] at ha hb
        obtain ⟨q, _, rfl⟩ := ha
        obtain ⟨q', _, hq'⟩ := hb
        have := List.append_inj' hq' rfl
        simp at this

theorem length_preorder (t : BTree α) : t.preorder.length = t.count := by
  induction t with
  | nil => rfl
  | node l v r ihl ihr => simp [BTree.preorder, BTree.count, ihl, ihr]; omega

end preorder_lemmas


section engine_lemmas

variable {α : Type}

theorem reset_all_set (cs : List (Matcher α)) :
    ∀ (i : Nat) (c c' : Matcher α), cs.get? i = some c → c'.reset = c.reset →
      Matcher.reset_all (cs.set i c') = Matcher.reset_all cs := by
  induction cs with
  | nil => intro i c c' h; simp at h
  | cons a cs ih =>
    intro i c c' h hr
    cases i with
    | zero =>
      simp at h
      subst h
      simp [Matcher.reset_all, hr]
    | succ i =>
      simp at h
      simp [Matcher.reset_all, ih i c c' (by simpa using h) hr]

theorem do_match_loop_structure (cm : ChildMatch α) (hcm : KeepsStructure cm) (t : BTree α)
    (value : α → Bool) (root : NodePtr) (index : Nat) :
    ∀ (fuel : Nat) (st : MatchState α) (b : Bool) (st' : MatchState α),
      do_match_loop cm t value root index fuel st = some (b, st') →
      Matcher.reset_all st'.children = Matcher.reset_all st.children := by
  intro fuel
  induction fuel with
  | zero =>
    intro st b st' h
    unfold do_match_loop at h
    split at h
    · simp at h; rw [← h.2]
    · simp at h
  | succ fuel ih =>
    intro st b st' h
    unfold do_match_loop at h
    split at h
    · simp at h; rw [← h.2]
    · simp only at h
      split at h
      · simp at h
      · rename_i child hchild
        split at h
        · simp at h
        · rename_i child' hc
          simp at h
          rw [← h.2]
          exact reset_all_set _ _ _ _ hchild (hcm _ _ _ _ hc)
        · rename_i child' hc
          have := ih _ _ _ h
          rw [this]
          exact reset_all_set _ _ _ _ hchild (hcm _ _ _ _ hc)

theorem do_match_structure (cm : ChildMatch α) (hcm : KeepsStructure cm) (t : BTree α)
    (value : α → Bool) (root : NodePtr) (fuel index : Nat) (st : MatchState α) (b : Bool)
    (st' : MatchState α) (h : do_match cm t value root fuel index st = some (b, st')) :
    Matcher.reset_all st'.children = Matcher.reset_all st.children := by
  unfold do_match at h
  split at h
  · simp at h
  · split at h
    · simp at h; rw [← h.2]
    · have := do_match_loop_structure cm hcm t value root index _ _ _ _ h
      rw [this]
      split <;> rfl

theorem do_rematch_structure (cm : ChildMatch α) (hcm : KeepsStructure cm) (t : BTree α)
    (value : α → Bool) (root : NodePtr) (fuel index : Nat) (st : MatchState α) (b : Bool)
    (st' : MatchState α) (h : do_rematch cm t value root fuel index st = some (b, st')) :
    Matcher.reset_all st'.children = Matcher.reset_all st.children := by
  unfold do_rematch at h
  split at h
  · simp at h
  · split at h
    · simp at h; rw [← h.2]
    · simp only at h
      split at h
      · split at h
        · simp at h; rw [← h.2]
        · simp at h; rw [← h.2]
      · have := do_match_structure cm hcm t value root _ _ _ _ _ h
        exact this

theorem backtrack_structure (rematch : Nat → MatchState α → Option (Bool × MatchState α))
    (hr : ∀ i st b st', rematch i st = some (b, st') →
      Matcher.reset_all st'.children = Matcher.reset_all st.children) :
    ∀ (i : Nat) (st : MatchState α) (r : Option Nat) (st' : MatchState α),
      backtrack rematch i st = some (r, st') →
      Matcher.reset_all st'.children = Matcher.reset_all st.children := by
  intro i
  induction i with
  | zero => intro st r st' h; simp [backtrack] at h; rw [← h.2]
  | succ i ih =>
    intro st r st' h
    unfold backtrack at h
    split at h
    · simp at h
    · rename_i st1 h1
      simp at h
      rw [← h.2]
      exact hr _ _ _ _ h1
    · rename_i st1 h1
      rw [ih _ _ _ h]
      exact hr _ _ _ _ h1

theorem match_children_structure (dm dr : Nat → MatchState α → Option (Bool × MatchState α))
    (hm : ∀ i st b st', dm i st = some (b, st') →
      Matcher.reset_all st'.children = Matcher.reset_all st.children)
    (hr : ∀ i st b st', dr i st = some (b, st') →
      Matcher.reset_all st'.children = Matcher.reset_all st.children) (count : Nat) :
    ∀ (fuel i : Nat) (st : MatchState α) (b : Bool) (st' : MatchState α),
      match_children dm dr count fuel i st = some (b, st') →
      Matcher.reset_all st'.children = Matcher.reset_all st.children := by
  intro fuel
  induction fuel with
  | zero =>
    intro i st b st' h
    unfold match_children at h
    split at h
    · simp at h; rw [← h.2]
    · simp at h
  | succ fuel ih =>
    intro i st b st' h
    unfold match_children at h
    split at h
    · simp at h; rw [← h.2]
    · simp only at h
      split at h
      · simp at h
      · rename_i st1 h1
        rw [ih _ _ _ _ h]
        exact hm _ _ _ _ h1
      · rename_i st1 h1
        split at h
        · simp at h
        · rename_i st2 h2
          simp at h
          rw [← h.2, backtrack_structure dr hr _ _ _ _ h2]
          exact hm _ _ _ _ h1
        · rename_i j st2 h2
          rw [ih _ _ _ _ h, backtrack_structure dr hr _ _ _ _ h2]
          exact hm _ _ _ _ h1

theorem match_children_done (dm dr : Nat → MatchState α → Option (Bool × MatchState α))
    (count fuel i : Nat) (st : MatchState α) (h : count ≤ i) :
    match_children dm dr count fuel i st = some (true, st) := by
  unfold match_children
  simp [h]

theorem reset_set_target (m : Matcher α) (n : Option NodePtr) : (m.set_target n).reset = m.reset := by
  cases m <;> rfl

theorem get_node_set_target (m : Matcher α) (n : Option NodePtr) : (m.set_target n).get_node = n := by
  cases m <;> rfl

theorem match_node_impl_structure (cm : ChildMatch α) (hcm : KeepsStructure cm) (t : BTree α)
    (fuel : Nat) (m : Matcher α) (node : NodePtr) (b : Bool) (m' : Matcher α)
    (h : match_node_impl cm t fuel m node = some (b, m')) :
    m'.reset = m.reset ∧ m'.get_node = m.get_node := by
  unfold match_node_impl at h
  split at h
  · simp at h; rw [← h.2]; exact ⟨rfl, rfl⟩
  · split at h
    · simp at h; rw [← h.2]; exact ⟨rfl, rfl⟩
    · simp only at h
      split at h
      · simp at h
      · rename_i matched st' hmc
        simp at h
        rw [← h.2]
        have := match_children_structure _ _
          (fun i st b st' => do_match_structure cm hcm t _ _ _ i st b st')
          (fun i st b st' => do_rematch_structure cm hcm t _ _ _ i st b st') _ _ _ _ _ _ hmc
        simp only at this
        exact ⟨by simp [Matcher.reset, this], rfl⟩

theorem match_node_structure (t : BTree α) :
    ∀ (fuel : Nat) (m : Matcher α) (node : Option NodePtr) (b : Bool) (m' : Matcher α),
      match_node t fuel m node = some (b, m') → m'.reset = m.reset := by
  intro fuel
  induction fuel with
  | zero => intro m node b m' h; simp [match_node] at h
  | succ fuel ih =>
    intro m node b m' h
    cases node with
    | none => simp [match_node] at h; rw [← h.2]
    | some node =>
      have hcm : KeepsStructure (fun child current => match_node t fuel child (some current)) :=
        fun c n b c' hc => ih c (some n) b c' hc
      simp only [match_node] at h
      split at h
      · simp at h
      · rename_i m1 h1
        simp at h
        rw [← h.2, reset_set_target]
        exact (match_node_impl_structure _ hcm t fuel m node _ _ h1).1
      · rename_i m1 h1
        simp at h
        rw [← h.2]
        exact (match_node_impl_structure _ hcm t fuel m node _ _ h1).1

theorem match_node_impl_get_node (cm : ChildMatch α) (t : BTree α)
    (fuel : Nat) (m : Matcher α) (node : NodePtr) (b : Bool) (m' : Matcher α)
    (h : match_node_impl cm t fuel m node = some (b, m')) : m'.get_node = m.get_node := by
  unfold match_node_impl at h
  split at h
  · simp at h; rw [← h.2]
  · split at h
    · simp at h; rw [← h.2]
    · simp only at h
      split at h
      · simp at h
      · simp at h; rw [← h.2]; rfl

theorem match_node_failed_target (t : BTree α) (fuel : Nat) (m : Matcher α) (node : Option NodePtr)
    (m' : Matcher α) (h : match_node t fuel m node = some (false, m')) :
    m'.get_node = m.get_node := by
  cases fuel with
  | zero => simp [match_node] at h
  | succ fuel =>
    cases node with
    | none => simp [match_node] at h; rw [← h.2]
    | some node =>
      simp only [match_node] at h
      split at h
      · simp at h
      · simp at h
      · rename_i m1 h1
        simp at h
        rw [← h]
        exact match_node_impl_get_node _ t fuel m node _ _ h1

mutual
theorem reset_reset (m : Matcher α) : m.reset.reset = m.reset := by
  cases m with
  | any_matcher q v tg cs => simp [Matcher.reset, reset_all_reset_all cs]
  | one_matcher v tg => simp [Matcher.reset]
theorem reset_all_reset_all (cs : List (Matcher α)) :
    Matcher.reset_all (Matcher.reset_all cs) = Matcher.reset_all cs := by
  cases cs with
  | nil => simp [Matcher.reset_all]
  | cons c cs => simp [Matcher.reset_all, reset_reset c, reset_all_reset_all cs]
end

end engine_lemmas

section copy_lemmas

variable {α : Type}

theorem child_set_child_same (x : BTree α) (d : Slot) (c : BTree α) (h : x ≠ BTree.nil) :
    (x.set_child d c).child d = c := by
  cases x with
  | nil => exact absurd rfl h
  | node l v r => cases d <;> rfl

theorem set_child_set_child (x : BTree α) (d : Slot) (c c' : BTree α) :
    (x.set_child d c).set_child d c' = x.set_child d c' := by
  cases x with
  | nil => rfl
  | node l v r => cases d <;> rfl

theorem set_child_ne_nil (x : BTree α) (d : Slot) (c : BTree α) (h : x ≠ BTree.nil) :
    x.set_child d c ≠ BTree.nil := by
  cases x with
  | nil => exact absurd rfl h
  | node l v r => cases d <;> simp [BTree.set_child]

theorem subtree_parent_ne_nil (t : BTree α) (d : Slot) (p : NodePtr)
    (h : t.subtree (d :: p) ≠ BTree.nil) : t.subtree p ≠ BTree.nil := by
  intro hp
  apply h
  simp [BTree.subtree, hp, BTree.child]

theorem hosted_of_ne_nil (t : BTree α) (p : NodePtr) (h : t.subtree p ≠ BTree.nil) : Hosted t p := by
  cases p with
  | nil => trivial
  | cons d q => exact subtree_parent_ne_nil t d q h

theorem subtree_replace (t : BTree α) : ∀ (p : NodePtr) (s : BTree α), Hosted t p →
    (t.replace p s).subtree p = s := by
  intro p
  induction p with
  | nil => intro s _; rfl
  | cons d q ih =>
    intro s h
    have hq : t.subtree q ≠ BTree.nil := h
    simp only [BTree.replace, BTree.subtree]
    rw [ih _ (hosted_of_ne_nil t q hq)]
    exact child_set_child_same _ _ _ hq

theorem replace_replace (t : BTree α) : ∀ (p : NodePtr) (s s' : BTree α), Hosted t p →
    (t.replace p s).replace p s' = t.replace p s' := by
  intro p
  induction p with
  | nil => intro s s' _; rfl
  | cons d q ih =>
    intro s s' h
    have hq : t.subtree q ≠ BTree.nil := h
    simp only [BTree.replace]
    rw [subtree_replace t q _ (hosted_of_ne_nil t q hq), set_child_set_child,
      ih _ _ (hosted_of_ne_nil t q hq)]

theorem replace_subtree_self (t : BTree α) : ∀ p : NodePtr, t.replace p (t.subtree p) = t := by
  intro p
  induction p with
  | nil => rfl
  | cons d q ih =>
    simp only [BTree.replace, BTree.subtree]
    have : (t.subtree q).set_child d ((t.subtree q).child d) = t.subtree q := by
      cases t.subtree q with
      | nil => rfl
      | node l v r => cases d <;> rfl
    rw [this, ih]

theorem replace_child (t : BTree α) (d : Slot) (p : NodePtr) (c : BTree α) :
    t.replace (d :: p) c = t.replace p ((t.subtree p).set_child d c) := rfl

theorem count_pos (s : BTree α) (h : s ≠ BTree.nil) : 0 < s.count := by
  cases s with
  | nil => exact absurd rfl h
  | node l v r => simp [BTree.count]

theorem allAccepted_child (t : BTree α) (value : α → Bool) (reference : NodePtr) (d : Slot)
    (h : AllAccepted t value reference) : AllAccepted t value (d :: reference) := by
  intro n hn
  have := h (n ++ [d]) (by simpa using hn)
  simpa using this

theorem keep_assigning_children_copy (t : BTree α) (value : α → Bool) :
    ∀ (s : BTree α) (reference : NodePtr) (res : BTree α) (target : NodePtr) (w : α) (fuel : Nat),
      t.subtree reference = s → s ≠ BTree.nil → AllAccepted t value reference →
      res.subtree target = BTree.node BTree.nil w BTree.nil →
      2 * s.count ≤ fuel →
      keep_assigning_children t value fuel res target reference
        = Except.ok (res.replace target (BTree.node (s.child Slot.left) w (s.child Slot.right))) := by
  intro s
  induction s with
  | nil => intro _ _ _ _ _ _ h; exact absurd rfl h
  | node l v r ihl ihr =>
    intro reference res target w fuel hs _ hacc hres hfuel
    have hl : t.subtree (Slot.left :: reference) = l := by simp [BTree.subtree, hs, BTree.child]
    have hr : t.subtree (Slot.right :: reference) = r := by simp [BTree.subtree, hs, BTree.child]
    have htarget : res.subtree target ≠ BTree.nil := by rw [hres]; simp
    have hhost : Hosted res target := hosted_of_ne_nil res target htarget
    simp only [BTree.count] at hfuel
    obtain ⟨f, rfl⟩ : ∃ f, fuel = f + 1 := ⟨fuel - 1, by omega⟩
    simp only [keep_assigning_children, BTree.child]
    -- the right child, processed from a tree whose target already has left child `a`
    have right_step : ∀ (a : BTree α) (g : Nat), 2 * r.count + 1 ≤ g →
        keep_assigning_children_loop t value g (res.replace target (BTree.node a w BTree.nil)) target
          (get_right t reference) = Except.ok (res.replace target (BTree.node a w r)) := by
      intro a g hg
      cases hrr : r with
      | nil =>
        have : get_right t reference = none := by simp [get_right, hr, hrr, BTree.isNil]
        rw [this]
        cases g <;> simp [keep_assigning_children_loop]
      | node rl rv rr =>
        have hgr : get_right t reference = some (Slot.right :: reference) := by
          simp [get_right, hr, hrr, BTree.isNil]
        have hcount : 0 < r.count := count_pos r (by rw [hrr]; simp)
        obtain ⟨g', rfl⟩ : ∃ g', g = g' + 1 := ⟨g - 1, by omega⟩
        have hacc' := allAccepted_child t value reference Slot.right hacc
        have hself : accepts value t (Slot.right :: reference) = true :=
          hacc' [] (by simp [hr, hrr])
        have hval : get_value t (Slot.right :: reference) = some rv := by
          simp [get_value, hr, hrr]
        rw [hgr]
        simp only [keep_assigning_children_loop, hself, hval, assign_child_like, slot_of,
          Bool.not_true, Bool.false_eq_true, if_false]
        have hsub : (res.replace target (BTree.node a w BTree.nil)).subtree target
            = BTree.node a w BTree.nil := subtree_replace res target _ hhost
        have hne : (res.replace target (BTree.node a w BTree.nil)).subtree target ≠ BTree.nil := by
          rw [hsub]; simp
        have ih := ihr (Slot.right :: reference)
          ((res.replace target (BTree.node a w BTree.nil)).replace (Slot.right :: target) (allocate rv))
          (Slot.right :: target) rv g' hr (by rw [hrr]; simp) hacc'
          (subtree_replace _ _ _ hne) (by omega)
        rw [ih]
        simp only [get_next_sibling, keep_assigning_children_loop]
        have hne' : Hosted (res.replace target (BTree.node a w BTree.nil)) (Slot.right :: target) := hne
        rw [replace_replace _ _ _ _ hne', replace_child, hsub, replace_replace _ _ _ _ hhost]
        simp [BTree.set_child, hrr, BTree.child]
    have hres' : res = res.replace target (BTree.node BTree.nil w BTree.nil) := by
      rw [← hres]; exact (replace_subtree_self res target).symm
    cases hll : l with
    | nil =>
      have hgl : get_left t reference = none := by simp [get_left, hl, hll, BTree.isNil]
      simp only [get_first_child, hgl]
      rw [hres', replace_replace _ _ _ _ hhost]
      exact right_step BTree.nil f (by omega)
    | node ll lv lr =>
      have hgl : get_left t reference = some (Slot.left :: reference) := by
        simp [get_left, hl, hll, BTree.isNil]
      have hcount : 0 < l.count := count_pos l (by rw [hll]; simp)
      obtain ⟨f', rfl⟩ : ∃ f', f = f' + 1 := ⟨f - 1, by omega⟩
      have hacc' := allAccepted_child t value reference Slot.left hacc
      have hself : accepts value t (Slot.left :: reference) = true :=
        hacc' [] (by simp [hl, hll])
      have hval : get_value t (Slot.left :: reference) = some lv := by
        simp [get_value, hl, hll]
      simp only [get_first_child, hgl, keep_assigning_children_loop, hself, hval,
        assign_child_like, slot_of, Bool.not_true, Bool.false_eq_true, if_false]
      have ih := ihl (Slot.left :: reference) (res.replace (Slot.left :: target) (allocate lv))
        (Slot.left :: target) lv f' hl (by rw [hll]; simp) hacc'
        (subtree_replace _ _ _ htarget) (by omega)
      rw [ih]
      simp only [get_next_sibling]
      have htarget' : Hosted res (Slot.left :: target) := htarget
      rw [replace_replace _ _ _ _ htarget', replace_child, hres]
      have := right_step l f' (by omega)
      simp only [BTree.set_child]
      rw [hll] at this ⊢
      simpa [BTree.child] using this

end copy_lemmas

section evaluation_lemmas

variable {α : Type}

open Matcher

theorem accepts_true_matcher (t : BTree α) (n : NodePtr) (h : t.subtree n ≠ BTree.nil) :
    accepts (true_matcher : α → Bool) t n = true := by
  unfold accepts get_value
  cases hs : t.subtree n with
  | nil => exact absurd hs h
  | node l v r => rfl

theorem result_of_no_target (gen : Reconstruction α) (tree : BTree α) (fuel : Nat)
    (m : Matcher α) (h : m.get_node = none) : m.result gen tree fuel = Except.ok BTree.nil := by
  cases m with
  | any_matcher q value tg cs =>
    simp only [Matcher.get_node] at h
    subst h
    simp [Matcher.result]
  | one_matcher value tg =>
    simp only [Matcher.get_node] at h
    subst h
    simp [Matcher.result]


theorem cycle_never_ends (inner : Nat) :
    ∀ (fuel : Nat) (begin_one : Option NodePtr),
      match_children
        (do_match (fun child current => match_node single inner child (some current)) single
          true_matcher [] inner)
        (do_rematch (fun child current => match_node single inner child (some current)) single
          true_matcher [] inner)
        2 fuel 1 (cycle_state begin_one) = none := by
  intro fuel
  induction fuel with
  | zero => intro b; unfold match_children; simp
  | succ fuel ih =>
    intro b
    cases inner with
    | zero =>
      unfold match_children
      cases b <;> simp [do_match, cycle_state, do_match_loop]
    | succ inner =>
      have hdm : ∃ b', do_match (fun child current => match_node single (inner + 1) child (some current)) single
          true_matcher [] (inner + 1) 1 (cycle_state b)
          = some (false, { cycle_state b' with target_it := none }) := by
        cases b with
        | none =>
          refine ⟨some [], ?_⟩
          simp [do_match, cycle_state, do_match_loop, match_node, match_node_impl, accepts,
            get_value, single, BTree.subtree, equal_to, nav_increment, nav_get_first_child,
            get_first_child, get_left, get_right, BTree.child, BTree.isNil, nav_keep_calling]
        | some x =>
          refine ⟨some x, ?_⟩
          simp [do_match, cycle_state, do_match_loop, match_node, match_node_impl, accepts,
            get_value, single, BTree.subtree, equal_to, nav_increment, nav_get_first_child,
            get_first_child, get_left, get_right, BTree.child, BTree.isNil, nav_keep_calling]
      obtain ⟨b', hb'⟩ := hdm
      have hbt : backtrack (do_rematch (fun child current => match_node single (inner + 1) child (some current))
          single true_matcher [] (inner + 1)) 1 { cycle_state b' with target_it := none }
          = some (some 0, cycle_state b') := by
        simp [backtrack, do_rematch, cycle_state, Matcher.get_node, go_depth_first_ramification,
          nav_increment, nav_get_first_child, get_first_child, get_left, get_right, single,
          BTree.subtree, BTree.child, BTree.isNil, nav_keep_calling, Matcher.matches_null,
          Matcher.all_match_null]
      unfold match_children
      simp only [hb', hbt]
      simpa using ih b'


end evaluation_lemmas

section equality_lemmas

variable {α : Type}

open binary_node

theorem operator_eq_node_node [BEq α] (l r l' r' : BTree α) (v v' : α) :
    operator_eq (BTree.node l v r) (BTree.node l' v' r') = true ↔
      (v == v') = true ∧ l.isNil = l'.isNil ∧ (l.isNil = false → operator_eq l l' = true) ∧
        r.isNil = r'.isNil ∧ (r.isNil = false → operator_eq r r' = true) := by
  rw [operator_eq]
  cases l.isNil <;> cases l'.isNil <;> cases r.isNil <;> cases r'.isNil <;>
    cases (v == v') <;> cases operator_eq l l' <;> cases operator_eq r r' <;> simp

theorem operator_eq_nil_left [BEq α] (b : BTree α) : operator_eq BTree.nil b = false := by
  cases b <;> rfl

theorem operator_eq_nil_right [BEq α] (a : BTree α) : operator_eq a BTree.nil = false := by
  cases a <;> rfl

theorem isNil_eq_true_iff (t : BTree α) : t.isNil = true ↔ t = BTree.nil := by
  cases t <;> simp [BTree.isNil]

theorem isNil_eq_false_iff (t : BTree α) : t.isNil = false ↔ t ≠ BTree.nil := by
  cases t <;> simp [BTree.isNil]

theorem operator_eq_deep [BEq α] (hlawful : ∀ u v : α, (u == v) = true ↔ u = v) :
    ∀ a b : BTree α, operator_eq a b = true ↔ a = b ∧ a ≠ BTree.nil := by
  intro a
  induction a with
  | nil => intro b; simp [operator_eq_nil_left]
  | node l v r ihl ihr =>
    intro b
    cases b with
    | nil => simp [operator_eq_nil_right]
    | node l' v' r' =>
      rw [operator_eq_node_node, hlawful, ihl, ihr]
      constructor
      · rintro ⟨hv, hl, hl', hr, hr'⟩
        refine ⟨?_, by simp⟩
        subst hv
        have e1 : l = l' := by
          cases hln : l.isNil with
          | true =>
            rw [hln] at hl
            rw [(isNil_eq_true_iff l).1 hln, (isNil_eq_true_iff l').1 hl.symm]
          | false => exact (hl' hln).1
        have e2 : r = r' := by
          cases hrn : r.isNil with
          | true =>
            rw [hrn] at hr
            rw [(isNil_eq_true_iff r).1 hrn, (isNil_eq_true_iff r').1 hr.symm]
          | false => exact (hr' hrn).1
        rw [e1, e2]
      · rintro ⟨h, -⟩
        injection h with h1 h2 h3
        subst h1 h2 h3
        exact ⟨rfl, rfl, fun hn => ⟨rfl, (isNil_eq_false_iff l).1 hn⟩, rfl,
          fun hn => ⟨rfl, (isNil_eq_false_iff r).1 hn⟩⟩

theorem operator_eq_refl [BEq α] (hrefl : ∀ v : α, (v == v) = true) :
    ∀ x : BTree α, x ≠ BTree.nil → operator_eq x x = true := by
  intro x
  induction x with
  | nil => intro h; exact absurd rfl h
  | node l v r ihl ihr =>
    intro _
    rw [operator_eq_node_node]
    exact ⟨hrefl v, rfl, fun hn => ihl ((isNil_eq_false_iff l).1 hn), rfl,
      fun hn => ihr ((isNil_eq_false_iff r).1 hn)⟩

theorem operator_eq_symm [BEq α] (hsymm : ∀ u v : α, (u == v) = (v == u)) :
    ∀ a b : BTree α, operator_eq a b = operator_eq b a := by
  intro a
  induction a with
  | nil => intro b; rw [operator_eq_nil_left, operator_eq_nil_right]
  | node l v r ihl ihr =>
    intro b
    cases b with
    | nil => rw [operator_eq_nil_left, operator_eq_nil_right]
    | node l' v' r' =>
      rw [Bool.eq_iff_iff, operator_eq_node_node, operator_eq_node_node, hsymm v v', ihl l', ihr r']
      constructor
      · rintro ⟨h1, h2, h3, h4, h5⟩
        exact ⟨h1, h2.symm, fun hn => h3 (h2 ▸ hn), h4.symm, fun hn => h5 (h4 ▸ hn)⟩
      · rintro ⟨h1, h2, h3, h4, h5⟩
        exact ⟨h1, h2.symm, fun hn => h3 (h2 ▸ hn), h4.symm, fun hn => h5 (h4 ▸ hn)⟩

theorem operator_eq_struct_node_node [BEq α] (l r : BTree α) (v : α) (s : struct_node α)
    (h : s.children_count ≤ 2) :
    operator_eq_struct_node (BTree.node l v r) s = true ↔
      (v == s.get_value) = true ∧ SlotAgrees l (s.children.get_child 0) ∧
        SlotAgrees r (s.children.get_child 1) := by
  have h' : ¬ (2 < s.children_count) := by omega
  rw [operator_eq_struct_node]
  simp only [gt_iff_lt, h', decide_False, Bool.false_eq_true, if_false]
  unfold SlotAgrees
  cases (v == s.get_value) <;> cases l.isNil <;> cases r.isNil <;>
    rcases s.children.get_child 0 with _ | _ | c0 <;>
    rcases s.children.get_child 1 with _ | _ | c1 <;> simp

theorem operator_eq_struct_node_too_large [BEq α] (x : BTree α) (s : struct_node α)
    (h : 2 < s.children_count) : operator_eq_struct_node x s = false := by
  cases x with
  | nil => rfl
  | node l v r => rw [operator_eq_struct_node]; simp [h]

theorem operator_eq_convertible_node {β : Type} (equals : α → β → Bool) (l r : BTree α) (v : α)
    (s : struct_node β) (h : s.children_count ≤ 2) :
    operator_eq_convertible equals (BTree.node l v r) s = true ↔
      equals v s.get_value = true ∧ SlotAgreesWith equals l (s.children.get_child 0) ∧
        SlotAgreesWith equals r (s.children.get_child 1) := by
  have h' : ¬ (2 < s.children_count) := by omega
  rw [operator_eq_convertible]
  simp only [gt_iff_lt, h', decide_False, Bool.false_eq_true, if_false]
  unfold SlotAgreesWith
  cases (equals v s.get_value) <;> cases l.isNil <;> cases r.isNil <;>
    rcases s.children.get_child 0 with _ | _ | c0 <;>
    rcases s.children.get_child 1 with _ | _ | c1 <;> simp

/-- For a literal of the node's own value type the comparison with a literal of any
value type is `operator==(const struct_node&)`. -/
theorem operator_eq_convertible_same [BEq α] (x : BTree α) :
    ∀ s : struct_node α,
      operator_eq_convertible (fun u w => u == w) x s = operator_eq_struct_node x s := by
  induction x with
  | nil => intro s; rfl
  | node l v r ihl ihr =>
    intro s
    rw [operator_eq_convertible, operator_eq_struct_node]
    rcases s.children.get_child 0 with _ | _ | c0 <;>
      rcases s.children.get_child 1 with _ | _ | c1 <;> simp only [ihl, ihr]

mutual
theorem from_struct_node_eq {β : Type} (convert : β → α) (equals : α → β → Bool) :
    ∀ (s : struct_node β) (t : BTree α), s.values_kept convert equals →
      from_struct_node convert s = some t →
      t.isNil = false ∧ operator_eq_convertible equals t s = true
  | struct_node.mk value children, t, hkept, h => by
    rw [struct_node.values_kept] at hkept
    rw [from_struct_node] at h
    split at h
    · simp at h
    · rename_i hcount
      split at h
      · rename_i left right hleft hright
        simp at h
        subst h
        refine ⟨rfl, ?_⟩
        rw [operator_eq_convertible_node _ _ _ _ _ (by simpa [struct_node.children_count, struct_node.children] using hcount)]
        exact ⟨hkept.1, from_declared_child_eq convert equals children 0 left hkept.2 hleft,
          from_declared_child_eq convert equals children 1 right hkept.2 hright⟩
      · simp at h
theorem from_declared_child_eq {β : Type} (convert : β → α) (equals : α → β → Bool) :
    ∀ (cs : struct_children β) (index : Nat) (t : BTree α), cs.values_kept convert equals →
      from_declared_child convert cs index = some t →
      SlotAgreesWith equals t (cs.get_child index)
  | struct_children.nil, index, t, _, h => by
    simp [from_declared_child] at h
    subst h
    simp [SlotAgreesWith, struct_children.get_child, BTree.isNil]
  | struct_children.placeholder rest, 0, t, _, h => by
    simp [from_declared_child] at h
    subst h
    simp [SlotAgreesWith, struct_children.get_child, BTree.isNil]
  | struct_children.placeholder rest, index + 1, t, hkept, h => by
    rw [struct_children.values_kept] at hkept
    rw [from_declared_child] at h
    rw [struct_children.get_child]
    exact from_declared_child_eq convert equals rest index t hkept h
  | struct_children.child c rest, 0, t, hkept, h => by
    rw [struct_children.values_kept] at hkept
    rw [from_declared_child] at h
    simp only [struct_children.get_child, SlotAgreesWith]
    exact from_struct_node_eq convert equals c t hkept.1 h
  | struct_children.child c rest, index + 1, t, hkept, h => by
    rw [struct_children.values_kept] at hkept
    rw [from_declared_child] at h
    rw [struct_children.get_child]
    exact from_declared_child_eq convert equals rest index t hkept.2 h
end

mutual
theorem from_struct_node_defined {β : Type} (convert : β → α) :
    ∀ s : struct_node β, s.at_most_binary → ∃ t : BTree α, from_struct_node convert s = some t
  | struct_node.mk value children, h => by
    rw [struct_node.at_most_binary] at h
    obtain ⟨l, hl⟩ := from_declared_child_defined convert children h.2 0
    obtain ⟨r, hr⟩ := from_declared_child_defined convert children h.2 1
    refine ⟨BTree.node l (convert value) r, ?_⟩
    rw [from_struct_node]
    have : ¬ (2 < children.count) := by omega
    simp [this, hl, hr]
theorem from_declared_child_defined {β : Type} (convert : β → α) :
    ∀ cs : struct_children β, cs.at_most_binary → ∀ index : Nat,
      ∃ t : BTree α, from_declared_child convert cs index = some t
  | struct_children.nil, _, index => ⟨BTree.nil, by simp [from_declared_child]⟩
  | struct_children.placeholder rest, h, 0 => ⟨BTree.nil, by simp [from_declared_child]⟩
  | struct_children.placeholder rest, h, index + 1 => by
    rw [struct_children.at_most_binary] at h
    rw [from_declared_child]
    exact from_declared_child_defined convert rest h index
  | struct_children.child c rest, h, 0 => by
    rw [struct_children.at_most_binary] at h
    rw [from_declared_child]
    exact from_struct_node_defined convert c h.1
  | struct_children.child c rest, h, index + 1 => by
    rw [struct_children.at_most_binary] at h
    rw [from_declared_child]
    exact from_declared_child_defined convert rest h.2 index
end

end equality_lemmas

section memory_lemmas

variable {α : Type}

open binary_node

theorem write_length (m : Memory α) (a : Nat) (f : node_object α → node_object α) :
    (m.write a f).length = m.length := by
  unfold Memory.write
  split <;> simp

theorem write_get_other (m : Memory α) (a b : Nat) (f : node_object α → node_object α)
    (h : b ≠ a) : (m.write a f)[b]? = m[b]? := by
  unfold Memory.write
  split
  · rw [List.getElem?_set_ne (Ne.symm h)]
  · rfl

theorem write_get_same (m : Memory α) (a : Nat) (f : node_object α → node_object α)
    (o : node_object α) (h : m[a]? = some o) : (m.write a f)[a]? = some (f o) := by
  unfold Memory.write
  rw [h]
  have hlt : a < m.length := by
    rcases Nat.lt_or_ge a m.length with hlt | hge
    · exact hlt
    · rw [List.getElem?_eq_none hge] at h; simp at h
  simp [List.getElem?_set_self, hlt]

theorem get_some_lt (m : Memory α) (a : Nat) (o : node_object α) (h : m[a]? = some o) :
    a < m.length := by
  rcases Nat.lt_or_ge a m.length with hlt | hge
  · exact hlt
  · rw [List.getElem?_eq_none hge] at h; simp at h

theorem represents_frame (m m' : Memory α) (lo : Nat)
    (hframe : ∀ a, a < m.length → m'[a]? = m[a]?) :
    ∀ (t : BTree α) (p parent : Option Nat), Represents m lo p parent t →
      Represents m' lo p parent t := by
  intro t
  induction t with
  | nil => intro p parent h; exact h
  | node l v r ihl ihr =>
    intro p parent h
    obtain ⟨a, o, hp, hlo, ha, hv, hpar, hl, hr⟩ := h
    refine ⟨a, o, hp, hlo, ?_, hv, hpar, ihl _ _ hl, ihr _ _ hr⟩
    rw [hframe a (get_some_lt m a o ha)]
    exact ha

theorem laid_le (m : Memory α) : ∀ (t : BTree α) (lo hi : Nat) (p parent : Option Nat),
    Laid m lo hi p parent t → hi = lo + t.count := by
  intro t
  induction t with
  | nil => intro lo hi p parent h; simpa [BTree.count] using h.2
  | node l v r ihl ihr =>
    intro lo hi p parent h
    obtain ⟨o, mid, _, _, _, _, hl, hr⟩ := h
    have h1 := ihl _ _ _ _ hl
    have h2 := ihr _ _ _ _ hr
    simp only [BTree.count]
    omega

theorem laid_frame (m m' : Memory α) : ∀ (t : BTree α) (lo hi : Nat) (p parent : Option Nat),
    Laid m lo hi p parent t → (∀ a, lo ≤ a → a < hi → m'[a]? = m[a]?) →
      Laid m' lo hi p parent t := by
  intro t
  induction t with
  | nil => intro lo hi p parent h _; exact h
  | node l v r ihl ihr =>
    intro lo hi p parent h hframe
    obtain ⟨o, mid, hp, ha, hv, hpar, hl, hr⟩ := h
    have h1 := laid_le m l _ _ _ _ hl
    have h2 := laid_le m r _ _ _ _ hr
    refine ⟨o, mid, hp, ?_, hv, hpar, ihl _ _ _ _ hl ?_, ihr _ _ _ _ hr ?_⟩
    · rw [hframe lo (Nat.le_refl lo) (by omega)]; exact ha
    · intro a h3 h4; exact hframe a (by omega) (by omega)
    · intro a h3 h4; exact hframe a (by omega) (by omega)

theorem laid_represents (m : Memory α) : ∀ (t : BTree α) (lo hi base : Nat) (p parent : Option Nat),
    Laid m lo hi p parent t → base ≤ lo → Represents m base p parent t := by
  intro t
  induction t with
  | nil => intro lo hi base p parent h _; exact h.1
  | node l v r ihl ihr =>
    intro lo hi base p parent h hb
    obtain ⟨o, mid, hp, ha, hv, hpar, hl, hr⟩ := h
    have h1 := laid_le m l _ _ _ _ hl
    exact ⟨lo, o, hp, hb, ha, hv, hpar, ihl _ _ _ _ _ hl (by omega), ihr _ _ _ _ _ hr (by omega)⟩

theorem laid_set_parent (m : Memory α) (t : BTree α) (lo hi : Nat) (p parent parent' : Option Nat)
    (h : Laid m lo hi p parent t) :
    Laid (m.write lo (fun o => { o with parent := parent' })) lo hi p
      (match t with | BTree.nil => parent | BTree.node _ _ _ => parent') t := by
  cases t with
  | nil => exact h
  | node l v r =>
    obtain ⟨o, mid, hp, ha, hv, hpar, hl, hr⟩ := h
    have h1 := laid_le m l _ _ _ _ hl
    refine ⟨{ o with parent := parent' }, mid, hp, write_get_same m lo _ o ha, hv, rfl, ?_, ?_⟩
    · exact laid_frame m _ l _ _ _ _ hl (fun a h3 _ => write_get_other m lo a _ (by omega))
    · exact laid_frame m _ r _ _ _ _ hr (fun a h3 _ => write_get_other m lo a _ (by omega))

theorem copy_member_spec (copy : Memory α → Nat → Option (Memory α × Nat)) (m : Memory α)
    (this : Nat) (s : BTree α) (member other : Option Nat) (lo : Nat)
    (hrep : Represents m lo member other s)
    (hcopy : ∀ c, member = some c → ∃ m', copy m c = some (m', m.length) ∧
      m'.length = m.length + s.count ∧ (∀ a, a < m.length → m'[a]? = m[a]?) ∧
      Laid m' m.length m'.length (some m.length) none s) :
    MemberCopied m this s (copy_member copy m this member) := by
  cases s with
  | nil =>
    have : member = none := hrep
    subst this
    exact ⟨m, none, rfl, by simp [BTree.count], fun _ _ => rfl, rfl, rfl⟩
  | node l v r =>
    obtain ⟨c, o, hp, -, -⟩ := hrep
    subst hp
    obtain ⟨m', hc, hlen, hframe, hlaid⟩ := hcopy c rfl
    refine ⟨m'.write m.length (fun o => { o with parent := some this }), some m.length, ?_, ?_, ?_, ?_⟩
    · simp [copy_member, hc, attach]
    · rw [write_length, hlen]
    · intro a ha
      rw [write_get_other _ _ _ _ (by omega)]
      exact hframe a ha
    · rw [write_length]
      exact laid_set_parent m' (BTree.node l v r) m.length m'.length (some m.length) none
        (some this) hlaid

theorem copy_construct_spec : ∀ (t : BTree α) (m : Memory α) (other : Nat) (parent : Option Nat)
    (lo fuel : Nat), Represents m lo (some other) parent t → t.count ≤ fuel →
    ∃ m', copy_construct fuel m other = some (m', m.length) ∧
      m'.length = m.length + t.count ∧ (∀ a, a < m.length → m'[a]? = m[a]?) ∧
      Laid m' m.length m'.length (some m.length) none t := by
  intro t
  induction t with
  | nil => intro m other parent lo fuel h; simp [Represents] at h
  | node l v r ihl ihr =>
    intro m other parent lo fuel hrep hfuel
    obtain ⟨a, o, hp, hlo, ha, hv, hpar, hl, hr⟩ := hrep
    simp only [Option.some.injEq] at hp
    subst hp
    simp only [BTree.count] at hfuel
    obtain ⟨f, rfl⟩ : ∃ f, fuel = f + 1 := ⟨fuel - 1, by omega⟩
    -- the memory after the base class has been initialised
    have hframe0 : ∀ b, b < m.length →
        (m ++ [({ value := o.value, parent := none, left := none, right := none } : node_object α)])[b]?
          = m[b]? := fun b hb => List.getElem?_append_left hb
    have hthis0 : (m ++ [({ value := o.value, parent := none, left := none, right := none } : node_object α)])[m.length]?
        = some { value := o.value, parent := none, left := none, right := none } := by
      simp
    -- left
    obtain ⟨m1, left, h1, hlen1, hframe1, hlaid1⟩ := copy_member_spec
      (fun m' c => copy_construct f m' c) _ m.length l o.left (some other) lo
      (represents_frame m _ lo hframe0 l _ _ hl)
      (fun c hc => by
        have := ihl _ c (some other) lo f (hc ▸ represents_frame m _ lo hframe0 l _ _ hl) (by omega)
        exact this)
    simp only [List.length_append, List.length_singleton] at hlen1 hframe1 hlaid1
    have hthis1 : m1[m.length]? = some { value := o.value, parent := none, left := none, right := none } := by
      rw [hframe1 m.length (by omega)]; exact hthis0
    -- right
    have hframe01 : ∀ b, b < m.length →
        (m1.write m.length (fun this => { this with left := left }))[b]? = m[b]? := by
      intro b hb
      rw [write_get_other _ _ _ _ (by omega), hframe1 b (by omega)]
      exact hframe0 b hb
    obtain ⟨m2, right, h2, hlen2, hframe2, hlaid2⟩ := copy_member_spec
      (fun m' c => copy_construct f m' c)
      (m1.write m.length (fun this => { this with left := left })) m.length r o.right (some other) lo
      (represents_frame m _ lo hframe01 r _ _ hr)
      (fun c hc => by
        have := ihr _ c (some other) lo f (hc ▸ represents_frame m _ lo hframe01 r _ _ hr) (by omega)
        exact this)
    simp only [write_length] at hlen2 hframe2 hlaid2
    have hthis2 : m2[m.length]? = some { value := o.value, parent := none, left := left, right := none } := by
      rw [hframe2 m.length (by omega)]
      exact write_get_same m1 m.length _ _ hthis1
    refine ⟨m2.write m.length (fun this => { this with right := right }), ?_, ?_, ?_, ?_⟩
    · simp only [copy_construct, ha]
      rw [h1]
      simp only
      rw [h2]
    · rw [write_length, hlen2, hlen1]; simp only [BTree.count]; omega
    · intro b hb
      rw [write_get_other _ _ _ _ (by omega), hframe2 b (by omega)]
      exact hframe01 b hb
    · rw [write_length]
      refine ⟨{ value := o.value, parent := none, left := left, right := right }, m1.length, rfl,
        write_get_same m2 m.length _ _ hthis2, hv, rfl, ?_, ?_⟩
      · apply laid_frame m1 _ l _ _ _ _ hlaid1
        intro b hb1 hb2
        rw [write_get_other _ _ _ _ (by omega), hframe2 b (by omega),
          write_get_other _ _ _ _ (by omega)]
      · apply laid_frame m2 _ r _ _ _ _ hlaid2
        intro b hb1 hb2
        rw [write_get_other _ _ _ _ (by omega)]

end memory_lemmas

section reconstruction_lemmas

variable {α : Type}

theorem keep_assigning_children_loop_stuck (t : BTree α) (check : α → Bool) :
    ∀ (fuel : Nat) (res : BTree α) (target child : NodePtr), accepts check t child = false →
      keep_assigning_children_loop t check fuel res target (some child)
        = Except.error Fault.out_of_fuel := by
  intro fuel
  induction fuel with
  | zero => intro res target child _; rfl
  | succ fuel ih =>
    intro res target child h
    simp only [keep_assigning_children_loop, h, Bool.not_false, if_true]
    exact ih res target child h

theorem memory_1_2_represents :
    Represents memory_1_2 0 (some 0) none
      (BTree.node (BTree.node BTree.nil 2 BTree.nil) 1 BTree.nil) :=
  ⟨0, _, rfl, Nat.le_refl 0, rfl, rfl, rfl,
    ⟨1, _, rfl, Nat.zero_le 1, rfl, rfl, rfl, rfl, rfl⟩, rfl⟩

end reconstruction_lemmas

section move_lemmas

variable {α : Type}

open binary_node

theorem write_get (m : Memory α) (a b : Nat) (f : node_object α → node_object α) :
    (m.write a f)[b]? = if b = a then (m[b]?).map f else m[b]? := by
  unfold Memory.write
  by_cases h : b = a
  · subst h
    cases hm : m[b]? with
    | none => simp [hm]
    | some o =>
      have hlt : b < m.length := by
        rcases Nat.lt_or_ge b m.length with hlt | hge
        · exact hlt
        · rw [List.getElem?_eq_none hge] at hm; simp at hm
      simp [List.getElem?_set_self, hlt]
  · simp only [h, if_false]
    split
    · rw [List.getElem?_set_ne (Ne.symm h)]
    · rfl

theorem get_append_new (m : Memory α) (x : node_object α) (a : Nat) :
    (m ++ [x])[a]? = if a = m.length then some x else m[a]? := by
  by_cases h : a = m.length
  · subst h; simp
  · simp only [h, if_false]
    rcases Nat.lt_or_ge a m.length with hlt | hge
    · rw [List.getElem?_append_left hlt]
    · have : m.length + 1 ≤ a := by omega
      rw [List.getElem?_eq_none (by simpa using this), List.getElem?_eq_none hge]

theorem write_keeps_value (m : Memory α) (a s : Nat) (f : node_object α → node_object α)
    (v : α) (hf : ∀ x, (f x).value = x.value) (h : HoldsValue m s v) :
    HoldsValue (m.write a f) s v := by
  obtain ⟨o, ho, hv⟩ := h
  unfold HoldsValue
  rw [write_get]
  by_cases hsa : s = a
  · subst hsa
    exact ⟨f o, by simp [ho], by rw [hf, hv]⟩
  · exact ⟨o, by simp [hsa, ho], hv⟩

theorem move_parent_links_get (m : Memory α) (this d b : Nat) :
    (move_parent_links m this d)[b]?
      = if (m[this]?).bind (fun o => o.parent) = some b then
          (m[b]?).map (node_object.repoint this d)
        else m[b]? := by
  unfold move_parent_links
  cases hp : (m[this]?).bind (fun o => o.parent) with
  | none => simp
  | some p =>
    simp only [Option.some.injEq]
    cases hmp : m[p]? with
    | none =>
      by_cases hb : p = b
      · subst hb; simp [hmp, Memory.write]
      · simp [hmp, Memory.write, hb]
    | some op =>
      by_cases hb : p = b
      · subst hb
        by_cases hl : op.left = some this <;> by_cases hr : op.right = some this <;>
          simp [hmp, write_get, hl, hr, node_object.repoint]
      · have hb' : b ≠ p := fun h => hb h.symm
        by_cases hl : op.left = some this <;> by_cases hr : op.right = some this <;>
          simp [hmp, write_get, hl, hr, hb, hb']

theorem move_child_link_get (member : node_object α → Option Nat) (m : Memory α)
    (this d b : Nat) :
    (move_child_link member m this d)[b]?
      = if (m[this]?).bind member = some b then
          (m[b]?).map (fun o => { o with parent := some d })
        else m[b]? := by
  unfold move_child_link
  cases hp : (m[this]?).bind member with
  | none => simp
  | some c =>
    simp only [Option.some.injEq, write_get]
    by_cases hb : c = b
    · subst hb; simp
    · have hb' : b ≠ c := fun h => hb h.symm
      simp [hb, hb']

theorem move_resources_to_get (m : Memory α) (this d b : Nat) :
    (move_resources_to m this d)[b]?
      = if b = this then
          ((move_child_link (fun o => o.right)
            (move_child_link (fun o => o.left) (move_parent_links m this d) this d) this d)[b]?).map
            (fun o => { o with parent := none, left := none, right := none })
        else
          (move_child_link (fun o => o.right)
            (move_child_link (fun o => o.left) (move_parent_links m this d) this d) this d)[b]? := by
  simp only [move_resources_to, write_get]

theorem move_parent_links_keeps_value (m : Memory α) (this d s : Nat) (v : α)
    (h : HoldsValue m s v) : HoldsValue (move_parent_links m this d) s v := by
  obtain ⟨o, ho, hv⟩ := h
  unfold HoldsValue
  rw [move_parent_links_get, ho]
  split
  · exact ⟨_, rfl, by simpa [node_object.repoint] using hv⟩
  · exact ⟨o, rfl, hv⟩

theorem move_child_link_keeps_value (member : node_object α → Option Nat) (m : Memory α)
    (this d s : Nat) (v : α)
    (h : HoldsValue m s v) : HoldsValue (move_child_link member m this d) s v := by
  obtain ⟨o, ho, hv⟩ := h
  unfold HoldsValue
  rw [move_child_link_get, ho]
  split
  · exact ⟨_, rfl, by simpa using hv⟩
  · exact ⟨o, rfl, hv⟩

theorem move_resources_to_source (m : Memory α) (s d : Nat) (v : α)
    (h : HoldsValue m s v) :
    (move_resources_to m s d)[s]?
      = some { value := v, parent := none, left := none, right := none } := by
  rw [move_resources_to_get]
  obtain ⟨o3, ho3, hv3⟩ := move_child_link_keeps_value (fun o => o.right) _ s d s v
    (move_child_link_keeps_value (fun o => o.left) _ s d s v
      (move_parent_links_keeps_value m s d s v h))
  rw [ho3]
  simp [hv3]

theorem move_construct_eq (m : Memory α) (s : Nat) (o : node_object α) (h : m[s]? = some o) :
    move_construct m s = some (move_resources_to
      (m ++ [{ value := o.value, parent := none, left := o.left, right := o.right }])
      s m.length, m.length) := by
  simp only [move_construct, h]

/-- The objects other than the source after `move_resources_to`, when no link of the
source points to the source itself. -/
theorem move_resources_to_other (m : Memory α) (s d x : Nat) (o : node_object α)
    (h : m[s]? = some o) (hp : o.parent ≠ some s) (hl : o.left ≠ some s) (hx : x ≠ s) :
    (move_resources_to m s d)[x]?
      = if o.right = some x then
          (if o.left = some x then
            ((if o.parent = some x then (m[x]?).map (node_object.repoint s d) else m[x]?).map
              (fun o => { o with parent := some d }))
          else (if o.parent = some x then (m[x]?).map (node_object.repoint s d) else m[x]?)).map
            (fun o => { o with parent := some d })
        else
          if o.left = some x then
            ((if o.parent = some x then (m[x]?).map (node_object.repoint s d) else m[x]?).map
              (fun o => { o with parent := some d }))
          else (if o.parent = some x then (m[x]?).map (node_object.repoint s d) else m[x]?) := by
  have h1 : (move_parent_links m s d)[s]? = some o := by
    rw [move_parent_links_get, h]; simp [hp]
  have h2 : (move_child_link (fun o => o.left) (move_parent_links m s d) s d)[s]? = some o := by
    rw [move_child_link_get, h1]; simp [hl]
  rw [move_resources_to_get, if_neg hx, move_child_link_get, h2, move_child_link_get, h1,
    move_parent_links_get, h]
  rfl

/-- Whenever a node that sits in a slot of its parent is moved, the new node is put
into that slot and its own parent pointer stays null. -/
theorem move_construct_destination_parent_null (m : Memory α) (s p : Nat)
    (o op : node_object α) (h : m[s]? = some o) (hp : o.parent = some p) (hps : p ≠ s)
    (hmp : m[p]? = some op) (hslot : op.left = some s ∨ op.right = some s)
    (hl : ∀ c, o.left = some c → c ≠ s ∧ c < m.length)
    (hr : ∀ c, o.right = some c → c ≠ s ∧ c < m.length) :
    ∃ m' d od op', move_construct m s = some (m', d) ∧
      m'[d]? = some od ∧ od.parent = none ∧
      m'[p]? = some op' ∧ (op'.left = some d ∨ op'.right = some d) := by
  have hs : m.length ≠ s := fun e => Nat.ne_of_lt (get_some_lt m s o h) e.symm
  have hpl : p ≠ m.length := Nat.ne_of_lt (get_some_lt m p op hmp)
  have hM : (m ++ [{ value := o.value, parent := none, left := o.left, right := o.right }])[s]?
      = some o := by
    rw [get_append_new]; simp [Ne.symm hs, h]
  have hps' : o.parent ≠ some s := by rw [hp]; simpa using hps
  have hls : o.left ≠ some s := fun e => (hl s e).1 rfl
  have hld : o.left ≠ some m.length := fun e => Nat.lt_irrefl _ (hl _ e).2
  have hrd : o.right ≠ some m.length := fun e => Nat.lt_irrefl _ (hr _ e).2
  have hpd : o.parent ≠ some m.length := by rw [hp]; simpa using hpl
  have hd := move_resources_to_other _ s m.length m.length o hM hps' hls hs
  have hp' := move_resources_to_other _ s m.length p o hM hps' hls hps
  rw [get_append_new] at hd hp'
  simp only [hld, hrd, hpd, if_false, if_true] at hd
  simp only [hp, hpl, hmp, if_false, if_true, Option.map_some'] at hp'
  have hq : ∃ op', (move_resources_to
      (m ++ [{ value := o.value, parent := none, left := o.left, right := o.right }])
      s m.length)[p]? = some op' ∧ (op'.left = some m.length ∨ op'.right = some m.length) := by
    rw [hp']
    by_cases h1 : o.right = some p <;> by_cases h2 : o.left = some p
    all_goals
      simp only [h1, h2, if_true, if_false, Option.map_some']
      refine ⟨_, rfl, ?_⟩
      rcases hslot with hs1 | hs1 <;> simp [node_object.repoint, hs1]
  obtain ⟨op', hq1, hq2⟩ := hq
  exact ⟨_, _, _, op', move_construct_eq m s o h, hd, rfl, hq1, hq2⟩

theorem replace_with_eq (m : Memory α) (this d p : Nat)
    (h : (m[this]?).bind (fun o => o.parent) = some p) :
    replace_with m this d
      = (move_parent_links (m.write d (fun o => { o with parent := some p })) this d).write this
          (fun o => { o with parent := none }) := by
  have h1 : ((m.write d (fun o => { o with parent := some p }))[this]?).bind (fun o => o.parent)
      = some p := by
    rw [write_get]
    cases hm : m[this]? with
    | none => rw [hm] at h; simp at h
    | some o =>
      rw [hm] at h
      by_cases hd : this = d
      · simp [hd]
      · simpa [hd] using h
  simp only [replace_with, move_parent_links, h, h1]

end move_lemmas

section nary_lemmas

variable {α : Type}

theorem destructor_of_linked (m : NaryMemory α) :
    ∀ (s : Siblings) (p : Option Nat), Linked m p s →
      ∀ fuel, s.size < fuel →
        (match p with
          | none => Except.ok []
          | some a => node.destructor fuel m a) = Except.ok s.addresses := by
  intro s
  induction s with
  | nil =>
    intro p hp fuel _
    simp only [Linked] at hp
    subst hp
    rfl
  | cons a ch fo ihc ihf =>
    intro p hp fuel hf
    obtain ⟨rfl, o, ho, hc, hfo⟩ := hp
    obtain ⟨k, rfl⟩ : ∃ k, fuel = k + 1 := ⟨fuel - 1, by omega⟩
    simp only [Siblings.size] at hf
    have h1 := ihf _ hfo k (by omega)
    have h2 := ihc _ hc k (by omega)
    simp only [node.destructor, ho, h1, h2, Siblings.addresses]

theorem from_node_cons (x : Nat) :
    ∀ s : Siblings, x ∈ s.addresses →
      ∃ ch fo, s.from_node x = Siblings.cons x ch fo := by
  intro s
  induction s with
  | nil => intro h; simp [Siblings.addresses] at h
  | cons a ch fo ihc ihf =>
    intro h
    by_cases ha : a = x
    · exact ⟨ch, fo, by simp [Siblings.from_node, ha]⟩
    · by_cases hc : x ∈ ch.addresses
      · simpa [Siblings.from_node, ha, hc] using ihc hc
      · have hfo : x ∈ fo.addresses := by
          simp only [Siblings.addresses, List.mem_append, List.mem_singleton] at h
          rcases h with (h | h) | h
          · exact h
          · exact absurd h hc
          · exact absurd h.symm ha
        simpa [Siblings.from_node, ha, hc] using ihf hfo

theorem linked_from_node (m : NaryMemory α) (x : Nat) :
    ∀ (s : Siblings) (p : Option Nat), Linked m p s → x ∈ s.addresses →
      Linked m (some x) (s.from_node x) := by
  intro s
  induction s with
  | nil => intro p _ h; simp [Siblings.addresses] at h
  | cons a ch fo ihc ihf =>
    intro p hp h
    obtain ⟨rfl, o, ho, hlc, hlf⟩ := hp
    by_cases ha : a = x
    · subst ha
      simp only [Siblings.from_node, if_true]
      exact ⟨rfl, o, ho, hlc, hlf⟩
    · by_cases hc : x ∈ ch.addresses
      · simpa [Siblings.from_node, ha, hc] using ihc _ hlc hc
      · have hfo : x ∈ fo.addresses := by
          simp only [Siblings.addresses, List.mem_append, List.mem_singleton] at h
          rcases h with (h | h) | h
          · exact h
          · exact absurd h hc
          · exact absurd h.symm ha
        simpa [Siblings.from_node, ha, hc] using ihf _ hlf hfo

theorem from_node_subset (x : Nat) :
    ∀ (s : Siblings) (a : Nat), a ∈ (s.from_node x).addresses → a ∈ s.addresses := by
  intro s
  induction s with
  | nil => intro a h; simpa [Siblings.from_node] using h
  | cons b ch fo ihc ihf =>
    intro a h
    by_cases hb : b = x
    · simpa [Siblings.from_node, hb] using h
    · by_cases hc : x ∈ ch.addresses
      · simp only [Siblings.from_node, hb, hc, if_true, if_false] at h
        simp only [Siblings.addresses, List.mem_append, List.mem_singleton]
        exact Or.inl (Or.inr (ihc a h))
      · simp only [Siblings.from_node, hb, hc, if_false] at h
        simp only [Siblings.addresses, List.mem_append, List.mem_singleton]
        exact Or.inl (Or.inl (ihf a h))

theorem before_node_disjoint (x : Nat) :
    ∀ s : Siblings, s.addresses.Nodup →
      ∀ a, a ∈ s.before_node x → a ∉ (s.from_node x).addresses := by
  intro s
  induction s with
  | nil => intro _ a h; simp [Siblings.before_node] at h
  | cons b ch fo ihc ihf =>
    intro hn a h
    simp only [Siblings.addresses] at hn
    have hn1 := List.nodup_append.mp hn
    have hn2 := List.nodup_append.mp hn1.1
    have hbf : b ∉ fo.addresses := fun hb => hn1.2.2 (List.mem_append_left _ hb) (by simp)
    have hbc : b ∉ ch.addresses := fun hb => hn1.2.2 (List.mem_append_right _ hb) (by simp)
    by_cases hb : b = x
    · simp [Siblings.before_node, hb] at h
    · by_cases hc : x ∈ ch.addresses
      · simp only [Siblings.before_node, Siblings.from_node, hb, hc, if_true, if_false,
          List.mem_cons] at h ⊢
        rcases h with rfl | h
        · exact fun hm => hbc (from_node_subset x ch _ hm)
        · exact ihc hn2.2.1 a h
      · simp only [Siblings.before_node, Siblings.from_node, hb, hc, if_false,
          List.mem_cons] at h ⊢
        rcases h with rfl | h
        · exact fun hm => hbf (from_node_subset x fo _ hm)
        · exact ihf hn2.1 a h

end nary_lemmas

section traversal_lemmas
variable {α : Type}

theorem keep_calling_get_last_child_loop (t : BTree α) (n : NodePtr) :
    keep_calling_get_last_child (t.subtree n) n
      = match get_last_child t n with
        | none => n
        | some c => keep_calling_get_last_child (t.subtree c) c := by
  cases h : t.subtree n with
  | nil =>
    simp [keep_calling_get_last_child, get_last_child, get_right, get_left, BTree.subtree, h,
      BTree.child, BTree.isNil]
  | node l v r =>
    have hl : t.subtree (Slot.left :: n) = l := by simp [BTree.subtree, h, BTree.child]
    have hr : t.subtree (Slot.right :: n) = r := by simp [BTree.subtree, h, BTree.child]
    cases hrn : r.isNil <;> cases hln : l.isNil <;>
      simp [keep_calling_get_last_child, get_last_child, get_right, get_left, hl, hr, hrn, hln]

theorem policy_walk_of_followed (step : NodePtr → Option NodePtr) :
    ∀ (l : List NodePtr) (a : NodePtr) (fuel : Nat), FollowedBy step (a :: l) none →
      l.length + 1 < fuel → policy_walk step fuel (some a) = a :: l := by
  intro l
  induction l with
  | nil =>
    intro a fuel h hf
    obtain ⟨k, rfl⟩ : ∃ k, fuel = k + 2 := ⟨fuel - 2, by simp at hf; omega⟩
    simp [FollowedBy] at h
    simp [policy_walk, h]
  | cons b l ih =>
    intro a fuel h hf
    obtain ⟨k, rfl⟩ : ∃ k, fuel = k + 1 := ⟨fuel - 1, by simp at hf; omega⟩
    simp only [FollowedBy, List.map_cons, List.tail_cons, List.cons_append, List.cons.injEq] at h
    have hb : FollowedBy step (b :: l) none := by
      simp only [FollowedBy, List.map_cons, List.tail_cons]
      exact h.2
    simp only [policy_walk, h.1]
    rw [ih b k hb (by simpa using hf)]

theorem followed_append (step : NodePtr → Option NodePtr) (l₁ : List NodePtr) (b : NodePtr)
    (l₂ : List NodePtr) (e : Option NodePtr) (h₁ : FollowedBy step l₁ (some b))
    (h₂ : FollowedBy step (b :: l₂) e) : FollowedBy step (l₁ ++ b :: l₂) e := by
  cases l₁ with
  | nil => simpa using h₂
  | cons a l₁ =>
    simp only [FollowedBy, List.map_cons, List.tail_cons] at h₁ h₂
    have h := congrArg₂ (fun x y => x ++ y) h₁ h₂
    simpa [FollowedBy] using h

theorem preceded_append (step : NodePtr → Option NodePtr) (l₁ : List NodePtr) (a : NodePtr)
    (l₂ : List NodePtr) (e : Option NodePtr) (h₁ : PrecededBy step (l₁ ++ [a]) e)
    (h₂ : l₂ = [] ∨ PrecededBy step l₂ (some a)) : PrecededBy step (l₁ ++ [a] ++ l₂) e := by
  rcases h₂ with rfl | h₂
  · simpa using h₁
  · cases l₂ with
    | nil => simpa using h₁
    | cons b l₂ =>
      simp only [PrecededBy] at h₁ h₂ ⊢
      rw [List.map_append, h₁, h₂, List.dropLast_append_of_ne_nil _ (by simp)]
      simp [List.dropLast_concat]

theorem mirror_of_chains (inc dec : NodePtr → Option NodePtr) :
    ∀ (l : List NodePtr) (e : Option NodePtr), FollowedBy inc l none → PrecededBy dec l e →
      ∀ n, n ∈ l → ∀ m, inc n = some m → dec m = some n := by
  intro l
  induction l with
  | nil => intro e _ _ n hn; simp at hn
  | cons a l ih =>
    intro e hf hp n hn m hm
    cases l with
    | nil =>
      simp only [List.mem_singleton] at hn
      subst hn
      simp [FollowedBy] at hf
      rw [hf] at hm
      simp at hm
    | cons b l =>
      simp only [FollowedBy, List.map_cons, List.tail_cons, List.cons_append,
        List.cons.injEq] at hf
      simp only [PrecededBy, List.map_cons, List.dropLast_cons₂, List.cons.injEq] at hp
      have hf' : FollowedBy inc (b :: l) none := by
        simp only [FollowedBy, List.map_cons, List.tail_cons]
        exact hf.2
      have hp' : PrecededBy dec (b :: l) (some a) := by
        simp only [PrecededBy, List.map_cons, List.cons.injEq]
        exact hp.2
      rcases List.mem_cons.mp hn with rfl | hn'
      · rw [hf.1] at hm
        simp only [Option.some.injEq] at hm
        subst hm
        simpa [PrecededBy] using congrArg List.head? hp'
      · exact ih (some a) hf' hp' n hn' m hm

end traversal_lemmas

section traversal_lemmas2
variable {α : Type}

theorem preceded_append_last (step : NodePtr → Option NodePtr) (l₁ : List NodePtr)
    (a : NodePtr) (l₂ : List NodePtr) (e : Option NodePtr) (h₁ : PrecededBy step l₁ e)
    (ha : l₁.getLast? = some a) (h₂ : l₂ = [] ∨ PrecededBy step l₂ (some a)) :
    PrecededBy step (l₁ ++ l₂) e := by
  rcases List.eq_nil_or_concat l₁ with rfl | ⟨l, b, rfl⟩
  · simp at ha
  · rw [List.concat_eq_append] at ha h₁ ⊢
    simp at ha
    subst ha
    exact preceded_append step l b l₂ e h₁ h₂

theorem followed_append_head (step : NodePtr → Option NodePtr) (l₁ : List NodePtr)
    (b : NodePtr) (l₂ : List NodePtr) (e : Option NodePtr)
    (h₁ : l₁ = [] ∨ FollowedBy step l₁ (some b)) (hb : l₂.head? = some b)
    (h₂ : FollowedBy step l₂ e) : FollowedBy step (l₁ ++ l₂) e := by
  cases l₂ with
  | nil => simp at hb
  | cons c l₂ =>
    simp only [List.head?_cons, Option.some.injEq] at hb
    subst hb
    rcases h₁ with rfl | h₁
    · simpa using h₂
    · exact followed_append step l₁ c l₂ e h₁ h₂

theorem getLast_preorder :
    ∀ (s : BTree α) (p : NodePtr), s ≠ BTree.nil →
      (s.preorder.map (fun q => q ++ p)).getLast? = some (keep_calling_get_last_child s p) := by
  intro s
  induction s with
  | nil => intro p h; exact absurd rfl h
  | node l v r ihl ihr =>
    intro p _
    have hmapl : (l.preorder.map (fun q => q ++ [Slot.left])).map (fun q => q ++ p)
        = l.preorder.map (fun q => q ++ Slot.left :: p) := by
      simp [List.map_map, Function.comp_def]
    have hmapr : (r.preorder.map (fun q => q ++ [Slot.right])).map (fun q => q ++ p)
        = r.preorder.map (fun q => q ++ Slot.right :: p) := by
      simp [List.map_map, Function.comp_def]
    simp only [BTree.preorder, List.map_cons, List.map_append, List.nil_append, hmapl, hmapr]
    cases r with
    | node rl rv rr =>
      have h := ihr (Slot.right :: p) (by simp)
      obtain ⟨rest, hrest⟩ := preorder_node_ne rl rr rv (Slot.right :: p)
      rw [hrest] at h ⊢
      rw [← List.cons_append, List.getLast?_append, h]
      simp [keep_calling_get_last_child, BTree.isNil]
    | nil =>
      cases l with
      | node ll lv lr =>
        have h := ihl (Slot.left :: p) (by simp)
        obtain ⟨rest, hrest⟩ := preorder_node_ne ll lr lv (Slot.left :: p)
        rw [hrest] at h ⊢
        simp only [BTree.preorder, List.map_nil, List.append_nil]
        rw [List.getLast?_cons_cons, h]
        simp [keep_calling_get_last_child, BTree.isNil]
      | nil => simp [BTree.preorder, keep_calling_get_last_child, BTree.isNil]

theorem decrement_left (t : BTree α) (p : NodePtr)
    (h : (t.subtree (Slot.left :: p)).isNil = false) :
    decrement t (Slot.left :: p) = some p := by
  simp [decrement, get_parent, get_first_child, get_left, h]

theorem decrement_right_only (t : BTree α) (p : NodePtr)
    (hl : (t.subtree (Slot.left :: p)).isNil = true)
    (hr : (t.subtree (Slot.right :: p)).isNil = false) :
    decrement t (Slot.right :: p) = some p := by
  simp [decrement, get_parent, get_first_child, get_left, get_right, hl, hr]

theorem decrement_right (t : BTree α) (p : NodePtr)
    (hl : (t.subtree (Slot.left :: p)).isNil = false) :
    decrement t (Slot.right :: p)
      = some (keep_calling_get_last_child (t.subtree (Slot.left :: p)) (Slot.left :: p)) := by
  simp [decrement, get_parent, get_first_child, get_left, get_prev_sibling, hl]

theorem preceded_preorder (t : BTree α) :
    ∀ (s : BTree α) (p : NodePtr), t.subtree p = s → s ≠ BTree.nil →
      PrecededBy (decrement t) (s.preorder.map (fun q => q ++ p)) (decrement t p) := by
  intro s
  induction s with
  | nil => intro p _ h; exact absurd rfl h
  | node l v r ihl ihr =>
    intro p hp _
    have hl : t.subtree (Slot.left :: p) = l := by simp [BTree.subtree, hp, BTree.child]
    have hr : t.subtree (Slot.right :: p) = r := by simp [BTree.subtree, hp, BTree.child]
    have hmapl : (l.preorder.map (fun q => q ++ [Slot.left])).map (fun q => q ++ p)
        = l.preorder.map (fun q => q ++ Slot.left :: p) := by
      simp [List.map_map, Function.comp_def]
    have hmapr : (r.preorder.map (fun q => q ++ [Slot.right])).map (fun q => q ++ p)
        = r.preorder.map (fun q => q ++ Slot.right :: p) := by
      simp [List.map_map, Function.comp_def]
    simp only [BTree.preorder, List.map_cons, List.map_append, List.nil_append, hmapl, hmapr]
    have h0 : PrecededBy (decrement t) [p] (decrement t p) := by simp [PrecededBy]
    have hL : l.preorder.map (fun q => q ++ Slot.left :: p) = [] ∨
        PrecededBy (decrement t) (l.preorder.map (fun q => q ++ Slot.left :: p)) (some p) := by
      cases l with
      | nil => left; simp [BTree.preorder]
      | node ll lv lr =>
        right
        have h := ihl (Slot.left :: p) hl (by simp)
        rwa [decrement_left t p (by simp [hl, BTree.isNil])] at h
    have h1 := preceded_append_last _ [p] p _ _ h0 (by simp) hL
    have hlast : ([p] ++ l.preorder.map (fun q => q ++ Slot.left :: p)).getLast?
        = some (if l.isNil then p else keep_calling_get_last_child l (Slot.left :: p)) := by
      cases l with
      | nil => simp [BTree.preorder, BTree.isNil]
      | node ll lv lr =>
        rw [List.getLast?_append, getLast_preorder _ _ (by simp)]
        simp [BTree.isNil]
    have hR : r.preorder.map (fun q => q ++ Slot.right :: p) = [] ∨
        PrecededBy (decrement t) (r.preorder.map (fun q => q ++ Slot.right :: p))
          (some (if l.isNil then p else keep_calling_get_last_child l (Slot.left :: p))) := by
      cases r with
      | nil => left; simp [BTree.preorder]
      | node rl rv rr =>
        right
        have h := ihr (Slot.right :: p) hr (by simp)
        cases l with
        | nil =>
          rwa [decrement_right_only t p (by simp [hl, BTree.isNil])
            (by simp [hr, BTree.isNil])] at h
        | node ll lv lr =>
          rw [decrement_right t p (by simp [hl, BTree.isNil]), hl] at h
          simpa [BTree.isNil] using h
    have h2 := preceded_append_last _ _ _ _ _ h1 hlast hR
    simpa using h2

theorem postorder_perm_preorder (t : BTree α) : t.postorder.Perm t.preorder := by
  induction t with
  | nil => simp [BTree.postorder, BTree.preorder]
  | node l v r ihl ihr =>
    simp only [BTree.postorder, BTree.preorder]
    exact (List.perm_append_singleton _ _).trans
      (List.Perm.cons _ (List.Perm.append (ihl.map _) (ihr.map _)))

theorem postorder_node_ne (l r : BTree α) (v : α) (p : NodePtr) :
    ∃ rest, ((BTree.node l v r).postorder.map (fun q => q ++ p)) = rest ++ [p] :=
  ⟨(l.postorder.map (fun q => q ++ [Slot.left])
    ++ r.postorder.map (fun q => q ++ [Slot.right])).map (fun q => q ++ p),
    by simp [BTree.postorder]⟩

theorem head_postorder :
    ∀ (s : BTree α) (p : NodePtr), s ≠ BTree.nil →
      (s.postorder.map (fun q => q ++ p)).head? = some (descent_first_child s p) := by
  intro s
  induction s with
  | nil => intro p h; exact absurd rfl h
  | node l v r ihl ihr =>
    intro p _
    have hmapl : (l.postorder.map (fun q => q ++ [Slot.left])).map (fun q => q ++ p)
        = l.postorder.map (fun q => q ++ Slot.left :: p) := by
      simp [List.map_map, Function.comp_def]
    have hmapr : (r.postorder.map (fun q => q ++ [Slot.right])).map (fun q => q ++ p)
        = r.postorder.map (fun q => q ++ Slot.right :: p) := by
      simp [List.map_map, Function.comp_def]
    simp only [BTree.postorder, List.map_cons, List.map_append, List.nil_append, hmapl, hmapr,
      List.map_nil]
    cases l with
    | node ll lv lr =>
      have h := ihl (Slot.left :: p) (by simp)
      rw [List.append_assoc, List.head?_append, h]
      simp [descent_first_child, BTree.isNil]
    | nil =>
      cases r with
      | node rl rv rr =>
        have h := ihr (Slot.right :: p) (by simp)
        have hn : (BTree.nil : BTree α).postorder = [] := rfl
        rw [hn, List.map_nil, List.nil_append, List.head?_append, h]
        simp [descent_first_child, BTree.isNil]
      | nil => simp [BTree.postorder, descent_first_child, BTree.isNil]

theorem post_increment_right (t : BTree α) (p : NodePtr)
    (h : (t.subtree (Slot.right :: p)).isNil = false) :
    post_order.increment t (Slot.right :: p) = some p := by
  simp [post_order.increment, get_parent, get_last_child, get_right, h]

theorem post_increment_left_only (t : BTree α) (p : NodePtr)
    (hl : (t.subtree (Slot.left :: p)).isNil = false)
    (hr : (t.subtree (Slot.right :: p)).isNil = true) :
    post_order.increment t (Slot.left :: p) = some p := by
  simp [post_order.increment, get_parent, get_last_child, get_left, get_right, hl, hr]

theorem post_increment_left (t : BTree α) (p : NodePtr)
    (hr : (t.subtree (Slot.right :: p)).isNil = false) :
    post_order.increment t (Slot.left :: p)
      = some (descent_first_child (t.subtree (Slot.right :: p)) (Slot.right :: p)) := by
  simp [post_order.increment, get_parent, get_last_child, get_right, hr]

theorem followed_postorder (t : BTree α) :
    ∀ (s : BTree α) (p : NodePtr), t.subtree p = s → s ≠ BTree.nil →
      FollowedBy (post_order.increment t) (s.postorder.map (fun q => q ++ p))
        (post_order.increment t p) := by
  intro s
  induction s with
  | nil => intro p _ h; exact absurd rfl h
  | node l v r ihl ihr =>
    intro p hp _
    have hl : t.subtree (Slot.left :: p) = l := by simp [BTree.subtree, hp, BTree.child]
    have hr : t.subtree (Slot.right :: p) = r := by simp [BTree.subtree, hp, BTree.child]
    have hmapl : (l.postorder.map (fun q => q ++ [Slot.left])).map (fun q => q ++ p)
        = l.postorder.map (fun q => q ++ Slot.left :: p) := by
      simp [List.map_map, Function.comp_def]
    have hmapr : (r.postorder.map (fun q => q ++ [Slot.right])).map (fun q => q ++ p)
        = r.postorder.map (fun q => q ++ Slot.right :: p) := by
      simp [List.map_map, Function.comp_def]
    simp only [BTree.postorder, List.map_cons, List.map_append, List.nil_append, hmapl, hmapr,
      List.map_nil]
    have h0 : FollowedBy (post_order.increment t) [p] (post_order.increment t p) := by
      simp [FollowedBy]
    have hR : r.postorder.map (fun q => q ++ Slot.right :: p) = [] ∨
        FollowedBy (post_order.increment t) (r.postorder.map (fun q => q ++ Slot.right :: p))
          (some p) := by
      cases r with
      | nil => left; simp [BTree.postorder]
      | node rl rv rr =>
        right
        have h := ihr (Slot.right :: p) hr (by simp)
        rwa [post_increment_right t p (by simp [hr, BTree.isNil])] at h
    have h1 := followed_append_head _ _ p [p] _ hR (by simp) h0
    have hhead : (r.postorder.map (fun q => q ++ Slot.right :: p) ++ [p]).head?
        = some (if r.isNil then p else descent_first_child r (Slot.right :: p)) := by
      cases r with
      | nil => simp [BTree.postorder, BTree.isNil]
      | node rl rv rr =>
        rw [List.head?_append, head_postorder _ _ (by simp)]
        simp [BTree.isNil]
    have hL : l.postorder.map (fun q => q ++ Slot.left :: p) = [] ∨
        FollowedBy (post_order.increment t) (l.postorder.map (fun q => q ++ Slot.left :: p))
          (some (if r.isNil then p else descent_first_child r (Slot.right :: p))) := by
      cases l with
      | nil => left; simp [BTree.postorder]
      | node ll lv lr =>
        right
        have h := ihl (Slot.left :: p) hl (by simp)
        cases r with
        | nil =>
          rwa [post_increment_left_only t p (by simp [hl, BTree.isNil])
            (by simp [hr, BTree.isNil])] at h
        | node rl rv rr =>
          rw [post_increment_left t p (by simp [hr, BTree.isNil]), hr] at h
          simpa [BTree.isNil] using h
    have h2 := followed_append_head _ _ _ _ _ hL hhead h1
    simpa using h2

end traversal_lemmas2

section traversal_lemmas3
variable {α : Type}

theorem followed_reverse_of_preceded (step : NodePtr → Option NodePtr) (l : List NodePtr)
    (h : PrecededBy step l none) : FollowedBy step l.reverse none := by
  unfold PrecededBy at h
  unfold FollowedBy
  rw [List.map_reverse, h, List.tail_reverse, List.map_reverse]
  simp

theorem descent_first_child_suffix :
    ∀ (s : BTree α) (p : NodePtr), ∃ q, descent_first_child s p = q ++ p := by
  intro s
  induction s with
  | nil => intro p; exact ⟨[], rfl⟩
  | node l v r ihl ihr =>
    intro p
    simp only [descent_first_child]
    split
    · obtain ⟨q, hq⟩ := ihl (Slot.left :: p)
      exact ⟨q ++ [Slot.left], by simp [hq]⟩
    · split
      · obtain ⟨q, hq⟩ := ihr (Slot.right :: p)
        exact ⟨q ++ [Slot.right], by simp [hq]⟩
      · exact ⟨[], rfl⟩

theorem descent_first_child_reached (t : BTree α) :
    ∀ (s : BTree α) (p : NodePtr), t.subtree p = s → s ≠ BTree.nil →
      (∃ k, (fun n : Option NodePtr => n.bind (get_first_child t))^[k] (some p)
        = some (descent_first_child s p)) ∧
      get_first_child t (descent_first_child s p) = none := by
  intro s
  induction s with
  | nil => intro p _ h; exact absurd rfl h
  | node l v r ihl ihr =>
    intro p hp _
    have hl : t.subtree (Slot.left :: p) = l := by simp [BTree.subtree, hp, BTree.child]
    have hr : t.subtree (Slot.right :: p) = r := by simp [BTree.subtree, hp, BTree.child]
    cases l with
    | node ll lv lr =>
      obtain ⟨⟨k, hk⟩, hleaf⟩ := ihl (Slot.left :: p) hl (by simp)
      refine ⟨⟨k + 1, ?_⟩, by simpa [descent_first_child, BTree.isNil] using hleaf⟩
      rw [Function.iterate_succ_apply]
      simpa [descent_first_child, BTree.isNil, get_first_child, get_left, hl] using hk
    | nil =>
      cases r with
      | node rl rv rr =>
        obtain ⟨⟨k, hk⟩, hleaf⟩ := ihr (Slot.right :: p) hr (by simp)
        refine ⟨⟨k + 1, ?_⟩, by simpa [descent_first_child, BTree.isNil] using hleaf⟩
        rw [Function.iterate_succ_apply]
        simpa [descent_first_child, BTree.isNil, get_first_child, get_left, get_right, hl, hr]
          using hk
      | nil =>
        exact ⟨⟨0, by simp [descent_first_child, BTree.isNil]⟩,
          by simp [descent_first_child, BTree.isNil, get_first_child, get_left, get_right, hl, hr]⟩

end traversal_lemmas3


section matches_null_lemmas

variable {α : Type}

theorem all_match_null_iff (cs : List (Matcher α)) :
    Matcher.all_match_null cs = true ↔ ∀ c, c ∈ cs → c.matches_null = true := by
  induction cs with
  | nil => simp [Matcher.all_match_null]
  | cons c cs ih => simp [Matcher.all_match_null, ih]

end matches_null_lemmas

section scan_lemmas

variable {α : Type}

theorem preorder_end_child (t : BTree α) (s : Slot) (p : NodePtr)
    (h : t.subtree (s :: p) ≠ BTree.nil) :
    preorder_index t (s :: p) + (t.subtree (s :: p)).count
      ≤ preorder_index t p + (t.subtree p).count := by
  cases hp : t.subtree p with
  | nil => exact absurd hp (subtree_parent_ne_nil t s p h)
  | node l v r =>
    have hl : t.subtree (Slot.left :: p) = l := by simp [BTree.subtree, hp, BTree.child]
    have hr : t.subtree (Slot.right :: p) = r := by simp [BTree.subtree, hp, BTree.child]
    cases s with
    | left => simp only [preorder_index, hl, BTree.count]; omega
    | right => simp only [preorder_index, hl, hr, BTree.count]; omega

theorem preorder_index_lt_end (t : BTree α) (n : NodePtr) (h : t.subtree n ≠ BTree.nil) :
    preorder_index t n < preorder_index t n + (t.subtree n).count := by
  have := count_pos _ h
  omega

theorem preorder_end_le_count (t : BTree α) :
    ∀ n : NodePtr, t.subtree n ≠ BTree.nil →
      preorder_index t n + (t.subtree n).count ≤ t.count := by
  intro n
  induction n with
  | nil => intro _; simp [preorder_index, BTree.subtree]
  | cons s p ih =>
    intro h
    exact Nat.le_trans (preorder_end_child t s p h) (ih (subtree_parent_ne_nil t s p h))

theorem get_first_child_spec (t : BTree α) (n c : NodePtr) (h : get_first_child t n = some c) :
    t.subtree c ≠ BTree.nil ∧ (∃ s, c = s :: n) ∧ preorder_index t n < preorder_index t c := by
  unfold get_first_child get_left get_right at h
  by_cases hl : (t.subtree (Slot.left :: n)).isNil = true
  · by_cases hr : (t.subtree (Slot.right :: n)).isNil = true
    · simp [hl, hr] at h
    · simp [hl, hr] at h
      subst h
      refine ⟨?_, ⟨_, rfl⟩, by simp only [preorder_index]; omega⟩
      intro hn; rw [hn] at hr; simp [BTree.isNil] at hr
  · simp [hl] at h
    subst h
    refine ⟨?_, ⟨_, rfl⟩, by simp only [preorder_index]; omega⟩
    intro hn; rw [hn] at hl; simp [BTree.isNil] at hl

theorem get_next_sibling_spec (t : BTree α) (n r : NodePtr) (h : get_next_sibling t n = some r) :
    t.subtree r ≠ BTree.nil ∧ (∃ p, n = Slot.left :: p ∧ r = Slot.right :: p) ∧
      preorder_index t r = preorder_index t n + (t.subtree n).count := by
  cases n with
  | nil => simp [get_next_sibling] at h
  | cons s p =>
    cases s with
    | right => simp [get_next_sibling] at h
    | left =>
      simp only [get_next_sibling, get_right] at h
      by_cases hr : (t.subtree (Slot.right :: p)).isNil = true
      · simp [hr] at h
      · simp [hr] at h
        subst h
        refine ⟨?_, ⟨p, rfl, rfl⟩, by simp only [preorder_index]⟩
        intro hn; rw [hn] at hr; simp [BTree.isNil] at hr

theorem nav_keep_calling_spec (t : BTree α) (value : α → Bool) (root : NodePtr)
    (cut : Option NodePtr) :
    ∀ (n r : NodePtr), t.subtree n ≠ BTree.nil → (∃ q, n = q ++ root) →
      nav_keep_calling t value root cut n = some r → r ≠ root →
      t.subtree r ≠ BTree.nil ∧ (∃ q, r = q ++ root) ∧
        preorder_index t n + (t.subtree n).count ≤ preorder_index t r := by
  intro n
  induction n with
  | nil =>
    intro r _ hs h hr
    obtain ⟨q, hq⟩ := hs
    have hroot : root = [] := by
      cases q with
      | nil => simpa using hq.symm
      | cons a q => simp at hq
    simp only [nav_keep_calling, Option.some.injEq] at h
    exact absurd (h.symm.trans hroot.symm) hr
  | cons s p ih =>
    intro r hn hs h hr
    simp only [nav_keep_calling] at h
    by_cases hroot : (s :: p) = root
    · simp only [hroot, beq_self_eq_true, if_true, Option.some.injEq] at h
      exact absurd h.symm hr
    · have hbeq : ((s :: p) == root) = false := by simpa using hroot
      simp only [hbeq, Bool.false_eq_true, if_false] at h
      have hs' : ∃ q, p = q ++ root := by
        obtain ⟨q, hq⟩ := hs
        cases q with
        | nil => exact absurd hq hroot
        | cons a q => exact ⟨q, by simpa using (List.cons.inj hq).2⟩
      split at h
      · unfold nav_get_next_sibling at h
        have hsib : get_next_sibling t (s :: p) = some r := by
          cases hg : get_next_sibling t (s :: p) with
          | none => rw [hg] at h; simp at h
          | some x =>
            rw [hg] at h
            simp only [Option.filter] at h
            split at h
            · simpa using h
            · simp at h
        obtain ⟨hv, ⟨p', hp1, hp2⟩, hidx⟩ := get_next_sibling_spec t _ _ hsib
        refine ⟨hv, ?_, by omega⟩
        obtain ⟨q, hq⟩ := hs'
        have : p' = p := by simpa using (List.cons.inj hp1).2.symm
        exact ⟨Slot.right :: q, by rw [hp2, this, hq]; rfl⟩
      · obtain ⟨hv, hsc, hidx⟩ := ih r (subtree_parent_ne_nil t s p hn) hs' h hr
        exact ⟨hv, hsc, Nat.le_trans (preorder_end_child t s p hn) hidx⟩

theorem nav_increment_spec (t : BTree α) (value : α → Bool) (root : NodePtr)
    (cut : Option NodePtr) (n r : NodePtr) (hn : t.subtree n ≠ BTree.nil)
    (hs : ∃ q, n = q ++ root) (h : nav_increment t value root cut n = some r) :
    t.subtree r ≠ BTree.nil ∧ (∃ q, r = q ++ root) ∧ preorder_index t n < preorder_index t r := by
  unfold nav_increment at h
  split at h
  · rename_i c hc
    simp only [Option.some.injEq] at h
    subst h
    unfold nav_get_first_child at hc
    have hfc : get_first_child t n = some c := by
      cases hg : get_first_child t n with
      | none => rw [hg] at hc; simp at hc
      | some x =>
        rw [hg] at hc
        simp only [Option.filter] at hc
        split at hc
        · simpa using hc
        · simp at hc
    obtain ⟨hv, ⟨s, hsn⟩, hidx⟩ := get_first_child_spec t n c hfc
    obtain ⟨q, hq⟩ := hs
    exact ⟨hv, ⟨s :: q, by rw [hsn, hq]; rfl⟩, hidx⟩
  · split at h
    · simp at h
    · rename_i result hres
      split at h
      · simp at h
      · rename_i hne
        simp only [Option.some.injEq] at h
        subst h
        have hne' : result ≠ root := by simpa using hne
        obtain ⟨hv, hsc, hidx⟩ := nav_keep_calling_spec t value root cut n result hn hs hres hne'
        have := preorder_index_lt_end t n hn
        exact ⟨hv, hsc, by omega⟩

theorem scoped_walk_length (t : BTree α) (value : α → Bool) (root : NodePtr)
    (cut : Option NodePtr) :
    ∀ (fuel : Nat) (n : NodePtr), t.subtree n ≠ BTree.nil → (∃ q, n = q ++ root) →
      (policy_walk (nav_increment t value root cut) fuel (some n)).length
        + preorder_index t n ≤ t.count := by
  intro fuel
  induction fuel with
  | zero =>
    intro n hn _
    have h1 := preorder_end_le_count t n hn
    simp only [policy_walk, List.length_nil]
    omega
  | succ fuel ih =>
    intro n hn hs
    have h1 := preorder_end_le_count t n hn
    have h2 := count_pos _ hn
    simp only [policy_walk, List.length_cons]
    cases hstep : nav_increment t value root cut n with
    | none =>
      cases fuel <;> simp only [policy_walk, List.length_nil] <;> omega
    | some r =>
      obtain ⟨hv, hsc, hidx⟩ := nav_increment_spec t value root cut n r hn hs hstep
      have := ih r hv hsc
      omega

end scan_lemmas

section scan_lemmas2

variable {α : Type}

theorem set_of_get (l : List (Matcher α)) (i : Nat) (c : Matcher α) (h : l.get? i = some c) :
    l.set i c = l := by
  rw [List.get?_eq_getElem?] at h
  apply List.ext_getElem?
  intro j
  by_cases hj : i = j
  · subst hj
    rw [List.getElem?_set, h]
    have hlt : i < l.length := by
      rcases Nat.lt_or_ge i l.length with hlt | hge
      · exact hlt
      · rw [List.getElem?_eq_none hge] at h; simp at h
    simp [hlt]
  · rw [List.getElem?_set_ne hj]

theorem get_of_set (l : List (Matcher α)) (i : Nat) (c c' : Matcher α)
    (h : l.get? i = some c) : (l.set i c').get? i = some c' := by
  rw [List.get?_eq_getElem?] at h ⊢
  have hlt : i < l.length := by
    rcases Nat.lt_or_ge i l.length with hlt | hge
    · exact hlt
    · rw [List.getElem?_eq_none hge] at h; simp at h
  simp [List.getElem?_set_self, hlt]

theorem do_match_loop_scan (child_match : ChildMatch α) (t : BTree α) (value : α → Bool)
    (root : NodePtr) (index : Nat) :
    ∀ (fuel : Nat) (st : MatchState α) (child : Matcher α),
      st.children.get? index = some child →
      (policy_walk (nav_increment t value root st.subtree_cut) fuel st.target_it).length < fuel →
      do_match_loop child_match t value root index fuel st
        = match first_match_scan child_match child
            (policy_walk (nav_increment t value root st.subtree_cut) fuel st.target_it) with
          | none => none
          | some (some n, child') =>
            some (true,
              { children := st.children.set index child'
                subtree_cut := some n
                match_attempt_begin := st.match_attempt_begin
                target_it := nav_increment t value root (some n) n })
          | some (none, child') =>
            some (false,
              { children := st.children.set index child'
                subtree_cut := st.subtree_cut
                match_attempt_begin := st.match_attempt_begin
                target_it := none }) := by
  intro fuel
  induction fuel with
  | zero => intro st child _ h; simp at h
  | succ fuel ih =>
    intro st child hchild hlen
    cases hti : st.target_it with
    | none =>
      unfold do_match_loop
      simp only [hti, policy_walk, first_match_scan, set_of_get _ _ _ hchild]
      cases st
      simp only at hti
      simp [hti]
    | some current =>
      rw [hti] at hlen
      simp only [policy_walk, List.length_cons, Nat.add_lt_add_iff_right] at hlen
      unfold do_match_loop
      simp only [hti, hchild, policy_walk, first_match_scan]
      cases hcm : child_match child current with
      | none => rfl
      | some r =>
        obtain ⟨b, child'⟩ := r
        cases b with
        | true => rfl
        | false =>
          simp only
          rw [ih _ child' (get_of_set _ _ _ _ hchild) hlen]
          simp only [List.set_set]

theorem match_node_claims_target (t : BTree α) (fuel : Nat) (m : Matcher α) (node : NodePtr)
    (m' : Matcher α) (h : match_node t fuel m (some node) = some (true, m')) :
    m'.get_node = some node := by
  cases fuel with
  | zero => simp [match_node] at h
  | succ fuel =>
    simp only [match_node] at h
    split at h
    · simp at h
    · simp at h
      rw [← h]
      exact get_node_set_target _ _
    · simp at h

end scan_lemmas2


section steal_lemmas

variable {α : Type}

theorem steal_target_first (gen : Reconstruction α) (t : BTree α) (fuel : Nat)
    (node : NodePtr) (child : Matcher α) (following : List (Matcher α))
    (hchild : child.get_node = some node) :
    ∀ before : List (Matcher α), (∀ c, c ∈ before → c.get_node ≠ some node) →
      steal_target gen t fuel true node (before ++ child :: following)
        = some (child.result gen t fuel) := by
  intro before
  induction before with
  | nil =>
    intro _
    simp [steal_target, hchild]
  | cons b before ih =>
    intro hb
    have hb1 := hb b (by simp)
    have ih' := ih (fun c hc => hb c (by simp [hc]))
    simp only [List.cons_append, steal_target]
    cases hg : b.get_node with
    | none => simpa using ih'
    | some target =>
      have hne : target ≠ node := by
        intro e
        apply hb1
        rw [hg, e]
      have hbeq : (target == node) = false := by simpa using hne
      simpa [hbeq] using ih'

end steal_lemmas


section size_lemmas

variable {α : Type}

theorem get_first_child_ne_self (t : BTree α) (n : NodePtr) : get_first_child t n ≠ some n := by
  intro h
  unfold get_first_child get_left get_right at h
  have hlen : ∀ s : Slot, s :: n ≠ n := fun s e => by
    have := congrArg List.length e
    simp at this
  split at h
  · rename_i l hl
    split at hl
    · simp at hl
    · simp only [Option.some.injEq] at hl h
      exact hlen _ (hl.trans h)
  · split at h
    · simp at h
    · simp only [Option.some.injEq] at h
      exact hlen _ h

theorem is_unique_child_false (t : BTree α) (n : NodePtr) : is_unique_child t n = false := by
  have h := get_first_child_ne_self t n
  have h' : ¬ (some n = get_first_child t n) := fun e => h e.symm
  simp [is_unique_child, h']

theorem binary_calculate_size_eq_count (t : BTree α) : binary_node.calculate_size t = t.count := by
  induction t with
  | nil => rfl
  | node l v r ihl ihr =>
    simp only [binary_node.calculate_size, BTree.count, ihl, ihr]
    cases l <;> cases r <;> simp [BTree.isNil, BTree.count] <;> omega

mutual
theorem nary_calculate_size_eq_count : ∀ t : nary_node α, t.calculate_size = t.count
  | nary_node.mk v children => by
    simp only [nary_node.calculate_size, nary_node.count]
    exact nary_calculate_size_loop_eq children 1
theorem nary_calculate_size_loop_eq : ∀ (cs : List (nary_node α)) (size : Nat),
    nary_node.calculate_size_loop size cs = size + nary_node.count_all cs
  | [], size => by simp [nary_node.calculate_size_loop, nary_node.count_all]
  | c :: cs, size => by
    simp only [nary_node.calculate_size_loop, nary_node.count_all]
    rw [nary_calculate_size_loop_eq cs, nary_calculate_size_eq_count c]
    omega
end

mutual
theorem nary_length_preorder : ∀ t : nary_node α, t.preorder.length = t.count
  | nary_node.mk v children => by
    simp only [nary_node.preorder, nary_node.count, List.length_cons]
    rw [nary_length_preorder_from children 0]
    omega
theorem nary_length_preorder_from : ∀ (cs : List (nary_node α)) (i : Nat),
    (nary_node.preorder_from i cs).length = nary_node.count_all cs
  | [], i => by simp [nary_node.preorder_from, nary_node.count_all]
  | c :: cs, i => by
    simp only [nary_node.preorder_from, nary_node.count_all, List.length_append, List.length_map]
    rw [nary_length_preorder_from cs, nary_length_preorder c]
end

mutual
theorem calculate_arity_spec (m : Nat) : ∀ t : nary_node α,
    t.calculate_arity m ≤ t.largest_arity ∧
      (t.largest_arity ≤ m → t.calculate_arity m = t.largest_arity)
  | nary_node.mk v children => by
    have hlen : (match children with
        | [] => 0
        | _ :: following => following.length + 1) = children.length := by
      cases children <;> rfl
    have h := calculate_arity_loop_spec m children children.length
    simp only [nary_node.calculate_arity, nary_node.largest_arity, hlen]
    exact h
theorem calculate_arity_loop_spec (m : Nat) : ∀ (cs : List (nary_node α)) (arity : Nat),
    nary_node.calculate_arity_loop m arity cs ≤ max arity (nary_node.largest_arity_all cs) ∧
      (max arity (nary_node.largest_arity_all cs) ≤ m →
        nary_node.calculate_arity_loop m arity cs = max arity (nary_node.largest_arity_all cs))
  | [], arity => by simp [nary_node.calculate_arity_loop, nary_node.largest_arity_all]
  | c :: cs, arity => by
    have hc := calculate_arity_spec m c
    have hl := calculate_arity_loop_spec m cs (max arity (nary_node.calculate_arity m c))
    simp only [nary_node.calculate_arity_loop, nary_node.largest_arity_all]
    by_cases ha : arity = m
    · simp only [ha, if_true]
      refine ⟨by omega, ?_⟩
      intro hle
      omega
    · simp only [ha, if_false]
      refine ⟨by omega, ?_⟩
      intro hle
      have h1 : c.largest_arity ≤ m := by omega
      have h2 := hc.2 h1
      rw [h2] at hl ⊢
      have := hl.2 (by omega)
      omega
end

end size_lemmas

section capture_lemmas

variable {α : Type}

theorem get_node_reset (m : Matcher α) : m.reset.get_node = none := by
  cases m <;> rfl

/-- After a failed match the root matcher holds no target. -/
theorem match_tree_failed_root_target (mfuel : Nat) (p0 p : pattern α) (tree : BTree α)
    (h : p0.match_tree mfuel tree = some (false, p)) : p.pattern_tree.get_node = none := by
  unfold pattern.match_tree at h
  split at h
  · simp at h
  · rename_i matched m hm
    simp only [Option.some.injEq, Prod.mk.injEq] at h
    obtain ⟨hb, hp⟩ := h
    subst hb
    subst hp
    simp only
    rw [match_node_failed_target tree mfuel _ _ m hm]
    exact get_node_reset _

/-- After a failed match every registered capture resolves to an empty tree. -/
theorem capture_after_failed_match (gen : Reconstruction α) (fuel mfuel : Nat)
    (p0 p : pattern α) (tree : BTree α) (c : capture) (owner : Matcher α)
    (hmatch : p0.match_tree mfuel tree = some (false, p))
    (howner : p.pattern_tree.descend c.owner = some owner) :
    (∀ index : Nat, p.captures.get? index = some c →
      p.assign_capture_index gen fuel tree (index + 1) = some (Except.ok BTree.nil)) ∧
    (∀ name : String, p.captures.find? (fun e => e.name == some name) = some c →
      p.assign_capture_name gen fuel tree name = some (Except.ok BTree.nil)) := by
  have hroot := match_tree_failed_root_target mfuel p0 p tree hmatch
  refine ⟨?_, ?_⟩
  · intro index hc
    rw [List.get?_eq_getElem?] at hc
    simp [pattern.assign_capture_index, get_captured_node, hc, howner, hroot]
  · intro name hc
    simp [pattern.assign_capture_name, get_captured_node, hc, howner, hroot]

/-- The capture `b` of `star()(cpt(star(2)), star(5))` after its failed match against
`1(2, 3)`: an empty tree, although its owner still holds the node `2`. -/
theorem capture_after_failed_match_of_star_two_five :
    star_two_five.match_tree 6 tree1 = some (false, star_two_five_failed) ∧
    star_two_five_failed.pattern_tree.descend [0]
      = some (Matcher.any_matcher quantifier.DEFAULT (equal_to 2) (some [Slot.left]) []) ∧
    star_two_five_failed.assign_capture_index no_reconstruction 6 tree1 1
      = some (Except.ok BTree.nil) ∧
    star_two_five_failed.assign_capture_name no_reconstruction 6 tree1 "b"
      = some (Except.ok BTree.nil) :=
  ⟨rfl, rfl, rfl, rfl⟩

end capture_lemmas

section in_memory_lemmas

variable {α : Type}

theorem in_memory.do_match_loop_memory (cm : in_memory.ChildMatch α)
    (hcm : in_memory.KeepsMemory cm) (value : α → Bool) (root : Nat) (index : Nat) :
    ∀ (fuel : Nat) (st : in_memory.MatchState α) (b : Bool) (st' : in_memory.MatchState α),
      in_memory.do_match_loop cm value root index fuel st = some (b, st') →
      st'.memory = st.memory := by
  intro fuel
  induction fuel with
  | zero =>
    intro st b st' h
    unfold in_memory.do_match_loop at h
    split at h
    · simp at h; rw [← h.2]
    · simp at h
  | succ fuel ih =>
    intro st b st' h
    unfold in_memory.do_match_loop at h
    split at h
    · simp at h; rw [← h.2]
    · simp only at h
      split at h
      · simp at h
      · rename_i child' hchild
        split at h
        · simp at h
        · rename_i child1 memory1 hc
          split at h
          · simp at h
          · simp at h
            rw [← h.2]
            exact hcm _ _ _ _ _ _ hc
        · rename_i child1 memory1 hc
          split at h
          · simp at h
          · have := ih _ _ _ h
            rw [this]
            exact hcm _ _ _ _ _ _ hc

theorem in_memory.do_match_memory (cm : in_memory.ChildMatch α) (hcm : in_memory.KeepsMemory cm)
    (value : α → Bool) (root : Nat) (fuel index : Nat) (st : in_memory.MatchState α) (b : Bool)
    (st' : in_memory.MatchState α)
    (h : in_memory.do_match cm value root fuel index st = some (b, st')) :
    st'.memory = st.memory := by
  unfold in_memory.do_match at h
  split at h
  · simp at h
  · split at h
    · simp at h; rw [← h.2]
    · have := in_memory.do_match_loop_memory cm hcm value root index _ _ _ _ h
      rw [this]
      split <;> rfl

theorem in_memory.do_rematch_memory (cm : in_memory.ChildMatch α) (hcm : in_memory.KeepsMemory cm)
    (value : α → Bool) (root : Nat) (fuel index : Nat) (st : in_memory.MatchState α) (b : Bool)
    (st' : in_memory.MatchState α)
    (h : in_memory.do_rematch cm value root fuel index st = some (b, st')) :
    st'.memory = st.memory := by
  unfold in_memory.do_rematch at h
  split at h
  · simp at h
  · split at h
    · simp at h; rw [← h.2]
    · simp only at h
      split at h
      · simp at h
      · split at h
        · split at h
          · simp at h; rw [← h.2]
          · simp at h; rw [← h.2]
        · have := in_memory.do_match_memory cm hcm value root _ _ _ _ _ h
          exact this

theorem in_memory.backtrack_memory
    (rematch : Nat → in_memory.MatchState α → Option (Bool × in_memory.MatchState α))
    (hr : ∀ i st b st', rematch i st = some (b, st') → st'.memory = st.memory) :
    ∀ (i : Nat) (st : in_memory.MatchState α) (r : Option Nat) (st' : in_memory.MatchState α),
      in_memory.backtrack rematch i st = some (r, st') → st'.memory = st.memory := by
  intro i
  induction i with
  | zero => intro st r st' h; simp [in_memory.backtrack] at h; rw [← h.2]
  | succ i ih =>
    intro st r st' h
    unfold in_memory.backtrack at h
    split at h
    · simp at h
    · rename_i st1 h1
      simp at h
      rw [← h.2]
      exact hr _ _ _ _ h1
    · rename_i st1 h1
      rw [ih _ _ _ h]
      exact hr _ _ _ _ h1

theorem in_memory.match_children_memory
    (dm dr : Nat → in_memory.MatchState α → Option (Bool × in_memory.MatchState α))
    (hm : ∀ i st b st', dm i st = some (b, st') → st'.memory = st.memory)
    (hr : ∀ i st b st', dr i st = some (b, st') → st'.memory = st.memory) (count : Nat) :
    ∀ (fuel i : Nat) (st : in_memory.MatchState α) (b : Bool) (st' : in_memory.MatchState α),
      in_memory.match_children dm dr count fuel i st = some (b, st') →
      st'.memory = st.memory := by
  intro fuel
  induction fuel with
  | zero =>
    intro i st b st' h
    unfold in_memory.match_children at h
    split at h
    · simp at h; rw [← h.2]
    · simp at h
  | succ fuel ih =>
    intro i st b st' h
    unfold in_memory.match_children at h
    split at h
    · simp at h; rw [← h.2]
    · simp only at h
      split at h
      · simp at h
      · rename_i st1 h1
        rw [ih _ _ _ _ h]
        exact hm _ _ _ _ h1
      · rename_i st1 h1
        split at h
        · simp at h
        · rename_i st2 h2
          simp at h
          rw [← h.2, in_memory.backtrack_memory dr hr _ _ _ _ h2]
          exact hm _ _ _ _ h1
        · rename_i j st2 h2
          rw [ih _ _ _ _ h, in_memory.backtrack_memory dr hr _ _ _ _ h2]
          exact hm _ _ _ _ h1

theorem in_memory.match_node_impl_memory (cm : in_memory.ChildMatch α)
    (hcm : in_memory.KeepsMemory cm) (fuel : Nat) (m : in_memory.Matcher α) (memory : Memory α)
    (n : Nat) (b : Bool) (m' : in_memory.Matcher α) (memory' : Memory α)
    (h : in_memory.match_node_impl cm fuel m memory n = some (b, m', memory')) :
    memory' = memory := by
  unfold in_memory.match_node_impl at h
  split at h
  · simp at h; rw [← h.2.2]
  · split at h
    · simp at h; rw [← h.2.2]
    · simp only at h
      split at h
      · simp at h
      · rename_i matched st' hmc
        simp at h
        rw [← h.2.2]
        have := in_memory.match_children_memory _ _
          (fun i st b st' => in_memory.do_match_memory cm hcm _ _ _ i st b st')
          (fun i st b st' => in_memory.do_rematch_memory cm hcm _ _ _ i st b st') _ _ _ _ _ _ hmc
        simpa using this

theorem in_memory.match_node_memory :
    ∀ (fuel : Nat) (m : in_memory.Matcher α) (memory : Memory α) (n : Option Nat) (b : Bool)
      (m' : in_memory.Matcher α) (memory' : Memory α),
      in_memory.match_node fuel m memory n = some (b, m', memory') → memory' = memory := by
  intro fuel
  induction fuel with
  | zero => intro m memory n b m' memory' h; simp [in_memory.match_node] at h
  | succ fuel ih =>
    intro m memory n b m' memory' h
    cases n with
    | none => simp [in_memory.match_node] at h; rw [← h.2.2]
    | some n =>
      have hcm : in_memory.KeepsMemory
          (fun child memory1 current => in_memory.match_node fuel child memory1 (some current)) :=
        fun c memory1 k b1 c' memory2 hc => ih c memory1 (some k) b1 c' memory2 hc
      simp only [in_memory.match_node] at h
      split at h
      · simp at h
      · rename_i m1 memory1 h1
        simp at h
        rw [← h.2.2]
        exact in_memory.match_node_impl_memory _ hcm fuel m memory n _ _ _ h1
      · rename_i m1 memory1 h1
        simp at h
        rw [← h.2.2]
        exact in_memory.match_node_impl_memory _ hcm fuel m memory n _ _ _ h1

end in_memory_lemmas

/-! ## The claims -/

section claims

variable {α : Type}

open Matcher

/-- C1: for every non-empty concrete tree, the pattern made of a single childless
DEFAULT `any_matcher` with the always-true value matcher matches (whatever target the
matcher held before the call), and the materialised result is a single node that
holds the value of the tree's root and has no children. -/
theorem wildcard_matches_and_yields_root_value (gen : Reconstruction α) (l r : BTree α) (v : α)
    (stale : Option NodePtr) (captures : List capture) (fuel fuel' : Nat) :
    (pattern.mk (any_matcher quantifier.DEFAULT true_matcher stale []) captures).match_tree
        (fuel + 1) (BTree.node l v r)
      = some (true, pattern.mk (any_matcher quantifier.DEFAULT true_matcher (some []) []) captures) ∧
    (pattern.mk (any_matcher quantifier.DEFAULT true_matcher (some []) []) captures).assign_result
        gen fuel' (BTree.node l v r)
      = Except.ok (BTree.node BTree.nil v BTree.nil) := by
  constructor
  · simp [pattern.match_tree, Matcher.reset, Matcher.reset_all, root_of, BTree.isNil, match_node,
      match_node_impl, accepts, get_value, BTree.subtree, true_matcher, match_children_done,
      Matcher.set_target]
  · simp [pattern.assign_result, Matcher.result, clone_node, get_value, BTree.subtree, allocate]

/-- C2: what `match` returns and the state it leaves in the pattern do not depend on
earlier `match` calls on the same pattern: if `p₁` is the pattern as an earlier call
left it, then matching from `p₁` equals matching from `p` for every tree, and
repeating the same call yields the same boolean and the same pattern state, hence the
same materialised result. -/
theorem match_independent_of_earlier_calls (p p₁ : pattern α) (fuel₁ : Nat) (tree₁ : BTree α)
    (b₁ : Bool) (h : p.match_tree fuel₁ tree₁ = some (b₁, p₁)) :
    (∀ (fuel : Nat) (tree : BTree α), p₁.match_tree fuel tree = p.match_tree fuel tree) ∧
    p₁.match_tree fuel₁ tree₁ = some (b₁, p₁) := by
  have key : p₁.pattern_tree.reset = p.pattern_tree.reset ∧ p₁.captures = p.captures := by
    unfold pattern.match_tree at h
    split at h
    · simp at h
    · rename_i matched m hm
      simp at h
      rw [← h.2]
      refine ⟨?_, rfl⟩
      simp only
      rw [match_node_structure _ _ _ _ _ _ hm, reset_reset]
  have all : ∀ (fuel : Nat) (tree : BTree α), p₁.match_tree fuel tree = p.match_tree fuel tree := by
    intro fuel tree
    unfold pattern.match_tree
    rw [key.1]
    cases match_node tree fuel p.pattern_tree.reset (root_of tree) with
    | none => rfl
    | some r =>
      obtain ⟨b, m⟩ := r
      simp only [key.2]
  refine ⟨all, ?_⟩
  rw [all, h]

/-- Witness of C2: `star()(cpt(star(2)))` matched against `1(2, 3)`, then matched again. -/
theorem match_independent_of_earlier_calls_witness :
    star_two.match_tree 3 tree1 = some (true, star_two_matched) ∧
    ((∀ (fuel : Nat) (tree : BTree Nat),
        star_two_matched.match_tree fuel tree = star_two.match_tree fuel tree) ∧
      star_two_matched.match_tree 3 tree1 = some (true, star_two_matched)) :=
  ⟨rfl, match_independent_of_earlier_calls star_two star_two_matched 3 tree1 true rfl⟩

/-- C3: a call of `match`, whether it succeeds or fails, leaves the concrete tree as
it was: the memory that holds the nodes is the same after the call as before, so
every node has the same value, the same child links and the same parent link. -/
theorem match_leaves_tree_unchanged (fuel : Nat) (pattern_tree pattern_tree' : in_memory.Matcher α)
    (memory memory' : Memory α) (root : Option Nat) (matched : Bool)
    (h : in_memory.match_tree fuel pattern_tree memory root
      = some (matched, pattern_tree', memory')) :
    memory' = memory ∧
    ∀ n : Nat, in_memory.get_value memory' n = in_memory.get_value memory n ∧
      in_memory.get_left memory' n = in_memory.get_left memory n ∧
      in_memory.get_right memory' n = in_memory.get_right memory n ∧
      in_memory.get_parent memory' n = in_memory.get_parent memory n := by
  have hm : memory' = memory := in_memory.match_node_memory fuel _ memory root _ _ _ h
  rw [hm]
  exact ⟨rfl, fun n => ⟨rfl, rfl, rfl, rfl⟩⟩

/-- Witness of C3: the failing match of `star()(star(2), star(5))` and the successful
match of `star()(star(2))` against the node `1(2, 3)` at address 0 of a memory that
holds a further node. -/
theorem match_leaves_tree_unchanged_witness :
    in_memory.match_tree 4 in_memory.star_two_five memory_with_spare (some 0)
      = some (false, in_memory.star_two_five_failed, memory_with_spare) ∧
    in_memory.match_tree 4 in_memory.star_two memory_with_spare (some 0)
      = some (true, in_memory.star_two_matched, memory_with_spare) ∧
    (memory_with_spare = memory_with_spare ∧
      ∀ n : Nat,
        in_memory.get_value memory_with_spare n = in_memory.get_value memory_with_spare n ∧
        in_memory.get_left memory_with_spare n = in_memory.get_left memory_with_spare n ∧
        in_memory.get_right memory_with_spare n = in_memory.get_right memory_with_spare n ∧
        in_memory.get_parent memory_with_spare n = in_memory.get_parent memory_with_spare n) :=
  ⟨rfl, rfl,
    match_leaves_tree_unchanged 4 in_memory.star_two_five in_memory.star_two_five_failed
      memory_with_spare memory_with_spare (some 0) false rfl⟩

/-- C4: for every non-empty binary tree, the sequence `go_first(root)`,
`increment(go_first(root))`, ... of the pre-order policy is exactly the pre-order
listing of the tree: it starts at the root, each node is followed by its `increment`
until `increment` returns the null pointer on the last node, every node occurs
exactly once, and on a root without children `increment` returns the null pointer
at once. -/
theorem pre_order_increment_lists_preorder (t : BTree α) (h : t ≠ BTree.nil) :
    t.preorder.head? = pre_order_impl.go_first [] ∧
    (∀ fuel : Nat, t.count < fuel →
      pre_order_impl.walk t fuel (pre_order_impl.go_first []) = t.preorder) ∧
    (∀ n : NodePtr, n ∈ t.preorder.getLast? → pre_order_impl.increment t n = none) ∧
    t.preorder.Nodup ∧
    (∀ n : NodePtr, n ∈ t.preorder ↔ t.subtree n ≠ BTree.nil) ∧
    (get_first_child t [] = none → pre_order_impl.increment t [] = none) := by
  have hc := chained_preorder t t [] rfl h
  rw [cross_root] at hc
  simp only [List.append_nil, List.map_id'] at hc
  cases ht : t.preorder with
  | nil =>
    cases t with
    | nil => exact absurd rfl h
    | node l v r => simp [BTree.preorder] at ht
  | cons a l =>
    have ha : a = [] := by
      cases t with
      | nil => exact absurd rfl h
      | node l v r => simp [BTree.preorder] at ht; exact ht.1
    subst ha
    rw [ht] at hc
    refine ⟨rfl, ?_, ?_, ?_, ?_, ?_⟩
    · intro fuel hf
      apply walk_of_chained t l [] fuel hc
      rw [← length_preorder, ht] at hf
      simpa using hf
    · intro n hn
      exact chained_last t _ _ hc n hn
    · rw [← ht]; exact nodup_preorder t
    · intro n; rw [← ht]; exact mem_preorder t n
    · intro hfc
      rw [increment_eq, hfc]
      exact cross_root t

/-- Witness of C4: the tree `1(2, 3)` is visited as root, left child, right child. -/
theorem pre_order_increment_lists_preorder_witness :
    tree1 ≠ BTree.nil ∧
    pre_order_impl.walk tree1 4 (pre_order_impl.go_first []) = [[], [Slot.left], [Slot.right]] :=
  ⟨by decide, (pre_order_increment_lists_preorder tree1 (by decide)).2.1 4 (by decide)⟩

/-- C5: after `match` has returned false, materialising the result yields an empty
tree, not a failure and not a tree of the nodes matched so far, also when child
matchers still hold the nodes they had claimed. -/
theorem failed_match_yields_empty_result (gen : Reconstruction α) (fuel fuel' : Nat)
    (p p' : pattern α) (tree : BTree α) (h : p.match_tree fuel tree = some (false, p')) :
    p'.assign_result gen fuel' tree = Except.ok BTree.nil := by
  unfold pattern.match_tree at h
  split at h
  · simp at h
  · rename_i matched m hm
    simp at h
    obtain ⟨hb, hp⟩ := h
    subst hb
    have hnode : m.get_node = none := by
      rw [match_node_failed_target _ _ _ _ _ hm]
      cases p.pattern_tree <;> rfl
    rw [← hp]
    exact result_of_no_target gen tree fuel' m hnode

/-- Witness of C5: `star()(cpt(star(2)), star(5))` fails on `1(2, 3)` while its first child
still holds the node `2`. -/
theorem failed_match_yields_empty_result_witness :
    star_two_five.match_tree 6 tree1 = some (false, star_two_five_failed) ∧
    star_two_five_failed.assign_result no_reconstruction 6 tree1 = Except.ok BTree.nil :=
  ⟨rfl, failed_match_yields_empty_result no_reconstruction 6 6 star_two_five star_two_five_failed
    tree1 rfl⟩

/-- C6: the code at two failing inputs.  `star<RELUCTANT>()(star<GREEDY>(2))` matches
`1(2(2), 3)`; the child claims the left child of the root and its own result is
`2(2)`, yet the result of the RELUCTANT matcher is `1(2)`: in the left slot sits a
clone of the child's target node, not the child's result.  And
`star<RELUCTANT>()(one(4), one(5))` matches `1(2(4, 5), 3)` with the children on the
two children of node `2`, yet the result is `1(2(_, 5))`: the chain built for the
second child replaces the one that held the first child's node. -/
theorem reluctant_result_holds_clone_not_child_result (gen : Reconstruction Nat) :
    (∃ p' child,
      reluctant_over_greedy.match_tree 4 tree_nested = some (true, p') ∧
      p'.pattern_tree.children = [child] ∧
      child.get_node = some [Slot.left] ∧
      child.result gen tree_nested 6
        = Except.ok (BTree.node (BTree.node BTree.nil 2 BTree.nil) 2 BTree.nil) ∧
      p'.assign_result gen 6 tree_nested
        = Except.ok (BTree.node (BTree.node BTree.nil 2 BTree.nil) 1 BTree.nil)) ∧
    (∃ p' first second,
      reluctant_over_ones.match_tree 6 tree_siblings = some (true, p') ∧
      p'.pattern_tree.children = [first, second] ∧
      first.get_node = some [Slot.left, Slot.left] ∧
      second.get_node = some [Slot.right, Slot.left] ∧
      first.result gen tree_siblings 6 = Except.ok (BTree.node BTree.nil 4 BTree.nil) ∧
      second.result gen tree_siblings 6 = Except.ok (BTree.node BTree.nil 5 BTree.nil) ∧
      p'.assign_result gen 6 tree_siblings
        = Except.ok
          (BTree.node (BTree.node BTree.nil 2 (BTree.node BTree.nil 5 BTree.nil)) 1 BTree.nil)) :=
  ⟨⟨_, _, rfl, rfl, rfl, rfl, rfl⟩, ⟨_, _, _, rfl, rfl, rfl, rfl, rfl, rfl, rfl⟩⟩

/-- C9: the code at a failing input.  Matching `star()(star(), one(5))` against the
tree with the single node `1` never returns: whatever the fuel, the evaluation runs
out of it, because `do_rematch` hands the cursor back to the attempt start of the
first child again and again. -/
theorem renounce_backtracking_never_terminates :
    ∀ fuel : Nat, star_star_one.match_tree fuel single = none := by
  intro fuel
  have hroot : root_of single = some [] := rfl
  have hreset : star_star_one.pattern_tree.reset = star_star_one.pattern_tree := rfl
  unfold pattern.match_tree
  rw [hroot, hreset]
  suffices h : match_node single fuel star_star_one.pattern_tree (some []) = none by rw [h]
  cases fuel with
  | zero => rfl
  | succ inner =>
    suffices h : match_node_impl (fun child current => match_node single inner child (some current))
        single inner star_star_one.pattern_tree [] = none by
      simp only [match_node, h]
    have haccept : accepts (true_matcher : Nat → Bool) single [] = true := rfl
    simp only [match_node_impl, star_star_one, haccept, Bool.not_true, Bool.false_eq_true, if_false]
    suffices h : match_children
        (do_match (fun child current => match_node single inner child (some current)) single
          true_matcher [] inner)
        (do_rematch (fun child current => match_node single inner child (some current)) single
          true_matcher [] inner)
        2 inner 0
        { children := [star quantifier.DEFAULT true_matcher, one_matcher (equal_to 5) none]
          subtree_cut := none
          match_attempt_begin := List.replicate 3 none
          target_it := some [] } = none by
      simp only [List.length_cons, List.length_nil] at h ⊢
      rw [h]
    cases inner with
    | zero => unfold match_children; simp
    | succ f =>
      have hdm : do_match (fun child current => match_node single (f + 1) child (some current)) single
          true_matcher [] (f + 1) 0
          { children := [star quantifier.DEFAULT true_matcher, one_matcher (equal_to 5) none]
            subtree_cut := none
            match_attempt_begin := List.replicate 3 none
            target_it := some [] }
          = some (true,
            { children := [any_matcher quantifier.DEFAULT true_matcher (some []) [],
                one_matcher (equal_to 5) none]
              subtree_cut := some []
              match_attempt_begin := [some [], none, none]
              target_it := none }) := by
        simp [do_match, do_match_loop, star, match_node, match_node_impl, accepts, get_value,
          single, BTree.subtree, true_matcher, match_children_done, Matcher.set_target,
          nav_increment, nav_get_first_child, get_first_child, get_left, get_right, BTree.child,
          BTree.isNil, nav_keep_calling, predicate, get_parent, List.replicate]
      unfold match_children
      simp only [hdm]
      cases f with
      | zero => unfold match_children; simp
      | succ g =>
        have hdm1 : do_match (fun child current => match_node single (g + 1 + 1) child (some current))
            single true_matcher [] (g + 1 + 1) 1
            { children := [any_matcher quantifier.DEFAULT true_matcher (some []) [],
                one_matcher (equal_to 5) none]
              subtree_cut := some []
              match_attempt_begin := [some [], none, none]
              target_it := none }
            = some (false,
              { children := [any_matcher quantifier.DEFAULT true_matcher (some []) [],
                  one_matcher (equal_to 5) none]
                subtree_cut := some []
                match_attempt_begin := [some [], none, none]
                target_it := none }) := by
          simp [do_match, Matcher.matches_null]
        have hbt : backtrack
            (do_rematch (fun child current => match_node single (g + 1 + 1) child (some current))
              single true_matcher [] (g + 1 + 1)) 1
            { children := [any_matcher quantifier.DEFAULT true_matcher (some []) [],
                one_matcher (equal_to 5) none]
              subtree_cut := some []
              match_attempt_begin := [some [], none, none]
              target_it := none }
            = some (some 0, cycle_state none) := by
          simp [backtrack, do_rematch, cycle_state, Matcher.get_node, go_depth_first_ramification,
            nav_increment, nav_get_first_child, get_first_child, get_left, get_right, single,
            BTree.subtree, BTree.child, BTree.isNil, nav_keep_calling, Matcher.matches_null,
            Matcher.all_match_null]
        unfold match_children
        simp only [hdm1, hbt]
        simpa using cycle_never_ends (g + 1 + 1) g none

/-- C10: for a childless GREEDY `any_matcher` whose value matcher accepts its target
and every descendant of the target, the materialised result (given enough fuel) is a
deep copy of the whole subtree rooted at the target: the same values, each node in
the same child slot as in the concrete tree. -/
theorem childless_greedy_result_is_deep_copy (gen : Reconstruction α) (tree : BTree α)
    (value : α → Bool) (node : NodePtr) (fuel : Nat)
    (hnode : tree.subtree node ≠ BTree.nil)
    (haccept : ∀ n : NodePtr, tree.subtree (n ++ node) ≠ BTree.nil →
      accepts value tree (n ++ node) = true)
    (hfuel : 2 * (tree.subtree node).count ≤ fuel) :
    (any_matcher quantifier.GREEDY value (some node) []).result gen tree fuel
      = Except.ok (tree.subtree node) := by
  cases hs : tree.subtree node with
  | nil => exact absurd hs hnode
  | node l v r =>
    have hv : get_value tree node = some v := by simp [get_value, hs]
    have hk := keep_assigning_children_copy tree value (tree.subtree node) node (allocate v) [] v
      fuel rfl hnode haccept rfl hfuel
    simp only [Matcher.result, List.isEmpty_nil, if_true, clone_node, hv]
    rw [hk, hs]
    rfl

/-- Witness of C10: `star<GREEDY>()` targeting the root of `1(2, 3)` yields `1(2, 3)`. -/
theorem childless_greedy_result_is_deep_copy_witness :
    tree1.subtree [] ≠ BTree.nil ∧
    (∀ n : NodePtr, tree1.subtree (n ++ []) ≠ BTree.nil →
      accepts (true_matcher : Nat → Bool) tree1 (n ++ []) = true) ∧
    2 * (tree1.subtree []).count ≤ 6 ∧
    (any_matcher quantifier.GREEDY true_matcher (some []) []).result no_reconstruction tree1 6
      = Except.ok tree1 :=
  ⟨by decide, fun n hn => accepts_true_matcher tree1 _ hn, by decide,
    childless_greedy_result_is_deep_copy no_reconstruction tree1 true_matcher [] 6 (by decide)
      (fun n hn => accepts_true_matcher tree1 _ hn) (by decide)⟩

/-- C11: the code at a failing input.  `star<GREEDY>(1)` matches `1(2, 3)`, but the
reconstruction of its result never returns: the child `2` is rejected by the value
matcher, `keep_assigning_children` takes `continue` without moving on to the next
sibling, and the loop tests the same child forever (whatever the fuel, the
evaluation runs out of it). -/
theorem greedy_reconstruction_loops_on_rejected_child (gen : Reconstruction Nat) :
    greedy_one.match_tree 1 tree1 = some (true, greedy_one_matched) ∧
    ∀ fuel : Nat, greedy_one_matched.assign_result gen fuel tree1
      = Except.error Fault.out_of_fuel := by
  refine ⟨rfl, ?_⟩
  intro fuel
  have hclone : clone_node tree1 (some []) = Except.ok (allocate 1) := rfl
  simp only [pattern.assign_result, greedy_one_matched, Matcher.result, List.isEmpty_nil, if_true,
    hclone]
  cases fuel with
  | zero => rfl
  | succ fuel =>
    have hfirst : get_first_child tree1 [] = some [Slot.left] := rfl
    simp only [keep_assigning_children, hfirst]
    exact keep_assigning_children_loop_stuck tree1 (equal_to 1) fuel _ _ [Slot.left] rfl

/-- C12: a POSSESSIVE `any_matcher` materialises an empty result, with or without
children, whatever it targets (and whatever its value matcher). -/
theorem possessive_result_is_empty (gen : Reconstruction α) (tree : BTree α) (fuel : Nat)
    (value : α → Bool) (target_node : Option NodePtr) (children : List (Matcher α)) :
    (any_matcher quantifier.POSSESSIVE value target_node children).result gen tree fuel
      = Except.ok BTree.nil := by
  cases target_node <;> cases children <;> simp [Matcher.result]

/-- C13: for binary nodes `a` and `b`, `a == b` is true exactly when their values
compare equal, `a` has a left child exactly when `b` has one and then the left
children compare equal, and likewise on the right; so when `==` on values is
equality, `a == b` is true exactly when the two trees are the same, value for value
and slot for slot. -/
theorem operator_eq_is_deep_structural_equality [BEq α] (l r l' r' : BTree α) (v v' : α) :
    (binary_node.operator_eq (BTree.node l v r) (BTree.node l' v' r') = true ↔
      (v == v') = true ∧
      (l = BTree.nil ↔ l' = BTree.nil) ∧ (l ≠ BTree.nil → binary_node.operator_eq l l' = true) ∧
      (r = BTree.nil ↔ r' = BTree.nil) ∧ (r ≠ BTree.nil → binary_node.operator_eq r r' = true)) ∧
    ((∀ u w : α, (u == w) = true ↔ u = w) →
      (binary_node.operator_eq (BTree.node l v r) (BTree.node l' v' r') = true ↔
        BTree.node l v r = BTree.node l' v' r')) := by
  constructor
  · rw [operator_eq_node_node]
    have e : ∀ x y : BTree α, x.isNil = y.isNil ↔ (x = BTree.nil ↔ y = BTree.nil) := by
      intro x y
      cases x <;> cases y <;> simp [BTree.isNil]
    rw [e l l', e r r', isNil_eq_false_iff, isNil_eq_false_iff]
  · intro hlawful
    rw [operator_eq_deep hlawful]
    simp

/-- Witness of C13: on natural numbers `1(2, 3) == 1(2, 3)`. -/
theorem operator_eq_is_deep_structural_equality_witness :
    (∀ u w : Nat, (u == w) = true ↔ u = w) ∧
    binary_node.operator_eq tree1 tree1 = true :=
  ⟨fun u w => by simp,
    ((operator_eq_is_deep_structural_equality (BTree.node BTree.nil 2 BTree.nil)
      (BTree.node BTree.nil 3 BTree.nil) (BTree.node BTree.nil 2 BTree.nil)
      (BTree.node BTree.nil 3 BTree.nil) 1 1).2 (fun u w => by simp)).2 rfl⟩

/-- C14: for a binary node `x` and a literal shape `s` with at most two declared
children, `x == s` is true exactly when the value of `x` compares equal to the value
of `s` and each of the slots left (declared child 0) and right (declared child 1)
agrees: where `s` declares a literal, `x` has that child and it compares equal to
the literal; where `s` declares the empty placeholder or nothing, `x` has no child. -/
theorem operator_eq_struct_node_is_slotwise [BEq α] (l r : BTree α) (v : α) (s : struct_node α)
    (h : s.children_count ≤ 2) :
    binary_node.operator_eq_struct_node (BTree.node l v r) s = true ↔
      (v == s.get_value) = true ∧ SlotAgrees l (s.children.get_child 0) ∧
        SlotAgrees r (s.children.get_child 1) :=
  operator_eq_struct_node_node l r v s h

/-- Witness of C14: `1(2, 3)` compared with the literal `n(1)(n(2), n(3))`. -/
theorem operator_eq_struct_node_is_slotwise_witness :
    literal_1_2_3.children_count ≤ 2 ∧
    (binary_node.operator_eq_struct_node tree1 literal_1_2_3 = true ↔
      ((1 : Nat) == literal_1_2_3.get_value) = true ∧
        SlotAgrees (BTree.node BTree.nil 2 BTree.nil) (literal_1_2_3.children.get_child 0) ∧
        SlotAgrees (BTree.node BTree.nil 3 BTree.nil) (literal_1_2_3.children.get_child 1)) :=
  ⟨by decide, operator_eq_struct_node_is_slotwise _ _ 1 literal_1_2_3 (by decide)⟩

/-- C15: comparing a binary node with a literal shape that declares more than two
children returns false, in both headers, and the inequality operators return true;
no error is raised. -/
theorem literal_with_more_than_two_children_is_unequal [BEq α] (x : BTree α) (s : struct_node α)
    (h : 2 < s.children_count) :
    binary_node.operator_eq_struct_node x s = false ∧
    binary_node.struct_node_eq s x = false ∧
    binary_node.operator_ne_struct_node x s = true ∧
    binary_node.struct_node_ne s x = true ∧
    binary_node.operator_eq_temp_node x s = false := by
  have h1 := operator_eq_struct_node_too_large x s h
  refine ⟨h1, h1, ?_, ?_, ?_⟩
  · simp [binary_node.operator_ne_struct_node, h1]
  · simp [binary_node.struct_node_ne, h1]
  · simp [binary_node.operator_eq_temp_node, h]

/-- Witness of C15: `1(2, 3)` compared with the literal `n(1)(n(2), n(3), n(4))`. -/
theorem literal_with_more_than_two_children_is_unequal_witness :
    2 < literal_1_2_3_4.children_count ∧
    binary_node.operator_eq_struct_node tree1 literal_1_2_3_4 = false ∧
    binary_node.operator_ne_struct_node tree1 literal_1_2_3_4 = true :=
  ⟨by decide,
    (literal_with_more_than_two_children_is_unequal tree1 literal_1_2_3_4 (by decide)).1,
    (literal_with_more_than_two_children_is_unequal tree1 literal_1_2_3_4 (by decide)).2.2.1⟩

/-- C16: the code at failing inputs.  In the older header the comparison of the node
`1(2, 3)` with the literal `9(2, 3)`, whose root value differs, and with the literal
`1(2, 9)`, whose right child differs, returns true: only the number of declared
children is tested.  The operator of the newer header returns false on both. -/
theorem operator_eq_temp_node_ignores_values :
    binary_node.operator_eq_temp_node tree1 literal_9_2_3 = true ∧
    binary_node.operator_eq_temp_node tree1 literal_1_2_9 = true ∧
    binary_node.operator_eq_struct_node tree1 literal_9_2_3 = false ∧
    binary_node.operator_eq_struct_node tree1 literal_1_2_9 = false := by
  decide

/-- C17: equality of binary nodes is reflexive when equality of values is: `x == x` is
true and `x != x` is false for every node `x`. -/
theorem operator_eq_is_reflexive [BEq α] (hrefl : ∀ v : α, (v == v) = true) (x : BTree α)
    (hx : x ≠ BTree.nil) :
    binary_node.operator_eq x x = true ∧ binary_node.operator_ne x x = false := by
  have h := operator_eq_refl hrefl x hx
  exact ⟨h, by simp [binary_node.operator_ne, h]⟩

/-- Witness of C17: `1(2, 3) == 1(2, 3)` on natural numbers. -/
theorem operator_eq_is_reflexive_witness :
    (∀ v : Nat, (v == v) = true) ∧ tree1 ≠ BTree.nil ∧
    binary_node.operator_eq tree1 tree1 = true ∧ binary_node.operator_ne tree1 tree1 = false :=
  ⟨fun v => by simp, by decide,
    operator_eq_is_reflexive (fun v => by simp) tree1 (by decide)⟩

/-- C18: equality of binary nodes is symmetric when equality of values is: `a == b`
and `b == a` return the same boolean, `a != b` is the negation of `a == b`, and
`literal == node` (`literal != node`) returns what `node == literal`
(`node != literal`) returns. -/
theorem operator_eq_is_symmetric [BEq α] (hsymm : ∀ u w : α, (u == w) = (w == u))
    (a b : BTree α) (s : struct_node α) :
    binary_node.operator_eq a b = binary_node.operator_eq b a ∧
    binary_node.operator_ne a b = !binary_node.operator_eq a b ∧
    binary_node.operator_ne a b = binary_node.operator_ne b a ∧
    binary_node.struct_node_eq s a = binary_node.operator_eq_struct_node a s ∧
    binary_node.struct_node_ne s a = binary_node.operator_ne_struct_node a s := by
  have h := operator_eq_symm hsymm a b
  exact ⟨h, rfl, by simp [binary_node.operator_ne, h], rfl, rfl⟩

/-- Witness of C18: `1(2, 3)` and the single node `1` on natural numbers. -/
theorem operator_eq_is_symmetric_witness :
    (∀ u w : Nat, (u == w) = (w == u)) ∧
    binary_node.operator_eq tree1 single = binary_node.operator_eq single tree1 :=
  ⟨fun _ _ => BEq.comm,
    (operator_eq_is_symmetric (fun _ _ => BEq.comm) tree1 single literal_1_2_3).1⟩

/-- Counterexample to C19 as stated: the constructor converts the values of the literal
to the value type of the node, and the comparison is made with the values as the
literal holds them.  The literal `n(300)` of an `int` is at most binary, and the
`binary_node<unsigned char>` constructed from it holds `44`, which compares unequal to
the literal from both sides. -/
theorem construction_from_wider_literal_is_unequal :
    (literal_leaf 300).at_most_binary ∧
    binary_node.from_struct_node to_unsigned_char (literal_leaf 300)
      = some (BTree.node BTree.nil 44 BTree.nil) ∧
    binary_node.operator_eq_convertible unsigned_char_eq_int
      (BTree.node BTree.nil 44 BTree.nil) (literal_leaf 300) = false ∧
    binary_node.struct_node_eq_convertible unsigned_char_eq_int (literal_leaf 300)
      (BTree.node BTree.nil 44 BTree.nil) = false :=
  ⟨by simp [literal_leaf, struct_node.at_most_binary, struct_children.at_most_binary,
      struct_children.count], by rfl, by rfl, by rfl⟩

/-- C19, amended: for a literal shape in which every node declares at most two children
and every value, converted to the value type of the node, compares equal to the value
it was converted from, the binary node constructed from the literal exists and
compares equal to it from both sides; it holds the converted value of the literal, its
left child is what is constructed from declared child 0 and its right child what is
constructed from declared child 1, an empty placeholder or an undeclared child
leaving the slot null. -/
theorem construction_from_literal_round_trips {β : Type} (convert : β → α)
    (equals : α → β → Bool) (s : struct_node β) (hs : s.at_most_binary)
    (hkept : s.values_kept convert equals) :
    ∃ left right,
      binary_node.from_struct_node convert s
        = some (BTree.node left (convert s.get_value) right) ∧
      binary_node.from_declared_child convert s.children 0 = some left ∧
      binary_node.from_declared_child convert s.children 1 = some right ∧
      SlotAgreesWith equals left (s.children.get_child 0) ∧
      SlotAgreesWith equals right (s.children.get_child 1) ∧
      binary_node.operator_eq_convertible equals
        (BTree.node left (convert s.get_value) right) s = true ∧
      binary_node.struct_node_eq_convertible equals s
        (BTree.node left (convert s.get_value) right) = true := by
  obtain ⟨t, ht⟩ := from_struct_node_defined convert s hs
  have heq := (from_struct_node_eq convert equals s t hkept ht).2
  cases s with
  | mk value children =>
    simp only [struct_node.get_value, struct_node.children]
    rw [struct_node.values_kept] at hkept
    have ht' := ht
    rw [binary_node.from_struct_node] at ht
    split at ht
    · simp at ht
    · split at ht
      · rename_i left right hleft hright
        simp at ht
        subst ht
        exact ⟨left, right, ht', hleft, hright,
          from_declared_child_eq convert equals children 0 left hkept.2 hleft,
          from_declared_child_eq convert equals children 1 right hkept.2 hright, heq, heq⟩
      · simp at ht

/-- Witness of C19: the literal `n(1)(n(), n(3))` of an `int` gives the
`binary_node<unsigned char>` `1(_, 3)`, its values being kept by the conversion. -/
theorem construction_from_literal_round_trips_witness :
    literal_1_none_3.at_most_binary ∧
    literal_1_none_3.values_kept to_unsigned_char unsigned_char_eq_int ∧
    ∃ left right,
      binary_node.from_struct_node to_unsigned_char literal_1_none_3
        = some (BTree.node left (to_unsigned_char literal_1_none_3.get_value) right) ∧
      binary_node.from_declared_child to_unsigned_char literal_1_none_3.children 0
        = some left ∧
      binary_node.from_declared_child to_unsigned_char literal_1_none_3.children 1
        = some right ∧
      SlotAgreesWith unsigned_char_eq_int left (literal_1_none_3.children.get_child 0) ∧
      SlotAgreesWith unsigned_char_eq_int right (literal_1_none_3.children.get_child 1) ∧
      binary_node.operator_eq_convertible unsigned_char_eq_int
        (BTree.node left (to_unsigned_char literal_1_none_3.get_value) right)
        literal_1_none_3 = true ∧
      binary_node.struct_node_eq_convertible unsigned_char_eq_int literal_1_none_3
        (BTree.node left (to_unsigned_char literal_1_none_3.get_value) right) = true :=
  ⟨by simp [literal_1_none_3, literal_leaf, struct_node.at_most_binary,
      struct_children.at_most_binary, struct_children.count],
    by simp [literal_1_none_3, literal_leaf, struct_node.values_kept,
      struct_children.values_kept, to_unsigned_char, unsigned_char_eq_int],
    construction_from_literal_round_trips to_unsigned_char unsigned_char_eq_int
      literal_1_none_3
      (by simp [literal_1_none_3, literal_leaf, struct_node.at_most_binary,
        struct_children.at_most_binary, struct_children.count])
      (by simp [literal_1_none_3, literal_leaf, struct_node.values_kept,
        struct_children.values_kept, to_unsigned_char, unsigned_char_eq_int])⟩

/-- C20: copy-constructing a binary node from a node `x` whose subtree is well formed
yields (given enough fuel) a deep copy: a new node that leads to the same tree as
`x`, value for value and slot for slot, that has no parent, in which the parent
pointer of every child is the address of the cloned node that holds it, and all of
whose nodes are newly allocated, so none is a node of the tree of `x`; the tree of
`x` is left as it was. -/
theorem copy_constructor_makes_deep_copy (m : Memory α) (x : Nat) (parent : Option Nat)
    (t : BTree α) (fuel : Nat) (hx : Represents m 0 (some x) parent t) (hfuel : t.count ≤ fuel) :
    ∃ m' y, binary_node.copy_construct fuel m x = some (m', y) ∧
      Represents m' m.length (some y) none t ∧
      Represents m' 0 (some x) parent t ∧
      (∀ a, a < m.length → m'[a]? = m[a]?) := by
  obtain ⟨m', hcopy, -, hframe, hlaid⟩ := copy_construct_spec t m x parent 0 fuel hx hfuel
  exact ⟨m', m.length, hcopy, laid_represents m' t _ _ _ _ _ hlaid (Nat.le_refl _),
    represents_frame m m' 0 hframe t _ _ hx, hframe⟩

/-- Witness of C20: the node `1(2, _)` stored at addresses 0 and 1 is copied to the
addresses 2 and 3. -/
theorem copy_constructor_makes_deep_copy_witness :
    Represents memory_1_2 0 (some 0) none (BTree.node (BTree.node BTree.nil 2 BTree.nil) 1 BTree.nil) ∧
    (BTree.node (BTree.node BTree.nil 2 BTree.nil) 1 BTree.nil).count ≤ 2 ∧
    ∃ m' y, binary_node.copy_construct 2 memory_1_2 0 = some (m', y) ∧
      Represents m' memory_1_2.length (some y) none
        (BTree.node (BTree.node BTree.nil 2 BTree.nil) 1 BTree.nil) ∧
      Represents m' 0 (some 0) none (BTree.node (BTree.node BTree.nil 2 BTree.nil) 1 BTree.nil) ∧
      (∀ a, a < memory_1_2.length → m'[a]? = memory_1_2[a]?) :=
  ⟨memory_1_2_represents, by decide,
    copy_constructor_makes_deep_copy memory_1_2 0 none _ 2 memory_1_2_represents (by decide)⟩


/-- C21: after move-constructing a binary node from a source node, the source has no
parent, no left child and no right child, whatever links it had before; only its
value is left in it. -/
theorem move_construct_unlinks_source (m : Memory α) (s : Nat) (o : node_object α)
    (h : m[s]? = some o) :
    ∃ m' d, binary_node.move_construct m s = some (m', d) ∧
      m'[s]? = some { value := o.value, parent := none, left := none, right := none } := by
  have hs : s ≠ m.length := Nat.ne_of_lt (get_some_lt m s o h)
  refine ⟨_, _, move_construct_eq m s o h, ?_⟩
  apply move_resources_to_source
  exact ⟨o, by rw [get_append_new]; simp [hs, h], rfl⟩

/-- Witness of C21: the node at address 1 of `memory_parent_source`, which has a parent
and a left child, has no link left after it was moved from. -/
theorem move_construct_unlinks_source_witness :
    ∃ m' d, binary_node.move_construct memory_parent_source 1 = some (m', d) ∧
      m'[1]? = some { value := 2, parent := none, left := none, right := none } :=
  move_construct_unlinks_source memory_parent_source 1
    { value := 2, parent := some 0, left := some 3, right := none } rfl

/-- C22: after move-constructing a binary node `d` from a source `s` none of whose
links points to `s` itself, `d` is a new object with the value and the `left` and
`right` pointers `s` had; every child `c` of `s` has the parent pointer `d`, its value
as before and, unless it is also the parent of `s`, its children as before; the parent
`p` of `s`, if there is one, holds `d` in every slot that held `s` and what it held
before in the other; every other object is as it was. -/
theorem move_construct_relinks_neighbours (m : Memory α) (s : Nat) (o : node_object α)
    (h : m[s]? = some o) (hp : o.parent ≠ some s) (hl : o.left ≠ some s)
    (hr : o.right ≠ some s) :
    ∃ m' d, binary_node.move_construct m s = some (m', d) ∧ d = m.length ∧
      (∃ od, m'[d]? = some od ∧ od.value = o.value ∧ od.left = o.left ∧ od.right = o.right) ∧
      (∀ c oc, o.left = some c ∨ o.right = some c → m[c]? = some oc →
        ∃ oc', m'[c]? = some oc' ∧ oc'.parent = some d ∧ oc'.value = oc.value ∧
          (o.parent ≠ some c → oc'.left = oc.left ∧ oc'.right = oc.right)) ∧
      (∀ p op, o.parent = some p → m[p]? = some op →
        ∃ op', m'[p]? = some op' ∧ op'.value = op.value ∧
          op'.left = (if op.left = some s then some d else op.left) ∧
          op'.right = (if op.right = some s then some d else op.right)) ∧
      (∀ a, a < m.length → a ≠ s → o.parent ≠ some a → o.left ≠ some a → o.right ≠ some a →
        m'[a]? = m[a]?) := by
  have hs : s ≠ m.length := Nat.ne_of_lt (get_some_lt m s o h)
  have hs' : m.length ≠ s := fun e => hs e.symm
  have hM : (m ++ [{ value := o.value, parent := none, left := o.left, right := o.right }])[s]?
      = some o := by
    rw [get_append_new]; simp [hs, h]
  refine ⟨_, _, move_construct_eq m s o h, rfl, ?_, ?_, ?_, ?_⟩
  · rw [move_resources_to_other _ s m.length m.length o hM hp hl hs', get_append_new]
    by_cases h1 : o.right = some m.length <;> by_cases h2 : o.left = some m.length <;>
      by_cases h3 : o.parent = some m.length <;>
      simp [h1, h2, h3, node_object.repoint, hl, hr, hs']
  · intro c oc hc hmc
    have hcs : c ≠ s := by
      rintro rfl
      rcases hc with hc | hc
      · exact hl hc
      · exact hr hc
    have hcl : c ≠ m.length := Nat.ne_of_lt (get_some_lt m c oc hmc)
    rw [move_resources_to_other _ s m.length c o hM hp hl hcs, get_append_new]
    by_cases h1 : o.right = some c <;> by_cases h2 : o.left = some c <;>
      by_cases h3 : o.parent = some c <;>
      simp [h1, h2, h3, node_object.repoint, hcl, hmc] <;> simp_all
  · intro p op hpp hmp
    have hps : p ≠ s := by
      rintro rfl
      exact hp hpp
    have hpl : p ≠ m.length := Nat.ne_of_lt (get_some_lt m p op hmp)
    rw [move_resources_to_other _ s m.length p o hM hp hl hps, get_append_new]
    by_cases h1 : o.right = some p <;> by_cases h2 : o.left = some p <;>
      simp [h1, h2, hpp, node_object.repoint, hpl, hmp]
  · intro a ha has h1 h2 h3
    have hal : a ≠ m.length := Nat.ne_of_lt ha
    rw [move_resources_to_other _ s m.length a o hM hp hl has, get_append_new]
    simp [h1, h2, h3, hal]

/-- Witness of C22: moving the node at address 1 of `memory_parent_source` gives a node
at address 4 with the left child 3, whose parent pointer is 4, and the root holds 4 in
its left slot and 2, as before, in its right slot. -/
theorem move_construct_relinks_neighbours_witness :
    ∃ m' d, binary_node.move_construct memory_parent_source 1 = some (m', d) ∧ d = 4 ∧
      (∃ od, m'[d]? = some od ∧ od.value = 2 ∧ od.left = some 3 ∧ od.right = none) ∧
      (∃ oc, m'[3]? = some oc ∧ oc.parent = some d) ∧
      (∃ op, m'[0]? = some op ∧ op.left = some d ∧ op.right = some 2) := by
  obtain ⟨m', d, hm, hd, hod, hc, hp, _⟩ := move_construct_relinks_neighbours
    memory_parent_source 1 { value := 2, parent := some 0, left := some 3, right := none } rfl
    (by decide) (by decide) (by decide)
  refine ⟨m', d, hm, hd, hod, ?_, ?_⟩
  · obtain ⟨oc, h1, h2, _⟩ := hc 3 { value := 4, parent := some 1, left := none, right := none }
      (Or.inl rfl) rfl
    exact ⟨oc, h1, h2⟩
  · obtain ⟨op, h1, _, h2, h3⟩ := hp 0
      { value := 1, parent := none, left := some 1, right := some 2 } rfl rfl
    exact ⟨op, h1, by simpa using h2, by simpa using h3⟩

/-- C23, which the code does not meet: the claim gives the moved-to node the parent of
the source.  Moving the node at address 1 of `memory_parent_source`, the left child of
the root, makes the node at address 4; the root holds 4 in its left slot and the
parent pointer of the node at address 4 is null. -/
theorem move_construct_leaves_destination_parentless :
    binary_node.move_construct memory_parent_source 1 = some (
      [{ value := 1, parent := none, left := some 4, right := some 2 },
        { value := 2, parent := none, left := none, right := none },
        { value := 3, parent := some 0, left := none, right := none },
        { value := 4, parent := some 4, left := none, right := none },
        { value := 2, parent := none, left := some 3, right := none }], 4) := rfl

/-- C24: `attach` with a null child fails its assertion; with a child that is a node
it returns the memory in which the parent pointer of that child is the attaching node
and everything else is as before, together with the same child. -/
theorem attach_sets_parent_of_child_only (m : Memory α) (this n : Nat) (o : node_object α)
    (h : m[n]? = some o) :
    binary_node.attach m this none = none ∧
    ∃ m', binary_node.attach m this (some n) = some (m', n) ∧
      m'[n]? = some { o with parent := some this } ∧
      m'.length = m.length ∧
      ∀ a, a ≠ n → m'[a]? = m[a]? := by
  refine ⟨rfl, _, rfl, ?_, ?_, ?_⟩
  · rw [write_get, h]; simp
  · exact write_length m n _
  · intro a ha
    rw [write_get, if_neg ha]

/-- Witness of C24: the node at address 2 of `memory_parent_source` attaches the node
at address 3. -/
theorem attach_sets_parent_of_child_only_witness :
    binary_node.attach memory_parent_source 2 none = none ∧
    ∃ m', binary_node.attach memory_parent_source 2 (some 3) = some (m', 3) ∧
      m'[3]? = some { value := 4, parent := some 2, left := none, right := none } ∧
      m'.length = memory_parent_source.length ∧
      ∀ a, a ≠ 3 → m'[a]? = memory_parent_source[a]? :=
  attach_sets_parent_of_child_only memory_parent_source 2 3
    { value := 4, parent := some 1, left := none, right := none } rfl

/-- Counterexample to C25 as stated: in `memory_1_2` the node `a` at address 1 has the
parent `p` at address 0, which has no parent and is not `a`, so `p` may be taken for
`b`.  After `a.replace_with(p)` the left child of `b` is no longer `a` but `b` itself:
the children of `b` are not unchanged. -/
theorem replace_with_parent_changes_its_children :
    memory_1_2[1]? = some { value := 2, parent := some 0, left := none, right := none } ∧
    memory_1_2[0]? = some { value := 1, parent := none, left := some 1, right := none } ∧
    (binary_node.replace_with memory_1_2 1 0)[0]?
      = some { value := 1, parent := some 0, left := some 0, right := none } :=
  ⟨rfl, rfl, rfl⟩

/-- C25, amended: for a node `a` with the parent `p`, `p` not `a`, and a node `b`
that is neither `a` nor `p`, after `a.replace_with(b)` every slot of `p` that held
`a` holds `b` and the other slot is as before, the parent of `b` is `p`, the parent of
`a` is null, the value and the children of `a` and of `b` and every other object are
unchanged; when `a` has no parent the call changes nothing. -/
theorem replace_with_substitutes_node (m : Memory α) (a b : Nat) (oa : node_object α)
    (ha : m[a]? = some oa) :
    (oa.parent = none → binary_node.replace_with m a b = m) ∧
    ∀ p op ob, oa.parent = some p → m[p]? = some op → m[b]? = some ob →
      p ≠ a → b ≠ a → b ≠ p →
      (binary_node.replace_with m a b)[p]? = some (op.repoint a b) ∧
      (binary_node.replace_with m a b)[b]? = some { ob with parent := some p } ∧
      (binary_node.replace_with m a b)[a]? = some { oa with parent := none } ∧
      ∀ x, x ≠ p → x ≠ b → x ≠ a → (binary_node.replace_with m a b)[x]? = m[x]? := by
  constructor
  · intro hp
    simp [binary_node.replace_with, ha, hp]
  · intro p op ob hpa hmp hmb hpa' hba hbp
    have hpb : p ≠ b := fun e => hbp e.symm
    have hab : a ≠ b := fun e => hba e.symm
    have hap : a ≠ p := fun e => hpa' e.symm
    have h1 : (m.write b (fun o => { o with parent := some p }))[a]? = some oa := by
      rw [write_get, if_neg hab, ha]
    rw [replace_with_eq m a b p (by simp [ha, hpa])]
    refine ⟨?_, ?_, ?_, ?_⟩
    · rw [write_get, if_neg hpa', move_parent_links_get, h1, write_get, if_neg hpb, hmp]
      simp [hpa]
    · rw [write_get, if_neg hba, move_parent_links_get, h1, write_get, hmb]
      simp [hpa, hpb]
    · rw [write_get, move_parent_links_get, h1]
      simp [hpa, hap, hpa']
    · intro x hxp hxb hxa
      rw [write_get, if_neg hxa, move_parent_links_get, h1, write_get, if_neg hxb]
      simp [hpa, Ne.symm hxp]

/-- Witness of C25, amended: in `memory_with_spare` the left child of the root, at
address 1, is replaced with the parentless node at address 3. -/
theorem replace_with_substitutes_node_witness :
    (binary_node.replace_with memory_with_spare 1 3)[0]?
      = some { value := 1, parent := none, left := some 3, right := some 2 } ∧
    (binary_node.replace_with memory_with_spare 1 3)[3]?
      = some { value := 9, parent := some 0, left := none, right := none } ∧
    (binary_node.replace_with memory_with_spare 1 3)[1]?
      = some { value := 2, parent := none, left := none, right := none } ∧
    (binary_node.replace_with memory_with_spare 1 3)[2]? = memory_with_spare[2]? :=
  have h := (replace_with_substitutes_node memory_with_spare 1 3
    { value := 2, parent := some 0, left := none, right := none } rfl).2 0
    { value := 1, parent := none, left := some 1, right := some 2 }
    { value := 9, parent := none, left := none, right := none } rfl rfl rfl
    (by decide) (by decide) (by decide)
  ⟨h.1, h.2.1, h.2.2.1, h.2.2.2 2 (by decide) (by decide) (by decide)⟩

/-- C26, which the code does not meet: the claim leaves the parent with the child list
without `x`, bounded by its first and last child pointers.  In `nary_1_2_3` the parent
at address 0 has the children 1 and 2; after `unlink` of the last child, at address
2, the first child pointer of the parent is 1 and its last child pointer is null: the
list walked from the first child is `[1]`, the list walked from the last child is
empty. -/
theorem unlink_of_last_child_loses_last_child :
    ∃ m', node.unlink nary_1_2_3 2 = Except.ok m' ∧
      (m'[0]?).bind (fun o => o.first_child) = some 1 ∧
      (m'[0]?).bind (fun o => o.last_child) = none ∧
      children_forward m' 3 ((m'[0]?).bind (fun o => o.first_child)) = [1] ∧
      children_backward m' 3 ((m'[0]?).bind (fun o => o.last_child)) = [] :=
  ⟨_, rfl, rfl, rfl, rfl, rfl⟩

/-- Counterexample to C27 as stated: in `nary_1_2_3` the node at address 1 has the
following sibling at address 2; destroying the node at address 1 destroys the node at
address 2 as well. -/
theorem destructor_destroys_following_sibling :
    node.destructor 3 nary_1_2_3 1 = Except.ok [2, 1] := rfl

/-- C27, amended: destroying an n-ary node `x` of a well-formed tree destroys exactly
`x`, its descendants, and the siblings that follow `x` with their descendants; no
ancestor and no preceding sibling of `x` is destroyed.  Fuel above the number of these
nodes suffices. -/
theorem destructor_destroys_node_descendants_and_following (m : NaryMemory α)
    (root : Option Nat) (s : Siblings) (x : Nat) (hl : Linked m root s)
    (hn : s.addresses.Nodup) (hx : x ∈ s.addresses) :
    ∃ children following, s.from_node x = Siblings.cons x children following ∧
      (∀ fuel, (s.from_node x).size < fuel →
        node.destructor fuel m x
          = Except.ok (following.addresses ++ children.addresses ++ [x])) ∧
      (∀ a, a ∈ s.before_node x → a ∉ following.addresses ++ children.addresses ++ [x]) := by
  obtain ⟨ch, fo, hxs⟩ := from_node_cons x s hx
  refine ⟨ch, fo, hxs, ?_, ?_⟩
  · intro fuel hf
    have := destructor_of_linked m _ _ (linked_from_node m x s root hl hx) fuel hf
    rw [hxs] at this
    exact this
  · intro a ha
    have := before_node_disjoint x s hn a ha
    rw [hxs] at this
    exact this

/-- Witness of C27, amended: the first child of the root of `nary_1_2_3`. -/
theorem destructor_destroys_node_descendants_and_following_witness :
    ∃ children following,
      siblings_1_2_3.from_node 1 = Siblings.cons 1 children following ∧
      (∀ fuel, (siblings_1_2_3.from_node 1).size < fuel →
        node.destructor fuel nary_1_2_3 1
          = Except.ok (following.addresses ++ children.addresses ++ [1])) ∧
      (∀ a, a ∈ siblings_1_2_3.before_node 1 →
        a ∉ following.addresses ++ children.addresses ++ [1]) :=
  destructor_destroys_node_descendants_and_following nary_1_2_3 (some 0) siblings_1_2_3 1
    ⟨rfl, _, rfl, ⟨rfl, _, rfl, rfl, ⟨rfl, _, rfl, rfl, rfl⟩⟩, rfl⟩ (by decide) (by decide)

/-- C28: for every non-empty binary tree, `go_last(root)` is the last node of the
pre-order listing, `decrement(root)` is the end, `decrement` undoes every `increment`
that does not reach the end, and the sequence `go_last(root)`,
`decrement(go_last(root))`, ... is the pre-order listing reversed. -/
theorem pre_order_decrement_mirrors_increment (t : BTree α) (h : t ≠ BTree.nil) :
    pre_order_impl.go_last t [] = t.preorder.getLast? ∧
    pre_order_impl.decrement t [] = none ∧
    (∀ n m : NodePtr, t.subtree n ≠ BTree.nil → pre_order_impl.increment t n = some m →
      pre_order_impl.decrement t m = some n) ∧
    (∀ fuel : Nat, t.count < fuel →
      policy_walk (pre_order_impl.decrement t) fuel (pre_order_impl.go_last t [])
        = t.preorder.reverse) := by
  have hc := chained_preorder t t [] rfl h
  rw [cross_root] at hc
  have hp := preceded_preorder t t [] rfl h
  have hlast := getLast_preorder t [] h
  have hd : pre_order_impl.decrement t [] = none := rfl
  rw [hd] at hp
  simp only [List.append_nil, List.map_id'] at hc hp hlast
  refine ⟨hlast.symm, hd, ?_, ?_⟩
  · intro n m hn hm
    exact mirror_of_chains (pre_order_impl.increment t) (pre_order_impl.decrement t)
      t.preorder none hc hp n ((mem_preorder t n).mpr hn) m hm
  · intro fuel hf
    have hr := followed_reverse_of_preceded _ _ hp
    have hlast' : t.preorder.reverse.head? = some (keep_calling_get_last_child t []) := by
      rw [List.head?_reverse, hlast]
    cases hrev : t.preorder.reverse with
    | nil => rw [hrev] at hlast'; simp at hlast'
    | cons a l =>
      rw [hrev] at hlast' hr
      simp only [List.head?_cons, Option.some.injEq] at hlast'
      subst hlast'
      have hlen' : l.length + 1 < fuel := by
        have := congrArg List.length hrev
        rw [List.length_reverse, length_preorder] at this
        simp only [List.length_cons] at this
        omega
      exact policy_walk_of_followed _ l _ fuel hr hlen'

/-- Witness of C28: the tree `1(2, 3)` is visited backwards as right child, left child,
root. -/
theorem pre_order_decrement_mirrors_increment_witness :
    tree1 ≠ BTree.nil ∧
    policy_walk (pre_order_impl.decrement tree1) 4 (pre_order_impl.go_last tree1 [])
      = [[Slot.right], [Slot.left], []] :=
  ⟨by decide, (pre_order_decrement_mirrors_increment tree1 (by decide)).2.2.2 4 (by decide)⟩

/-- C29: for every non-empty binary tree, `go_first(root)` followed by repeated
`increment` lists every node exactly once in post-order; it starts at the leaf reached
from the root by repeatedly taking the first child; `increment` of a node with a
parent is the parent exactly when the node is the last child of its parent, and
otherwise the first node in post-order below the right sibling; `go_last(root)` is
the root and `increment(root)` is the end. -/
theorem post_order_increment_lists_postorder (t : BTree α) (h : t ≠ BTree.nil) :
    post_order.go_first t [] = t.postorder.head? ∧
    (∀ fuel : Nat, t.count < fuel →
      policy_walk (post_order.increment t) fuel (post_order.go_first t []) = t.postorder) ∧
    t.postorder.Nodup ∧
    (∀ n : NodePtr, n ∈ t.postorder ↔ t.subtree n ≠ BTree.nil) ∧
    (∃ first, post_order.go_first t [] = some first ∧ get_first_child t first = none ∧
      ∃ k, (fun n : Option NodePtr => n.bind (get_first_child t))^[k] (some []) = some first) ∧
    (∀ (s : Slot) (p : NodePtr), t.subtree (s :: p) ≠ BTree.nil →
      (post_order.increment t (s :: p) = some p ↔ get_last_child t p = some (s :: p)) ∧
      (get_last_child t p ≠ some (s :: p) →
        post_order.increment t (s :: p)
          = ((t.subtree (Slot.right :: p)).postorder.map
              (fun q => q ++ Slot.right :: p)).head?)) ∧
    post_order.go_last [] = some [] ∧
    post_order.increment t [] = none := by
  have hf := followed_postorder t t [] rfl h
  have hhead := head_postorder t [] h
  have hi : post_order.increment t [] = none := rfl
  rw [hi] at hf
  simp only [List.append_nil, List.map_id'] at hf hhead
  have hperm := postorder_perm_preorder t
  refine ⟨hhead.symm, ?_, ?_, ?_, ?_, ?_, rfl, hi⟩
  · intro fuel hfuel
    cases hpo : t.postorder with
    | nil => rw [hpo] at hhead; simp at hhead
    | cons a l =>
      rw [hpo] at hhead hf
      simp only [List.head?_cons, Option.some.injEq] at hhead
      subst hhead
      have hlen : l.length + 1 < fuel := by
        have := hperm.length_eq
        rw [length_preorder, hpo] at this
        simp only [List.length_cons] at this
        omega
      exact policy_walk_of_followed _ l _ fuel hf hlen
  · exact hperm.nodup_iff.mpr (nodup_preorder t)
  · intro n
    rw [hperm.mem_iff]
    exact mem_preorder t n
  · obtain ⟨hk, hleaf⟩ := descent_first_child_reached t t [] rfl h
    exact ⟨_, rfl, hleaf, hk⟩
  · intro s p hs
    have hs' : (t.subtree (s :: p)).isNil = false := by
      cases hx : t.subtree (s :: p) with
      | nil => exact absurd hx hs
      | node _ _ _ => rfl
    cases s with
    | right =>
      have hlc : get_last_child t p = some (Slot.right :: p) := by
        simp [get_last_child, get_right, hs']
      exact ⟨⟨fun _ => hlc, fun _ => post_increment_right t p hs'⟩, fun hne => absurd hlc hne⟩
    | left =>
      cases hr : (t.subtree (Slot.right :: p)).isNil with
      | true =>
        have hlc : get_last_child t p = some (Slot.left :: p) := by
          simp [get_last_child, get_right, get_left, hs', hr]
        exact ⟨⟨fun _ => hlc, fun _ => post_increment_left_only t p hs' hr⟩,
          fun hne => absurd hlc hne⟩
      | false =>
        have hlc : get_last_child t p = some (Slot.right :: p) := by
          simp [get_last_child, get_right, hr]
        have hinc := post_increment_left t p hr
        have hrn : t.subtree (Slot.right :: p) ≠ BTree.nil := by
          intro hx; rw [hx] at hr; simp [BTree.isNil] at hr
        refine ⟨⟨?_, ?_⟩, ?_⟩
        · intro hcontra
          rw [hinc] at hcontra
          obtain ⟨q, hq⟩ := descent_first_child_suffix (t.subtree (Slot.right :: p))
            (Slot.right :: p)
          rw [hq] at hcontra
          simp only [Option.some.injEq] at hcontra
          have := congrArg List.length hcontra
          simp at this
          omega
        · intro hcontra
          rw [hlc] at hcontra
          simp at hcontra
        · intro _
          rw [hinc, head_postorder _ _ hrn]

/-- Witness of C29: the tree `1(2, 3)` is visited as left child, right child, root. -/
theorem post_order_increment_lists_postorder_witness :
    tree1 ≠ BTree.nil ∧
    policy_walk (post_order.increment tree1) 4 (post_order.go_first tree1 [])
      = [[Slot.left], [Slot.right], []] :=
  ⟨by decide, (post_order_increment_lists_postorder tree1 (by decide)).2.1 4 (by decide)⟩


/-- C30: the flag `matches_null` of an `any_matcher` is true exactly when it is true
for every one of its children, whatever the quantifier, the value matcher and the
target are; a childless `any_matcher` has it true. -/
theorem matches_null_iff_children_match_null (q : quantifier) (value : α → Bool)
    (target : Option NodePtr) (cs : List (Matcher α)) :
    ((Matcher.any_matcher q value target cs).matches_null = true
      ↔ ∀ c, c ∈ cs → c.matches_null = true) ∧
    (Matcher.any_matcher q value target []).matches_null = true := by
  constructor
  · simp only [Matcher.matches_null]
    exact all_match_null_iff cs
  · simp [Matcher.matches_null, Matcher.all_match_null]

/-- C31: `do_match(child)` is a first-match scan.  With the cursor exhausted it returns
the `matches_null` flag of the child and leaves every captured variable as it was.
With the cursor on a node of the scope, and fuel above the size of the tree, the
scoped pre-order sequence from the cursor ends within the fuel and `do_match` is the
scan of that sequence: it returns true exactly when the child matches one of its
nodes, the child is the child after its match of the first such node (and `match_node`
makes that node its target), `subtree_cut` is that node and the cursor is its
successor under the new cut; when no node is matched the cursor is exhausted and
`subtree_cut` is unchanged.  The attempt-start of the child becomes the cursor node
when it was null and is left alone otherwise. -/
theorem do_match_is_first_match_scan (child_match : ChildMatch α) (t : BTree α)
    (value : α → Bool) (root : NodePtr) (fuel index : Nat) (st : MatchState α)
    (child : Matcher α) (hchild : st.children.get? index = some child) :
    (st.target_it = none →
      do_match child_match t value root fuel index st = some (child.matches_null, st)) ∧
    (∀ current, st.target_it = some current → t.subtree current ≠ BTree.nil →
      (∃ q, current = q ++ root) → t.count < fuel →
      (policy_walk (nav_increment t value root st.subtree_cut) fuel (some current)).length < fuel ∧
      do_match child_match t value root fuel index st
        = match first_match_scan child_match child
            (policy_walk (nav_increment t value root st.subtree_cut) fuel (some current)) with
          | none => none
          | some (some n, child') =>
            some (true,
              { children := st.children.set index child'
                subtree_cut := some n
                match_attempt_begin :=
                  if (st.match_attempt_begin.getD index none).isNone then
                    st.match_attempt_begin.set index (some current)
                  else st.match_attempt_begin
                target_it := nav_increment t value root (some n) n })
          | some (none, child') =>
            some (false,
              { children := st.children.set index child'
                subtree_cut := st.subtree_cut
                match_attempt_begin :=
                  if (st.match_attempt_begin.getD index none).isNone then
                    st.match_attempt_begin.set index (some current)
                  else st.match_attempt_begin
                target_it := none })) ∧
    (∀ (fuel' : Nat) (c : Matcher α) (n : NodePtr) (c' : Matcher α),
      match_node t fuel' c (some n) = some (true, c') → c'.get_node = some n) := by
  refine ⟨?_, ?_, ?_⟩
  · intro h
    simp only [do_match, hchild, h]
  · intro current hcur hvalid hscope hfuel
    have hlen : (policy_walk (nav_increment t value root st.subtree_cut) fuel
        (some current)).length < fuel := by
      have := scoped_walk_length t value root st.subtree_cut fuel current hvalid hscope
      omega
    refine ⟨hlen, ?_⟩
    simp only [do_match, hchild, hcur]
    cases hb : (st.match_attempt_begin.getD index none).isNone with
    | true =>
      simp only [if_true]
      have h1 := do_match_loop_scan child_match t value root index fuel
        { st with match_attempt_begin := st.match_attempt_begin.set index (some current) }
        child hchild (by simpa [hcur] using hlen)
      simp only [hcur] at h1
      exact h1
    | false =>
      simp only [Bool.false_eq_true, if_false]
      have h1 := do_match_loop_scan child_match t value root index fuel st child hchild
        (by simpa [hcur] using hlen)
      simp only [hcur] at h1
      exact h1
  · intro fuel' c n c' h
    exact match_node_claims_target t fuel' c n c' h

/-- Witness of C31: on `1(2, 3)` the child `star(3)` is tried on the root, on the left
child and on the right child, which it claims; its attempt-start is the root. -/
theorem do_match_is_first_match_scan_witness :
    do_match (fun child current => match_node tree1 2 child (some current)) tree1
        true_matcher [] 4 0 scan_state
      = some (true,
        { children := [Matcher.any_matcher quantifier.DEFAULT (equal_to 3) (some [Slot.right]) []]
          subtree_cut := some [Slot.right]
          match_attempt_begin := [some [], none]
          target_it := none }) :=
  ((do_match_is_first_match_scan
    (fun child current => match_node tree1 2 child (some current)) tree1 true_matcher [] 4 0
    scan_state (star quantifier.DEFAULT (equal_to 3)) rfl).2.1 [] rfl (by decide) ⟨[], rfl⟩
    (by decide)).2.trans rfl

/-- C32: `do_rematch(child)` returns false when the child holds no target.  When the
child holds a target past which the cursor cannot be advanced, it returns true and
puts the cursor on the recorded attempt-start of the child if the child matches null,
and returns false, with the cursor exhausted, if the child does not match null.  In
each case `subtree_cut` is null afterwards and nothing else changes. -/
theorem do_rematch_fails_or_renounces (child_match : ChildMatch α) (t : BTree α)
    (value : α → Bool) (root : NodePtr) (fuel index : Nat) (st : MatchState α)
    (child : Matcher α) (hchild : st.children.get? index = some child) :
    (child.get_node = none →
      do_rematch child_match t value root fuel index st
        = some (false, { st with subtree_cut := none })) ∧
    (∀ node, child.get_node = some node →
      go_depth_first_ramification t value root none node = none →
      (child.matches_null = true →
        do_rematch child_match t value root fuel index st
          = some (true, { st with
              subtree_cut := none
              target_it := st.match_attempt_begin.getD index none })) ∧
      (child.matches_null = false →
        do_rematch child_match t value root fuel index st
          = some (false, { st with subtree_cut := none, target_it := none }))) := by
  refine ⟨?_, ?_⟩
  · intro h
    simp only [do_rematch, hchild, h]
  · intro node hnode hstuck
    have hchild' : st.children[index]? = some child := by
      rw [← List.get?_eq_getElem?]; exact hchild
    refine ⟨?_, ?_⟩
    · intro hnull
      simp [do_rematch, hchild', hnode, hstuck, hnull]
    · intro hnull
      simp [do_rematch, hchild', hnode, hstuck, hnull]

/-- Witness of C32: on the single node the child `star()` holds the root, which has no
successor; it renounces and the cursor goes back to the root, where it began. -/
theorem do_rematch_fails_or_renounces_witness :
    do_rematch (fun child current => match_node single 3 child (some current)) single
        true_matcher [] 3 0 renounce_state
      = some (true, { renounce_state with subtree_cut := none, target_it := some [] }) :=
  ((do_rematch_fails_or_renounces
    (fun child current => match_node single 3 child (some current)) single true_matcher [] 3 0
    renounce_state (Matcher.any_matcher quantifier.DEFAULT true_matcher (some []) []) rfl).2
    [] rfl rfl).1 rfl

/-- C33: for a DEFAULT `any_matcher` with children, `CHILDREN_MAY_STEAL_TARGET` and a
target, the result is the result of the first child, in declaration order, whose
target is the target of the matcher; no clone of the matcher's own node is made. -/
theorem default_result_is_result_of_first_child_on_own_target (gen : Reconstruction α)
    (t : BTree α) (fuel : Nat) (value : α → Bool) (node : NodePtr)
    (before : List (Matcher α)) (child : Matcher α) (following : List (Matcher α))
    (hsteal : CHILDREN_MAY_STEAL_TARGET (before ++ child :: following) = true)
    (hchild : child.get_node = some node)
    (hbefore : ∀ c, c ∈ before → c.get_node ≠ some node) :
    (any_matcher quantifier.DEFAULT value (some node) (before ++ child :: following)).result
        gen t fuel
      = child.result gen t fuel := by
  have hne : (before ++ child :: following).isEmpty = false := by
    cases before <;> rfl
  simp only [Matcher.result, hne, hsteal, Bool.false_eq_true, if_false,
    steal_target_first gen t fuel node child following hchild before hbefore]

/-- Witness of C33: `star()(star(), one(1), star())` matches the single node `1` and
its result is the single node `1`, the result of its first child; with the first
child on another node, as after a match of `1(2, 3)`, it is the result of the second
child. -/
theorem default_result_is_result_of_first_child_on_own_target_witness :
    star_star_one_star.match_tree 5 single
      = some (true,
        { pattern_tree := any_matcher quantifier.DEFAULT true_matcher (some [])
            [any_matcher quantifier.DEFAULT true_matcher (some []) [],
              one_matcher (equal_to 1) (some []),
              any_matcher quantifier.DEFAULT true_matcher none []]
          captures := [] }) ∧
    (any_matcher quantifier.DEFAULT true_matcher (some [])
        ([] ++ any_matcher quantifier.DEFAULT true_matcher (some []) []
          :: [one_matcher (equal_to 1) (some []),
            any_matcher quantifier.DEFAULT true_matcher none []])).result
        no_reconstruction single 5
      = Except.ok single ∧
    (any_matcher quantifier.DEFAULT true_matcher (some [])
        ([any_matcher quantifier.DEFAULT true_matcher (some [Slot.right]) []]
          ++ one_matcher (equal_to 1) (some [])
            :: [any_matcher quantifier.DEFAULT true_matcher none []])).result
        no_reconstruction tree1 5
      = Except.ok single :=
  ⟨rfl,
    (default_result_is_result_of_first_child_on_own_target no_reconstruction single 5
      true_matcher [] [] (any_matcher quantifier.DEFAULT true_matcher (some []) [])
      [one_matcher (equal_to 1) (some []), any_matcher quantifier.DEFAULT true_matcher none []]
      rfl rfl (by intro c hc; simp at hc)).trans rfl,
    (default_result_is_result_of_first_child_on_own_target no_reconstruction tree1 5
      true_matcher [] [any_matcher quantifier.DEFAULT true_matcher (some [Slot.right]) []]
      (one_matcher (equal_to 1) (some []))
      [any_matcher quantifier.DEFAULT true_matcher none []] rfl rfl
      (by intro c hc; simp at hc; subst hc; simp [get_node])).trans rfl⟩

/-- C34, which the code does not meet: the claim has the reconstruction of a RELUCTANT
matcher with children never dereference an absent node.
`star<RELUCTANT>()(one(2), star())` matches `1(2, _)` with the second child on no
node, and `star<RELUCTANT>()(star(), star())` matches the single node `1` with the
first child on the node of the matcher itself; in both cases the reconstruction
dereferences a null pointer. -/
theorem reluctant_reconstruction_dereferences_null (gen : Reconstruction Nat) :
    (∃ p' first second,
      reluctant_over_one_star.match_tree 3 tree_left = some (true, p') ∧
      p'.pattern_tree.children = [first, second] ∧
      first.get_node = some [Slot.left] ∧
      second.get_node = none ∧
      p'.assign_result gen 3 tree_left = Except.error Fault.null_dereference) ∧
    (∃ p' first second,
      reluctant_over_stars.match_tree 3 single = some (true, p') ∧
      p'.pattern_tree.get_node = some [] ∧
      p'.pattern_tree.children = [first, second] ∧
      first.get_node = some [] ∧
      p'.assign_result gen 3 single = Except.error Fault.null_dereference) :=
  ⟨⟨_, _, _, rfl, rfl, rfl, rfl, rfl⟩, ⟨_, _, _, rfl, rfl, rfl, rfl, rfl⟩⟩

/-- C35: a GREEDY `any_matcher` with at least one child materialises an empty result,
whatever it and its children target. -/
theorem greedy_with_children_result_is_empty (gen : Reconstruction α) (tree : BTree α)
    (fuel : Nat) (value : α → Bool) (target_node : Option NodePtr) (child : Matcher α)
    (following : List (Matcher α)) :
    (any_matcher quantifier.GREEDY value target_node (child :: following)).result gen tree fuel
      = Except.ok BTree.nil := by
  cases target_node <;> simp [Matcher.result]

/-- C36, which the code does not meet: the claim puts `n` in the place of `x` with `x`
as its only child.  In `nary_with_fresh` the node `x` at address 1 is the first child
of the node at address 0, and `n` at address 3 is fresh.  After `x.insert(n)` the
first child of `n` is `n` itself, the first child of the former parent is still `x`,
and the parent of `x` is `n`. -/
theorem insert_makes_node_its_own_child :
    (node.insert nary_with_fresh 1 3)[3]?
      = some { value := 9, parent := some 0, prev_sibling := none, next_sibling := some 2,
               first_child := some 3, last_child := some 1 } ∧
    (node.insert nary_with_fresh 1 3)[0]?
      = some { value := 1, parent := none, prev_sibling := none, next_sibling := none,
               first_child := some 1, last_child := some 2 } ∧
    (node.insert nary_with_fresh 1 3)[1]?
      = some { value := 2, parent := some 3, prev_sibling := none, next_sibling := none,
               first_child := none, last_child := none } :=
  ⟨rfl, rfl, rfl⟩

/-- C37, which the code does not meet: the claim has `is_unique_child` true for the
only child of a parent.  The method compares the node with its own first and last
child, so it is false for every node of every tree; in `1(2, _)` the left child of
the root has a parent, is its first and its last child, and `is_unique_child` is
false on it. -/
theorem is_unique_child_is_always_false :
    (∀ (β : Type) (t : BTree β) (n : NodePtr), is_unique_child t n = false) ∧
    get_parent [Slot.left] = some [] ∧
    get_first_child (BTree.node (BTree.node BTree.nil 2 BTree.nil) 1 BTree.nil) []
      = some [Slot.left] ∧
    get_last_child (BTree.node (BTree.node BTree.nil 2 BTree.nil) 1 BTree.nil) []
      = some [Slot.left] ∧
    is_unique_child (BTree.node (BTree.node BTree.nil 2 BTree.nil) 1 BTree.nil) [Slot.left]
      = false :=
  ⟨fun _ t n => is_unique_child_false t n, rfl, rfl, rfl, rfl⟩

/-- C38: `calculate_size` of a binary node and of an n-ary node is the number of nodes
of the subtree rooted at it and the length of its pre-order sequence; it is 1 for a
childless node. -/
theorem calculate_size_counts_nodes :
    (∀ t : BTree α, binary_node.calculate_size t = t.count ∧
      binary_node.calculate_size t = t.preorder.length) ∧
    (∀ v : α, binary_node.calculate_size (BTree.node BTree.nil v BTree.nil) = 1) ∧
    (∀ t : nary_node α, t.calculate_size = t.count ∧ t.calculate_size = t.preorder.length) ∧
    (∀ v : α, (nary_node.mk v []).calculate_size = 1) :=
  ⟨fun t => ⟨binary_calculate_size_eq_count t,
      by rw [binary_calculate_size_eq_count, length_preorder]⟩,
    fun _ => rfl,
    fun t => ⟨nary_calculate_size_eq_count t,
      by rw [nary_calculate_size_eq_count, nary_length_preorder]⟩,
    fun _ => rfl⟩

/-- C39: `calculate_arity(node, m)` never exceeds the largest number of children of a
node in the subtree rooted at `node`, it is that number whenever that number is at
most `m`, and it is 0 for a childless node. -/
theorem calculate_arity_is_bounded_largest_arity (m : Nat) (t : nary_node α) :
    t.calculate_arity m ≤ t.largest_arity ∧
    (t.largest_arity ≤ m → t.calculate_arity m = t.largest_arity) ∧
    (∀ v : α, (nary_node.mk v []).calculate_arity m = 0) :=
  ⟨(calculate_arity_spec m t).1, (calculate_arity_spec m t).2, fun _ => rfl⟩

end claims

end TreeDS
